import Mathlib

/-!
# Stone-Paper-Scissor World Championship: rating engine and reign reconstruction

A shallow embedding of `server/services/elo.go`, of
`server/cmd/backfill_championships.go`, of `server/services/championship.go`
with `server/models/championship.go`, and of the match handlers of
`server/handlers/match.go` and `handlers/match.go`, followed by the
properties proved about them.

Modelling conventions.

* A `float64` value is a rational number, and the rating engine is embedded
  twice.  In the namespace `Elo64` every arithmetic operation of the source
  is followed by one rounding to the nearest binary64 value, ties to even
  (`Binary64.rne`), in the order in which Go evaluates it; products and sums
  are not fused.  The exponent range is not bounded: overflow to infinity,
  gradual underflow and NaN are outside of the model.  `Duration.Hours` and
  `CalculateDays` are embedded in the same way.  In the namespace `Elo` the
  operations are exact, over any linearly ordered field with a floor
  function; this reading carries the properties that no rounding can
  disturb (exchange of the sides, the clamp, the tie branch, the worked
  example, the bookkeeping of the handlers), and their binary64
  counterparts are proved in `Elo64` as well.
* `math.Pow` is a parameter `pow` of the functions that call it.  The
  theorems of the exact reading that depend on its values instantiate it
  with the real power `Real.rpow`; the evaluations of the binary64 reading
  use `Binary64.mathPow`, which holds the values of `math.Pow` for the base
  10 and an integer exponent.
* Go `int` is a 64-bit two's complement integer: values are `Int`s and the
  result of `+` and `-` is reduced by `wrapInt64`.
* Go `uint` identifiers are `Nat`s, `time.Time` is an `Int` (an instant on a
  linear time axis, counted in nanoseconds where a duration is computed), a
  nil pointer is `none`.
* A database table is the list of its rows.  Queries are answered from the
  rows; the writes whose error the code checks can fail, as chosen by
  parameters of the embedded function.
* A Go `map[uint]float64` is an association list with distinct keys; the
  order in which `range` visits it is chosen by an arbitrary function `iter`
  of the iteration number and the map.
-/

namespace Binary64

/-! IEEE 754 binary64 arithmetic on the rationals: a binary64 value is a
rational `m * 2^k` with `|m| < 2^53`, and an operation of the source is the
exact operation followed by `rne`. -/

/-- Rounding of a rational to the nearest integer, halves to the even
neighbour. -/
def roundHalfEven (y : ℚ) : Int :=
  if y - (⌊y⌋ : Int) < 1 / 2 then ⌊y⌋
  else if 1 / 2 < y - (⌊y⌋ : Int) then ⌊y⌋ + 1
  else if ⌊y⌋ % 2 = 0 then ⌊y⌋ else ⌊y⌋ + 1

/-- The spacing of the binary64 values around `x`: `2^(e-52)` where
`2^e <= |x| < 2^(e+1)`. -/
def ulp (x : ℚ) : ℚ := (2 : ℚ) ^ (Int.log 2 |x| - 52)

/-- Rounding to the nearest binary64 value, ties to even: the multiple of
the spacing `ulp x` nearest to `x`.  The exponent is not bounded. -/
def rne (x : ℚ) : ℚ := (roundHalfEven (x / ulp x) : ℚ) * ulp x

/-- The integer `n` is nearest to `y`, and even when `y` is half-way. -/
def IsNearestEven (y : ℚ) (n : Int) : Prop :=
  |y - (n : ℚ)| ≤ 1 / 2 ∧ (|y - (n : ℚ)| = 1 / 2 → n % 2 = 0)

instance (y : ℚ) (n : Int) : Decidable (IsNearestEven y n) := by
  unfold IsNearestEven
  infer_instance

/-- The float64 sum: the exact sum, rounded. -/
def fadd (x y : ℚ) : ℚ := rne (x + y)

/-- The float64 difference: the exact difference, rounded. -/
def fsub (x y : ℚ) : ℚ := rne (x - y)

/-- The float64 product: the exact product, rounded. -/
def fmul (x y : ℚ) : ℚ := rne (x * y)

/-- The float64 quotient: the exact quotient, rounded. -/
def fdiv (x y : ℚ) : ℚ := rne (x / y)

/-- The Go conversion `float64(n)` of an `int`. -/
def ofInt (n : Int) : ℚ := rne (n : ℚ)

/-- Go `math.Pow(x, y)` on the arguments where its result is fixed by its
special cases and by exact products: `y = 0` or `x = 1` gives 1, `y = 1`
gives `x`, and for the base 10 with an integer exponent `n`, `|n| <= 22`,
the loop of `math.Pow` multiplies exactly up to `10^|n|` and, for a negative
`n`, takes one rounded reciprocal of the mantissa, so that the result is
`10^n` rounded once.  The other arguments (fractional exponents, other
bases) are not modelled: the value is 0 there, and the evaluations of the
engine stay on the arguments above. -/
def mathPow (x y : ℚ) : ℚ :=
  if y = 0 ∨ x = 1 then 1
  else if y = 1 then x
  else if x = 10 ∧ y.den = 1 ∧ |y.num| ≤ 22 then rne ((10 : ℚ) ^ y.num)
  else 0

end Binary64

namespace Elo

/-- Two's complement reduction of an integer to the range of a Go `int`
(64 bits): the value that `+` and `-` produce on overflow. -/
def wrapInt64 (n : Int) : Int := (n + 2 ^ 63) % 2 ^ 64 - 2 ^ 63

/-- Go `math.Round`: the nearest integer, halves rounded away from zero. -/
def mathRound {α : Type} [LinearOrderedField α] [FloorRing α] (x : α) : α :=
  if 0 ≤ x then ((⌊x + 1 / 2⌋ : Int) : α) else -((⌊-x + 1 / 2⌋ : Int) : α)

/-- EloResult contains the result of an ELO calculation. -/
structure EloResult (α : Type) where
  Player1NewElo : α
  Player2NewElo : α
  Player1EloChange : α
  Player2EloChange : α
  deriving DecidableEq, Repr

section Engine

variable {α : Type} [LinearOrderedField α] [FloorRing α]

/-- BaseK is the base K-factor for ELO calculations. -/
def BaseK : α := 32

/-- MinK is the minimum K-factor. -/
def MinK : α := 16

/-- MaxK is the maximum K-factor for newer players. -/
def MaxK : α := 40

/-- CalculateExpectedScore: `1.0 / (1.0 + math.Pow(10, (opponentElo-playerElo)/400.0))`,
in the exact reading (no rounding); the binary64 reading is
`Elo64.CalculateExpectedScore`. -/
def CalculateExpectedScore (pow : α → α → α) (playerElo opponentElo : α) : α :=
  1 / (1 + pow 10 ((opponentElo - playerElo) / 400))

/-- CalculateScoreFactor of `elo.go`, lines 34 to 53, in the exact reading
(no rounding); the binary64 reading is `Elo64.CalculateScoreFactor`. -/
def CalculateScoreFactor (winnerScore loserScore : Int) : α :=
  let totalPoints : Int := wrapInt64 (winnerScore + loserScore)
  if totalPoints = 0 then
    1
  else
    let winRatio : α := (winnerScore : α) / (totalPoints : α)
    let pointDiffRatio : α := ((wrapInt64 (winnerScore - loserScore) : Int) : α) / (totalPoints : α)
    let scoreFactor : α := 0.9 + (winRatio * 0.2) + (pointDiffRatio * 0.3)
    min 1.3 (max 0.9 scoreFactor)

/-- GetKFactor of `elo.go`, lines 57 to 64. -/
def GetKFactor (totalMatches : Int) : α :=
  if totalMatches < 10 then MaxK
  else if totalMatches < 30 then BaseK
  else MinK

/-- The value of `actual1` after the branch of lines 77 to 90. -/
def actual1 (player1Score player2Score : Int) : α :=
  if player1Score > player2Score then 1
  else if player2Score > player1Score then 0
  else 0.5

/-- The value of `actual2` after the branch of lines 77 to 90. -/
def actual2 (player1Score player2Score : Int) : α :=
  if player1Score > player2Score then 0
  else if player2Score > player1Score then 1
  else 0.5

/-- The value of `scoreFactor` after the branch of lines 77 to 90. -/
def scoreFactor (player1Score player2Score : Int) : α :=
  if player1Score > player2Score then CalculateScoreFactor player1Score player2Score
  else if player2Score > player1Score then CalculateScoreFactor player2Score player1Score
  else 1

/-- The local `player1Change` of `CalculateElo` (line 97), before rounding. -/
def player1Change (pow : α → α → α) (player1Elo player2Elo : α)
    (player1Score player2Score : Int) (player1Matches : Int) : α :=
  GetKFactor player1Matches * scoreFactor player1Score player2Score *
    (actual1 player1Score player2Score - CalculateExpectedScore pow player1Elo player2Elo)

/-- The local `player2Change` of `CalculateElo` (line 98), before rounding. -/
def player2Change (pow : α → α → α) (player1Elo player2Elo : α)
    (player1Score player2Score : Int) (player2Matches : Int) : α :=
  GetKFactor player2Matches * scoreFactor player1Score player2Score *
    (actual2 player1Score player2Score - CalculateExpectedScore pow player2Elo player1Elo)

/-- CalculateElo of `elo.go`, lines 68 to 106, in the exact reading (no
rounding other than `math.Round`); the binary64 reading is
`Elo64.CalculateElo`. -/
def CalculateElo (pow : α → α → α) (player1Elo player2Elo : α)
    (player1Score player2Score : Int) (player1Matches player2Matches : Int) : EloResult α :=
  let p1 := player1Change pow player1Elo player2Elo player1Score player2Score player1Matches
  let p2 := player2Change pow player1Elo player2Elo player1Score player2Score player2Matches
  { Player1NewElo := mathRound ((player1Elo + p1) * 100) / 100
    Player2NewElo := mathRound ((player2Elo + p2) * 100) / 100
    Player1EloChange := mathRound (p1 * 100) / 100
    Player2EloChange := mathRound (p2 * 100) / 100 }

/-- Rounding to two decimal places as the specification words it:
`round(100*x)/100`, the nearest integer taken with halves away from zero
(up for a non-negative argument, down for a negative one). -/
def round2 (x : α) : α :=
  (if 100 * x < 0 then ((⌈100 * x - 1 / 2⌉ : Int) : α) else ((⌊100 * x + 1 / 2⌋ : Int) : α)) / 100

/-- The score-dominance factor as the specification words it, over the
mathematical integers: `total = winnerScore + loserScore`, 1.0 when
`total = 0`, otherwise `clamp(0.9 + 0.2·winRatio + 0.3·marginRatio, 0.9, 1.3)`. -/
def scoreFactorSpec (winnerScore loserScore : Int) : α :=
  let total : Int := winnerScore + loserScore
  if total = 0 then 1
  else
    min 1.3 (max 0.9 (0.9 + 0.2 * ((winnerScore : α) / (total : α))
      + 0.3 * (((winnerScore - loserScore : Int) : α) / (total : α))))

end Engine

end Elo

namespace Elo64

open Binary64

/-! Embedding of `server/services/elo.go` over binary64 values: every
arithmetic operation of the source is followed by one rounding, in the order
in which Go evaluates it.  `math.Round`, `math.Min`, `math.Max` and the
comparisons are exact on binary64 values. -/

/-- CalculateExpectedScore: `1.0 / (1.0 + math.Pow(10, (opponentElo-playerElo)/400.0))`. -/
def CalculateExpectedScore (pow : ℚ → ℚ → ℚ) (playerElo opponentElo : ℚ) : ℚ :=
  fdiv 1 (fadd 1 (pow 10 (fdiv (fsub opponentElo playerElo) 400)))

/-- The local `scoreFactor` of `CalculateScoreFactor` (lines 41 to 50),
before it is clamped, for the total `totalPoints`: the constants `0.9`,
`0.2` and `0.3` are the binary64 values nearest to the decimals, and the sum
is evaluated from the left. -/
def rawScoreFactor (winnerScore loserScore totalPoints : Int) : ℚ :=
  let winRatio : ℚ := fdiv (ofInt winnerScore) (ofInt totalPoints)
  let pointDiffRatio : ℚ :=
    fdiv (ofInt (Elo.wrapInt64 (winnerScore - loserScore))) (ofInt totalPoints)
  fadd (fadd (rne (9 / 10)) (fmul winRatio (rne (2 / 10)))) (fmul pointDiffRatio (rne (3 / 10)))

/-- CalculateScoreFactor of `elo.go`, lines 34 to 53. -/
def CalculateScoreFactor (winnerScore loserScore : Int) : ℚ :=
  let totalPoints : Int := Elo.wrapInt64 (winnerScore + loserScore)
  if totalPoints = 0 then
    1
  else
    let scoreFactor : ℚ := rawScoreFactor winnerScore loserScore totalPoints
    min (rne (13 / 10)) (max (rne (9 / 10)) scoreFactor)

/-- GetKFactor of `elo.go`, lines 57 to 64. -/
def GetKFactor (totalMatches : Int) : ℚ :=
  if totalMatches < 10 then 40
  else if totalMatches < 30 then 32
  else 16

/-- The value of `actual1` after the branch of lines 77 to 90. -/
def actual1 (player1Score player2Score : Int) : ℚ :=
  if player1Score > player2Score then 1
  else if player2Score > player1Score then 0
  else 1 / 2

/-- The value of `actual2` after the branch of lines 77 to 90. -/
def actual2 (player1Score player2Score : Int) : ℚ :=
  if player1Score > player2Score then 0
  else if player2Score > player1Score then 1
  else 1 / 2

/-- The value of `scoreFactor` after the branch of lines 77 to 90. -/
def scoreFactor (player1Score player2Score : Int) : ℚ :=
  if player1Score > player2Score then CalculateScoreFactor player1Score player2Score
  else if player2Score > player1Score then CalculateScoreFactor player2Score player1Score
  else 1

/-- The local `player1Change` of `CalculateElo` (line 97):
`k1 * scoreFactor * (actual1 - expected1)`, evaluated from the left. -/
def player1Change (pow : ℚ → ℚ → ℚ) (player1Elo player2Elo : ℚ)
    (player1Score player2Score : Int) (player1Matches : Int) : ℚ :=
  fmul (fmul (GetKFactor player1Matches) (scoreFactor player1Score player2Score))
    (fsub (actual1 player1Score player2Score) (CalculateExpectedScore pow player1Elo player2Elo))

/-- The local `player2Change` of `CalculateElo` (line 98). -/
def player2Change (pow : ℚ → ℚ → ℚ) (player1Elo player2Elo : ℚ)
    (player1Score player2Score : Int) (player2Matches : Int) : ℚ :=
  fmul (fmul (GetKFactor player2Matches) (scoreFactor player1Score player2Score))
    (fsub (actual2 player1Score player2Score) (CalculateExpectedScore pow player2Elo player1Elo))

/-- CalculateElo of `elo.go`, lines 68 to 106. -/
def CalculateElo (pow : ℚ → ℚ → ℚ) (player1Elo player2Elo : ℚ)
    (player1Score player2Score : Int) (player1Matches player2Matches : Int) : Elo.EloResult ℚ :=
  let p1 := player1Change pow player1Elo player2Elo player1Score player2Score player1Matches
  let p2 := player2Change pow player1Elo player2Elo player1Score player2Score player2Matches
  { Player1NewElo := fdiv (Elo.mathRound (fmul (fadd player1Elo p1) 100)) 100
    Player2NewElo := fdiv (Elo.mathRound (fmul (fadd player2Elo p2) 100)) 100
    Player1EloChange := fdiv (Elo.mathRound (fmul p1 100)) 100
    Player2EloChange := fdiv (Elo.mathRound (fmul p2 100)) 100 }

/-- Rounding to two decimal places as the source computes it on a binary64
value: `math.Round(x*100) / 100`, the product and the quotient rounded. -/
def round2 (x : ℚ) : ℚ := fdiv (Elo.mathRound (fmul x 100)) 100

end Elo64

namespace Backfill

/-- The fields of `models.Match` that the reconstruction reads. -/
structure Match where
  Player1ID : Nat
  Player2ID : Nat
  Player1EloAfter : ℚ
  Player2EloAfter : ℚ
  CreatedAt : Int
  deriving DecidableEq, Repr

/-- The field of `models.Player` that the reconstruction reads. -/
structure Player where
  ID : Nat
  deriving DecidableEq, Repr

/-- ChampionshipReign represents a period when a player held the #1 rank;
`EndedAt` is `none` for the nil pointer (currently champion). -/
structure ChampionshipReign where
  PlayerID : Nat
  StartedAt : Int
  EndedAt : Option Int
  deriving DecidableEq, Repr

/-- The Go map `playerElos`, as an association list. -/
abbrev EloMap := List (Nat × ℚ)

/-- The map assignment `playerElos[k] = v`: overwrite the entry of `k`, or
add one. -/
def EloMap.set : EloMap → Nat → ℚ → EloMap
  | [], k, v => [(k, v)]
  | (k', v') :: rest, k, v =>
    if k' = k then (k, v) :: rest else (k', v') :: EloMap.set rest k v

/-- Lines 27 to 38: every known player starts at 1000.0. -/
def initElos (players : List Player) : EloMap :=
  players.foldl (fun m player => EloMap.set m player.ID 1000) []

/-- Lines 53 to 61: the scan for the leader over the entries in the order
`range` visits them, from `topPlayerID = 0` and `topElo = 0`; the result is
`(topPlayerID, topElo)`. -/
def findLeader (visited : List (Nat × ℚ)) : Nat × ℚ :=
  visited.foldl (fun top entry => if entry.2 > top.2 then (entry.1, entry.2) else top) (0, 0)

/-- The variables that live across the iterations of the loop of lines 47
to 89. -/
structure LoopState where
  playerElos : EloMap
  currentChampionID : Nat
  championshipStart : Int
  reigns : List ChampionshipReign
  deriving DecidableEq, Repr

/-- One iteration of the loop of lines 47 to 89, for the match `m` at
index `i`; `iter i` gives the order in which the map is visited. -/
def loopBody (iter : Nat → EloMap → List (Nat × ℚ)) (i : Nat) (st : LoopState)
    (m : Match) : LoopState :=
  let playerElos :=
    EloMap.set (EloMap.set st.playerElos m.Player1ID m.Player1EloAfter)
      m.Player2ID m.Player2EloAfter
  let topPlayerID := (findLeader (iter i playerElos)).1
  if i = 0 then
    { playerElos := playerElos
      currentChampionID := topPlayerID
      championshipStart := m.CreatedAt
      reigns := st.reigns }
  else if topPlayerID ≠ st.currentChampionID then
    { playerElos := playerElos
      currentChampionID := topPlayerID
      championshipStart := m.CreatedAt
      reigns := st.reigns ++
        [{ PlayerID := st.currentChampionID
           StartedAt := st.championshipStart
           EndedAt := some m.CreatedAt }] }
  else
    { playerElos := playerElos
      currentChampionID := st.currentChampionID
      championshipStart := st.championshipStart
      reigns := st.reigns }

/-- The loop of lines 47 to 89 from index `i` on. -/
def loop (iter : Nat → EloMap → List (Nat × ℚ)) : Nat → LoopState → List Match → LoopState
  | _, st, [] => st
  | i, st, m :: rest => loop iter (i + 1) (loopBody iter i st m) rest

/-- The state before the first iteration: the map of lines 27 to 38 and the
zero values of lines 40 to 42. -/
def initState (players : List Player) : LoopState :=
  { playerElos := initElos players
    currentChampionID := 0
    championshipStart := 0
    reigns := [] }

/-- The reigns after line 96: the closed reigns of the loop followed by the
ongoing reign of the current champion. -/
def closeReigns (st : LoopState) : List ChampionshipReign :=
  st.reigns ++
    [{ PlayerID := st.currentChampionID, StartedAt := st.championshipStart, EndedAt := none }]

/-- The value of `reigns` that `BackfillChampionshipHistory` computes (lines
26 to 96) from the players and the matches read in `created_at` order, on
the path taken when there is at least one match. -/
def backfillReigns (iter : Nat → EloMap → List (Nat × ℚ)) (players : List Player)
    (matchList : List Match) : List ChampionshipReign :=
  closeReigns (loop iter 0 (initState players) matchList)

/-- The matches are in the order of `Order("created_at ASC")`. -/
def OrderedByCreatedAt (matchList : List Match) : Prop :=
  matchList.Pairwise (fun m1 m2 => m1.CreatedAt ≤ m2.CreatedAt)

instance (matchList : List Match) : Decidable (OrderedByCreatedAt matchList) := by
  unfold OrderedByCreatedAt
  infer_instance

/-- Every reign of the list has an end timestamp, not before its start. -/
def AllClosed (rs : List ChampionshipReign) : Prop :=
  ∀ r ∈ rs, ∃ e, r.EndedAt = some e ∧ r.StartedAt ≤ e

/-- Two consecutive reigns meet: the first ends when the second starts. -/
def Meets (r1 r2 : ChampionshipReign) : Prop := r1.EndedAt = some r2.StartedAt

/-- The loop invariant: the closed reigns are well-formed, the reigns tile
the time axis from `t0` on, each one ending where the next one starts. -/
def Tiled (t0 : Int) (st : LoopState) : Prop :=
  AllClosed st.reigns ∧ List.Chain' Meets (closeReigns st) ∧
    (closeReigns st).head?.map (fun r => r.StartedAt) = some t0

/-- The two map assignments of lines 49 and 50. -/
def applyMatch (playerElos : EloMap) (m : Match) : EloMap :=
  EloMap.set (EloMap.set playerElos m.Player1ID m.Player1EloAfter)
    m.Player2ID m.Player2EloAfter

/-- The positive maximum of the map, when there is one, has a single holder. -/
def UniqueTop (playerElos : EloMap) : Prop :=
  ∀ e1 ∈ playerElos, ∀ e2 ∈ playerElos,
    0 < e1.2 → (∀ e ∈ playerElos, e.2 ≤ e1.2) → e2.2 = e1.2 → e1.1 = e2.1

/-- After every match of the list, replayed from the given map, the positive
maximum has a single holder. -/
def UniqueTopRun : EloMap → List Match → Prop
  | _, [] => True
  | playerElos, m :: rest =>
    UniqueTop (applyMatch playerElos m) ∧ UniqueTopRun (applyMatch playerElos m) rest

/-- A `range` order: every entry of the map is visited exactly once. -/
def IsRangeOrder (iter : Nat → EloMap → List (Nat × ℚ)) : Prop :=
  ∀ (i : Nat) (playerElos : EloMap), (iter i playerElos).Perm playerElos

/-- What the persistence layer does during one run of the reconstruction:
the rows the two queries return (`none` when the query fails) and which of
the writes fail; `createFails k` is the fate of the insert of the reign at
index `k`. -/
structure DBBehaviour where
  matchRows : Option (List Match)
  playerRows : Option (List Player)
  deleteFails : Bool
  createFails : Nat → Bool

/-- The errors `BackfillChampionshipHistory` returns. -/
inductive BackfillError where
  | fetchMatches
  | fetchPlayers
  | clearReigns
  | createReign
  deriving DecidableEq, Repr

/-- The statements issued against the table `championship_reigns`. -/
inductive DBWrite where
  | deleteAll
  | create (r : ChampionshipReign)
  | rollback
  | commit
  deriving DecidableEq, Repr

/-- The result of a run: the returned error (`none` for nil), the rows of
`championship_reigns` that are persisted afterwards, and the statements
issued against that table. -/
structure BackfillOutcome where
  err : Option BackfillError
  reigns : List ChampionshipReign
  writes : List DBWrite
  deriving DecidableEq, Repr

/-- The insert loop of lines 109 to 114 from index `k` on: whether every
insert succeeded, and the statements issued. -/
def createAll (createFails : Nat → Bool) : Nat → List ChampionshipReign → Bool × List DBWrite
  | _, [] => (true, [])
  | k, r :: rest =>
    if createFails k then (false, [DBWrite.create r])
    else ((createAll createFails (k + 1) rest).1,
          DBWrite.create r :: (createAll createFails (k + 1) rest).2)

/-- BackfillChampionshipHistory of `backfill_championships.go`, lines 12 to
141, run against a table holding the rows `stored`.  The `DELETE` of line 103
is executed on `db`, outside of the transaction that line 108 begins, so it
is in effect as soon as it succeeds; the inserts take effect at the commit. -/
def BackfillChampionshipHistory (iter : Nat → EloMap → List (Nat × ℚ)) (db : DBBehaviour)
    (stored : List ChampionshipReign) : BackfillOutcome :=
  match db.matchRows with
  | none => { err := some BackfillError.fetchMatches, reigns := stored, writes := [] }
  | some matchList =>
    if matchList.length = 0 then
      { err := none, reigns := stored, writes := [] }
    else
      match db.playerRows with
      | none => { err := some BackfillError.fetchPlayers, reigns := stored, writes := [] }
      | some players =>
        let reigns := backfillReigns iter players matchList
        if db.deleteFails then
          { err := some BackfillError.clearReigns, reigns := stored,
            writes := [DBWrite.deleteAll] }
        else if (createAll db.createFails 0 reigns).1 then
          { err := none, reigns := reigns,
            writes := DBWrite.deleteAll :: (createAll db.createFails 0 reigns).2
              ++ [DBWrite.commit] }
        else
          { err := some BackfillError.createReign, reigns := [],
            writes := DBWrite.deleteAll :: (createAll db.createFails 0 reigns).2
              ++ [DBWrite.rollback] }

/-- The leader after each match of the list: the value of `topPlayerID` in
every iteration of the loop, from index `i` and the map `playerElos` on. -/
def leaderTrace (iter : Nat → EloMap → List (Nat × ℚ)) : Nat → EloMap → List Match → List Nat
  | _, _, [] => []
  | i, playerElos, m :: rest =>
    (findLeader (iter i (applyMatch playerElos m))).1 ::
      leaderTrace iter (i + 1) (applyMatch playerElos m) rest

/-- The number of entries of a list that differ from the entry before
them. -/
def countChanges : List Nat → Nat
  | a :: b :: rest => (if a ≠ b then 1 else 0) + countChanges (b :: rest)
  | _ => 0

/-- The leader as the specification words it: the key of the entry that
holds the maximum rating, the first such entry in the visiting order. -/
def IsFirstMaxHolder (visited : List (Nat × ℚ)) (leader : Nat) : Prop :=
  ∃ pre e post, visited = pre ++ e :: post ∧ e.1 = leader ∧
    (∀ x ∈ pre, x.2 < e.2) ∧ (∀ x ∈ post, x.2 ≤ e.2)

/-- The maximum rating of the map is strictly positive and is held by
exactly one competitor. -/
def PositiveUniqueTop (playerElos : EloMap) : Prop :=
  ∃ e ∈ playerElos, 0 < e.2 ∧ (∀ x ∈ playerElos, x.2 ≤ e.2) ∧
    ∀ x ∈ playerElos, x.2 = e.2 → x.1 = e.1

/-- After every match of the list, replayed from the given map, the maximum
rating is strictly positive and is held by exactly one competitor. -/
def PositiveUniqueTopRun : EloMap → List Match → Prop
  | _, [] => True
  | playerElos, m :: rest =>
    PositiveUniqueTop (applyMatch playerElos m) ∧
      PositiveUniqueTopRun (applyMatch playerElos m) rest

end Backfill

namespace Championship

open Backfill (ChampionshipReign)

/-! Embedding of `server/services/championship.go`, `server/models/championship.go`
and of the handler `GetCurrentChampion`.  The table `championship_reigns` is
the list of its rows in the order of their primary keys; queries are answered
from the rows, `Save` and `Create` can fail. -/

/-- The number of rows with an absent end timestamp. -/
def openCount (store : List ChampionshipReign) : Nat :=
  (store.filter (fun r => r.EndedAt.isNone)).length

/-- Lines 24 to 31 of `championship.go`: the first row with
`player_id = pid AND ended_at IS NULL` gets `EndedAt = now`; `none` when
there is no such row. -/
def closeFirstOpen (pid : Nat) (now : Int) :
    List ChampionshipReign → Option (List ChampionshipReign)
  | [] => none
  | r :: rest =>
    if r.PlayerID = pid ∧ r.EndedAt = none then
      some ({ PlayerID := r.PlayerID, StartedAt := r.StartedAt, EndedAt := some now } :: rest)
    else
      (closeFirstOpen pid now rest).map (fun rest' => r :: rest')

/-- The result of `TrackChampionshipChange`: whether a non-nil error is
returned, and the rows of the table afterwards. -/
structure TrackOutcome where
  err : Bool
  reigns : List ChampionshipReign
  deriving DecidableEq, Repr

/-- The block of lines 21 to 33: `none` when `Save` fails and its error is
returned, otherwise the rows after the block. -/
def endPreviousReign (saveFails : Bool) (now : Int) (store : List ChampionshipReign)
    (newChampionID : Nat) (oldChampionID : Option Nat) : Option (List ChampionshipReign) :=
  match oldChampionID with
  | none => some store
  | some old =>
    if old ≠ newChampionID then
      match closeFirstOpen old now store with
      | none => some store
      | some store' => if saveFails then none else some store'
    else some store

/-- TrackChampionshipChange of `championship.go`, lines 11 to 42, called at
time `now` on the table `store`. -/
def TrackChampionshipChange (saveFails createFails : Bool) (now : Int)
    (store : List ChampionshipReign) (newChampionID : Nat) (oldChampionID : Option Nat) :
    TrackOutcome :=
  if oldChampionID = some newChampionID then
    { err := false, reigns := store }
  else
    match endPreviousReign saveFails now store newChampionID oldChampionID with
    | none => { err := true, reigns := store }
    | some store' =>
      if createFails then { err := true, reigns := store' }
      else { err := false,
             reigns := store' ++
               [{ PlayerID := newChampionID, StartedAt := now, EndedAt := none }] }

/-- The largest and smallest `time.Duration`, in nanoseconds. -/
def maxDuration : Int := 2 ^ 63 - 1

/-- The smallest `time.Duration`, in nanoseconds. -/
def minDuration : Int := -2 ^ 63

/-- Go `Time.Sub` on instants counted in nanoseconds: the difference,
saturated to the range of a `time.Duration`. -/
def timeSub (t u : Int) : Int := max minDuration (min maxDuration (t - u))

/-- Go `Duration.Hours`: `float64(d / Hour) + float64(d % Hour) / (60 * 60 * 1e9)`,
with the integer quotient and remainder of Go, which truncate towards zero,
one binary64 rounding for the quotient and one for the sum. -/
def durationHours (d : Int) : ℚ :=
  let hour : Int := Int.tdiv d 3600000000000
  let nsec : Int := Int.tmod d 3600000000000
  Binary64.fadd (Binary64.ofInt hour) (Binary64.fdiv (Binary64.ofInt nsec) 3600000000000)

/-- Go conversion `int(x)` of a floating-point value: the fraction is
discarded (truncation towards zero). -/
def floatToInt (x : ℚ) : Int := if 0 ≤ x then ⌊x⌋ else ⌈x⌉

/-- CalculateDays of `models/championship.go`, lines 23 to 30, when
`time.Now()` is `now`. -/
def CalculateDays (now : Int) (c : ChampionshipReign) : Int :=
  let endTime : Int := match c.EndedAt with
    | some e => e
    | none => now
  let duration := timeSub endTime c.StartedAt
  floatToInt (Binary64.fdiv (durationHours duration) 24)

/-- The query of lines 47 to 51: among the rows with `ended_at IS NULL`, the
first one in the order `started_at DESC` (rows with the same start in the
order of their primary keys). -/
def firstOpenByStartDesc : List ChampionshipReign → Option ChampionshipReign
  | [] => none
  | r :: rest =>
    match firstOpenByStartDesc rest with
    | none => if r.EndedAt = none then some r else none
    | some best =>
      if r.EndedAt = none ∧ best.StartedAt ≤ r.StartedAt then some r else some best

/-- GetCurrentChampion of `services/championship.go`, lines 45 to 59: `none`
when the query finds no row (an error is returned), otherwise the row and
the value stored in its `Days` field. -/
def GetCurrentChampion (now : Int) (store : List ChampionshipReign) :
    Option (ChampionshipReign × Int) :=
  match firstOpenByStartDesc store with
  | none => none
  | some reign => some (reign, CalculateDays now reign)

/-- The handler `GetCurrentChampion` of `handlers/championship.go`, lines 12
to 21: the status of the answer and the reign in its body. -/
def GetCurrentChampionHandler (now : Int) (store : List ChampionshipReign) :
    Nat × Option (ChampionshipReign × Int) :=
  match GetCurrentChampion now store with
  | none => (404, none)
  | some reign => (200, some reign)

/-- The whole days of a duration as the specification words it: the
duration divided by 24 hours, rounded down. -/
def daysFloor (d : Int) : Int := ⌊(d : ℚ) / (24 * 3600000000000)⌋

end Championship


namespace Handlers

open Elo

/-! Embedding of the handlers `SubmitMatch` and `DeleteMatch` of
`server/handlers/match.go` and of the earlier `SubmitMatch` of
`handlers/match.go`.  The table `players` is the list of its rows; a request
is the parsed body.  The declaration of the request type of the server
handler is not among the sources: its fields are the ones the handler
reads. -/

/-- The fields of `models.Player`. -/
structure Player (α : Type) where
  ID : Nat
  Name : String
  Elo : α
  MatchesWon : Int
  MatchesLost : Int
  MatchesDrawn : Int
  TotalMatches : Int
  deriving DecidableEq, Repr

/-- The fields of `models.Match` that `SubmitMatch` writes. -/
structure Match (α : Type) where
  Player1ID : Nat
  Player2ID : Nat
  Player1Score : Int
  Player2Score : Int
  WinnerID : Option Nat
  Player1EloChange : α
  Player2EloChange : α
  Player1EloBefore : α
  Player2EloBefore : α
  Player1EloAfter : α
  Player2EloAfter : α
  deriving DecidableEq, Repr

/-- The request body of the server handler: identifiers (0 when not
provided), names (empty when not provided) and scores. -/
structure MatchRequest where
  Player1ID : Nat
  Player2ID : Nat
  Player1Name : String
  Player2Name : String
  Player1Score : Int
  Player2Score : Int
  deriving DecidableEq, Repr

/-- MatchRequest of `models/match.go`, the request body of the earlier
handler. -/
structure LegacyMatchRequest where
  Player1ID : Nat
  Player2ID : Nat
  Player1Score : Int
  Player2Score : Int
  deriving DecidableEq, Repr

/-- Which of the writes of a request fail. -/
structure WriteFaults where
  createPlayer1 : Bool
  createPlayer2 : Bool
  savePlayer1 : Bool
  savePlayer2 : Bool
  createMatch : Bool
  deriving DecidableEq, Repr

/-- The answer of `SubmitMatch`: the status code, the two players and the
scores passed to `CalculateElo` (`none` when it is not called), the table
`players` afterwards and the match record that is committed, if any. -/
structure SubmitOutcome (α : Type) where
  status : Nat
  eloCall : Option (Player α × Player α × Int × Int)
  players : List (Player α)
  created : Option (Match α)

/-- A value of the Go type `int`. -/
def IsInt64 (x : Int) : Prop := -2 ^ 63 ≤ x ∧ x < 2 ^ 63

instance (x : Int) : Decidable (IsInt64 x) := by
  unfold IsInt64
  infer_instance

/-- Go `x++` on an `int`. -/
def incr (x : Int) : Int := wrapInt64 (x + 1)

/-- Go `x--` on an `int`. -/
def decr (x : Int) : Int := wrapInt64 (x - 1)

section Update

variable {α : Type} [LinearOrderedField α] [FloorRing α]

/-- Lines 85 to 131 of the server handler (lines 46 to 91 of the earlier
one): the rating computation, the winner, the counters and the match
record.  The result is the two updated players and the record. -/
def submitUpdate (pow : α → α → α) (player1 player2 : Player α)
    (player1Score player2Score : Int) : Player α × Player α × Match α :=
  let eloResult := CalculateElo pow player1.Elo player2.Elo player1Score player2Score
    player1.TotalMatches player2.TotalMatches
  let winnerID : Option Nat :=
    if player1Score > player2Score then some player1.ID
    else if player2Score > player1Score then some player2.ID
    else none
  let p1 : Player α :=
    if player1Score > player2Score then { player1 with MatchesWon := incr player1.MatchesWon }
    else if player2Score > player1Score then
      { player1 with MatchesLost := incr player1.MatchesLost }
    else { player1 with MatchesDrawn := incr player1.MatchesDrawn }
  let p2 : Player α :=
    if player1Score > player2Score then { player2 with MatchesLost := incr player2.MatchesLost }
    else if player2Score > player1Score then
      { player2 with MatchesWon := incr player2.MatchesWon }
    else { player2 with MatchesDrawn := incr player2.MatchesDrawn }
  let record : Match α :=
    { Player1ID := player1.ID
      Player2ID := player2.ID
      Player1Score := player1Score
      Player2Score := player2Score
      WinnerID := winnerID
      Player1EloBefore := player1.Elo
      Player2EloBefore := player2.Elo
      Player1EloAfter := eloResult.Player1NewElo
      Player2EloAfter := eloResult.Player2NewElo
      Player1EloChange := eloResult.Player1EloChange
      Player2EloChange := eloResult.Player2EloChange }
  ({ p1 with Elo := eloResult.Player1NewElo, TotalMatches := incr p1.TotalMatches },
   { p2 with Elo := eloResult.Player2NewElo, TotalMatches := incr p2.TotalMatches },
   record)

/-- Lines 419 to 437 of `DeleteMatch`: the reversal of a stored match on the
two players read from the table. -/
def reverseUpdate (player1 player2 : Player α) (record : Match α) : Player α × Player α :=
  let p1 : Player α :=
    { player1 with Elo := record.Player1EloBefore, TotalMatches := decr player1.TotalMatches }
  let p2 : Player α :=
    { player2 with Elo := record.Player2EloBefore, TotalMatches := decr player2.TotalMatches }
  match record.WinnerID with
  | some winner =>
    if winner = p1.ID then
      ({ p1 with MatchesWon := decr p1.MatchesWon },
       { p2 with MatchesLost := decr p2.MatchesLost })
    else
      ({ p1 with MatchesLost := decr p1.MatchesLost },
       { p2 with MatchesWon := decr p2.MatchesWon })
  | none =>
    ({ p1 with MatchesDrawn := decr p1.MatchesDrawn },
     { p2 with MatchesDrawn := decr p2.MatchesDrawn })

/-- `First(&player, id)`: the row with the primary key `id`. -/
def findByID (players : List (Player α)) (id : Nat) : Option (Player α) :=
  players.find? (fun p => decide (p.ID = id))

/-- `Where("name = ?", name).First(&player)`: the first row with that name. -/
def findByName (players : List (Player α)) (name : String) : Option (Player α) :=
  players.find? (fun p => decide (p.Name = name))

/-- The primary key the table gives to the next row. -/
def nextID (players : List (Player α)) : Nat :=
  (players.map (fun p => p.ID)).foldr max 0 + 1

/-- `Save(&player)`: the row with the player's primary key is replaced. -/
def savePlayer (players : List (Player α)) (player : Player α) : List (Player α) :=
  players.map (fun p => if p.ID = player.ID then player else p)

/-- Lines 55 to 62 (and 65 to 72): find the player of that name, or create
it with rating 1000; `none` when the creation fails. -/
def findOrCreate (createFails : Bool) (players : List (Player α)) (name : String) :
    Option (Player α × List (Player α)) :=
  match findByName players name with
  | some player => some (player, players)
  | none =>
    if createFails then none
    else
      some ({ ID := nextID players, Name := name, Elo := 1000, MatchesWon := 0,
              MatchesLost := 0, MatchesDrawn := 0, TotalMatches := 0 },
            players ++ [{ ID := nextID players, Name := name, Elo := 1000, MatchesWon := 0,
                          MatchesLost := 0, MatchesDrawn := 0, TotalMatches := 0 }])

/-- Lines 26 to 77 of the server handler: the two players of the request,
by identifier or by name, and the table afterwards; on a rejection the status
code and the table. -/
def resolvePlayers (faults : WriteFaults) (players : List (Player α)) (req : MatchRequest) :
    Except (Nat × List (Player α)) (Player α × Player α × List (Player α)) :=
  if req.Player1ID ≠ 0 ∧ req.Player2ID ≠ 0 then
    if req.Player1ID = req.Player2ID then Except.error (400, players)
    else
      match findByID players req.Player1ID with
      | none => Except.error (404, players)
      | some player1 =>
        match findByID players req.Player2ID with
        | none => Except.error (404, players)
        | some player2 => Except.ok (player1, player2, players)
  else if req.Player1Name ≠ "" ∧ req.Player2Name ≠ "" then
    if req.Player1Name = req.Player2Name then Except.error (400, players)
    else
      match findOrCreate faults.createPlayer1 players req.Player1Name with
      | none => Except.error (500, players)
      | some (player1, players1) =>
        match findOrCreate faults.createPlayer2 players1 req.Player2Name with
        | none => Except.error (500, players1)
        | some (player2, players2) => Except.ok (player1, player2, players2)
  else Except.error (400, players)

/-- Lines 85 to 192 of the server handler (lines 46 to 150 of the earlier
one), for the two players found: the call of `CalculateElo`, the update and
the transaction that saves the players and creates the match record. -/
def computeAndStore (pow : α → α → α) (faults : WriteFaults) (players : List (Player α))
    (player1 player2 : Player α) (player1Score player2Score : Int) : SubmitOutcome α :=
  if faults.savePlayer1 ∨ faults.savePlayer2 ∨ faults.createMatch then
    { status := 500
      eloCall := some (player1, player2, player1Score, player2Score)
      players := players
      created := none }
  else
    { status := 201
      eloCall := some (player1, player2, player1Score, player2Score)
      players :=
        savePlayer
          (savePlayer players (submitUpdate pow player1 player2 player1Score player2Score).1)
          (submitUpdate pow player1 player2 player1Score player2Score).2.1
      created := some (submitUpdate pow player1 player2 player1Score player2Score).2.2 }

/-- SubmitMatch of `server/handlers/match.go`, lines 13 to 192, on a parsed
request. -/
def SubmitMatch (pow : α → α → α) (faults : WriteFaults) (players : List (Player α))
    (req : MatchRequest) : SubmitOutcome α :=
  match resolvePlayers faults players req with
  | Except.error (status, players') =>
    { status := status, eloCall := none, players := players', created := none }
  | Except.ok (player1, player2, players') =>
    if req.Player1Score < 0 ∨ req.Player2Score < 0 then
      { status := 400, eloCall := none, players := players', created := none }
    else
      computeAndStore pow faults players' player1 player2 req.Player1Score req.Player2Score

/-- SubmitMatch of `handlers/match.go`, lines 12 to 150, on a parsed
request. -/
def LegacySubmitMatch (pow : α → α → α) (faults : WriteFaults) (players : List (Player α))
    (req : LegacyMatchRequest) : SubmitOutcome α :=
  if req.Player1ID = req.Player2ID then
    { status := 400, eloCall := none, players := players, created := none }
  else if req.Player1Score < 0 ∨ req.Player2Score < 0 then
    { status := 400, eloCall := none, players := players, created := none }
  else
    match findByID players req.Player1ID with
    | none => { status := 404, eloCall := none, players := players, created := none }
    | some player1 =>
      match findByID players req.Player2ID with
      | none => { status := 404, eloCall := none, players := players, created := none }
      | some player2 =>
        computeAndStore pow faults players player1 player2 req.Player1Score req.Player2Score

/-- The Go comparison
`TotalMatches == MatchesWon + MatchesLost + MatchesDrawn` holds for the
player. -/
def CountersAgree (p : Player α) : Prop :=
  p.TotalMatches = wrapInt64 (wrapInt64 (p.MatchesWon + p.MatchesLost) + p.MatchesDrawn)

instance (p : Player α) : Decidable (CountersAgree p) := by
  unfold CountersAgree
  infer_instance

/-- The total is the sum of the three counters, over the mathematical
integers. -/
def CountersSum (p : Player α) : Prop :=
  p.TotalMatches = p.MatchesWon + p.MatchesLost + p.MatchesDrawn

instance (p : Player α) : Decidable (CountersSum p) := by
  unfold CountersSum
  infer_instance

/-- The counters are counts (non-negative) and the total can be incremented
without leaving the range of a Go `int`. -/
def CountersInRange (p : Player α) : Prop :=
  0 ≤ p.MatchesWon ∧ 0 ≤ p.MatchesLost ∧ 0 ≤ p.MatchesDrawn ∧ p.TotalMatches < 2 ^ 63 - 1

instance (p : Player α) : Decidable (CountersInRange p) := by
  unfold CountersInRange
  infer_instance

end Update

end Handlers


namespace Binary64

/-! ## Rounding to binary64: lemmas -/

theorem roundHalfEven_spec (y : ℚ) : IsNearestEven y (roundHalfEven y) := by
  have h1 := Int.floor_le y
  have h2 := Int.lt_floor_add_one y
  unfold roundHalfEven IsNearestEven
  by_cases ha : y - (⌊y⌋ : Int) < 1 / 2
  · rw [if_pos ha]
    have : |y - (⌊y⌋ : ℚ)| = y - (⌊y⌋ : ℚ) := abs_of_nonneg (by linarith)
    rw [this]
    exact ⟨le_of_lt ha, fun h => absurd h (ne_of_lt ha)⟩
  · rw [if_neg ha]
    by_cases hb : 1 / 2 < y - (⌊y⌋ : Int)
    · rw [if_pos hb]
      have : |y - ((⌊y⌋ + 1 : Int) : ℚ)| = (⌊y⌋ : ℚ) + 1 - y := by
        push_cast
        rw [abs_of_nonpos (by linarith)]
        ring
      rw [this]
      exact ⟨by linarith, fun h => by linarith⟩
    · rw [if_neg hb]
      have hr : y - (⌊y⌋ : ℚ) = 1 / 2 := le_antisymm (not_lt.mp hb) (not_lt.mp ha)
      by_cases hc : ⌊y⌋ % 2 = 0
      · rw [if_pos hc]
        have : |y - (⌊y⌋ : ℚ)| = 1 / 2 := by rw [hr]; norm_num
        exact ⟨le_of_eq this, fun _ => hc⟩
      · rw [if_neg hc]
        have : |y - ((⌊y⌋ + 1 : Int) : ℚ)| = 1 / 2 := by
          push_cast
          have e : y - ((⌊y⌋ : ℚ) + 1) = -(1 / 2) := by linarith
          rw [e, abs_neg]
          norm_num
        exact ⟨le_of_eq this, fun _ => by omega⟩

theorem isNearestEven_unique (y : ℚ) (n m : Int) (hn : IsNearestEven y n)
    (hm : IsNearestEven y m) : n = m := by
  obtain ⟨n1, n2⟩ := hn
  obtain ⟨m1, m2⟩ := hm
  have a1 := abs_le.mp n1
  have a2 := abs_le.mp m1
  have hd : ((n - m : Int) : ℚ) ≤ 1 ∧ (-1 : ℚ) ≤ ((n - m : Int) : ℚ) := by
    push_cast
    constructor <;> linarith [a1.1, a1.2, a2.1, a2.2]
  have hd1 : n - m ≤ 1 := by exact_mod_cast hd.1
  have hd2 : -1 ≤ n - m := by exact_mod_cast hd.2
  rcases (by omega : n - m = 1 ∨ n - m = -1 ∨ n - m = 0) with h | h | h
  · exfalso
    have hq : (n : ℚ) = m + 1 := by
      have : n = m + 1 := by omega
      rw [this]; push_cast; ring
    have e1 : y - (n : ℚ) = -(1 / 2) := by linarith [a1.1, a2.2]
    have e2 : y - (m : ℚ) = 1 / 2 := by linarith [a1.1, a2.2]
    have hn' := n2 (by rw [e1, abs_neg]; norm_num)
    have hm' := m2 (by rw [e2]; norm_num)
    omega
  · exfalso
    have hq : (m : ℚ) = n + 1 := by
      have : m = n + 1 := by omega
      rw [this]; push_cast; ring
    have e1 : y - (m : ℚ) = -(1 / 2) := by linarith [a2.1, a1.2]
    have e2 : y - (n : ℚ) = 1 / 2 := by linarith [a2.1, a1.2]
    have hm' := m2 (by rw [e1, abs_neg]; norm_num)
    have hn' := n2 (by rw [e2]; norm_num)
    omega
  · omega

theorem roundHalfEven_eq (y : ℚ) (n : Int) (h : IsNearestEven y n) : roundHalfEven y = n :=
  isNearestEven_unique y _ _ (roundHalfEven_spec y) h

theorem roundHalfEven_eq_of_lt (y : ℚ) (n : Int) (h : |y - (n : ℚ)| < 1 / 2) :
    roundHalfEven y = n :=
  roundHalfEven_eq y n ⟨le_of_lt h, fun h' => absurd h' (ne_of_lt h)⟩

theorem roundHalfEven_intCast (n : Int) : roundHalfEven (n : ℚ) = n :=
  roundHalfEven_eq_of_lt _ n (by simp)

theorem roundHalfEven_neg (y : ℚ) : roundHalfEven (-y) = -roundHalfEven y := by
  apply roundHalfEven_eq
  obtain ⟨h1, h2⟩ := roundHalfEven_spec y
  have e : -y - ((-roundHalfEven y : Int) : ℚ) = -(y - (roundHalfEven y : ℚ)) := by
    push_cast; ring
  refine ⟨by rw [e, abs_neg]; exact h1, fun h => ?_⟩
  rw [e, abs_neg] at h
  have := h2 h
  omega

theorem roundHalfEven_mono {y1 y2 : ℚ} (h : y1 ≤ y2) : roundHalfEven y1 ≤ roundHalfEven y2 := by
  by_contra hlt
  rw [not_le] at hlt
  obtain ⟨a1, a2⟩ := roundHalfEven_spec y1
  obtain ⟨b1, b2⟩ := roundHalfEven_spec y2
  have a := abs_le.mp a1
  have b := abs_le.mp b1
  have hq : ((roundHalfEven y2 : Int) : ℚ) + 1 ≤ (roundHalfEven y1 : ℚ) := by
    have : roundHalfEven y2 + 1 ≤ roundHalfEven y1 := by omega
    exact_mod_cast this
  have e : y1 = y2 := by linarith [a.1, a.2, b.1, b.2]
  rw [e] at hlt
  exact lt_irrefl _ hlt

theorem abs_roundHalfEven_sub_le (y : ℚ) : |(roundHalfEven y : ℚ) - y| ≤ 1 / 2 := by
  rw [abs_sub_comm]
  exact (roundHalfEven_spec y).1

theorem ulp_pos (x : ℚ) : 0 < ulp x := by
  unfold ulp
  positivity

theorem ulp_neg (x : ℚ) : ulp (-x) = ulp x := by
  unfold ulp
  rw [abs_neg]

theorem rne_neg (x : ℚ) : rne (-x) = -rne x := by
  unfold rne
  rw [ulp_neg, neg_div, roundHalfEven_neg]
  push_cast
  ring

theorem rne_zero : rne 0 = 0 := by
  unfold rne
  rw [zero_div]
  have := roundHalfEven_intCast 0
  simp only [Int.cast_zero] at this
  rw [this]
  simp

theorem zpow_log_le (x : ℚ) (hx : x ≠ 0) : (2 : ℚ) ^ Int.log 2 |x| ≤ |x| := by
  have := Int.zpow_log_le_self (by norm_num : 1 < 2) (abs_pos.mpr hx)
  simpa using this

theorem lt_zpow_log_succ (x : ℚ) : |x| < (2 : ℚ) ^ (Int.log 2 |x| + 1) := by
  have := Int.lt_zpow_succ_log_self (by norm_num : 1 < 2) |x|
  simpa using this

theorem log_eq_of_bounds (r : ℚ) (e : Int) (h1 : (2 : ℚ) ^ e ≤ r) (h2 : r < (2 : ℚ) ^ (e + 1)) :
    Int.log 2 r = e := by
  have hr : 0 < r := lt_of_lt_of_le (by positivity) h1
  have a : e ≤ Int.log 2 r := by
    rw [← Int.zpow_le_iff_le_log (by norm_num) hr]
    simpa using h1
  have b : Int.log 2 r < e + 1 := by
    rw [← Int.lt_zpow_iff_log_lt (by norm_num) hr]
    simpa using h2
  omega

/-- The error of one rounding is at most half a unit in the last place. -/
theorem abs_rne_sub_le_ulp (x : ℚ) : |rne x - x| ≤ ulp x / 2 := by
  unfold rne
  have hu := ulp_pos x
  have e : (roundHalfEven (x / ulp x) : ℚ) * ulp x - x
      = ((roundHalfEven (x / ulp x) : ℚ) - x / ulp x) * ulp x := by
    field_simp
  rw [e, abs_mul, abs_of_pos hu]
  have := abs_roundHalfEven_sub_le (x / ulp x)
  nlinarith

/-- The relative error of one rounding is at most `2^-53`. -/
theorem abs_rne_sub_le (x : ℚ) : |rne x - x| ≤ |x| / 2 ^ 53 := by
  by_cases hx : x = 0
  · subst hx
    rw [rne_zero]
    simp
  · have h1 := abs_rne_sub_le_ulp x
    have h2 := zpow_log_le x hx
    have h3 : ulp x / 2 = (2 : ℚ) ^ Int.log 2 |x| / 2 ^ 53 := by
      unfold ulp
      rw [zpow_sub₀ (by norm_num : (2 : ℚ) ≠ 0)]
      norm_num
      ring
    rw [h3] at h1
    have h4 : (2 : ℚ) ^ Int.log 2 |x| / 2 ^ 53 ≤ |x| / 2 ^ 53 :=
      div_le_div_of_nonneg_right h2 (by positivity)
    linarith

theorem ulp_of_bounds (x : ℚ) (e : Int) (h1 : (2 : ℚ) ^ e ≤ |x|) (h2 : |x| < (2 : ℚ) ^ (e + 1)) :
    ulp x = (2 : ℚ) ^ (e - 52) := by
  unfold ulp
  rw [log_eq_of_bounds |x| e h1 h2]

/-- Evaluation of one rounding from the binade of the argument and the
nearest multiple of the spacing. -/
theorem rne_eq_of_nearest (x : ℚ) (e n : Int) (h1 : (2 : ℚ) ^ e ≤ |x|)
    (h2 : |x| < (2 : ℚ) ^ (e + 1)) (hn : IsNearestEven (x / (2 : ℚ) ^ (e - 52)) n) :
    rne x = (n : ℚ) * (2 : ℚ) ^ (e - 52) := by
  unfold rne
  rw [ulp_of_bounds x e h1 h2, roundHalfEven_eq _ n hn]

/-- Values `m * 2^k` with `|m| < 2^53` are binary64 values: rounding leaves
them as they are. -/
theorem rne_int_mul_zpow (m k : Int) (hm : |m| < 2 ^ 53) :
    rne ((m : ℚ) * (2 : ℚ) ^ k) = (m : ℚ) * (2 : ℚ) ^ k := by
  by_cases h0 : m = 0
  · subst h0
    simp [rne_zero]
  · have hk : (0 : ℚ) < (2 : ℚ) ^ k := by positivity
    have hx : (m : ℚ) * (2 : ℚ) ^ k ≠ 0 :=
      mul_ne_zero (by exact_mod_cast h0) (ne_of_gt hk)
    have habs : |(m : ℚ) * (2 : ℚ) ^ k| < (2 : ℚ) ^ (53 + k) := by
      rw [abs_mul, abs_of_pos hk, zpow_add₀ (by norm_num : (2 : ℚ) ≠ 0)]
      have : |(m : ℚ)| < 2 ^ 53 := by
        have : ((|m| : Int) : ℚ) < ((2 ^ 53 : Int) : ℚ) := by exact_mod_cast hm
        simpa using this
      have h53 : (2 : ℚ) ^ (53 : Int) = 2 ^ 53 := by norm_num
      rw [h53]
      exact mul_lt_mul_of_pos_right this hk
    have hlog : Int.log 2 |(m : ℚ) * (2 : ℚ) ^ k| < 53 + k := by
      rw [← Int.lt_zpow_iff_log_lt (by norm_num) (abs_pos.mpr hx)]
      simpa using habs
    unfold rne ulp
    generalize Int.log 2 |(m : ℚ) * (2 : ℚ) ^ k| = e at hlog
    obtain ⟨j, hj⟩ : ∃ j : ℕ, k - (e - 52) = (j : Int) :=
      ⟨(k - (e - 52)).toNat, by omega⟩
    have hdiv : (m : ℚ) * (2 : ℚ) ^ k / (2 : ℚ) ^ (e - 52) = ((m * 2 ^ j : Int) : ℚ) := by
      rw [mul_div_assoc, ← zpow_sub₀ (by norm_num : (2 : ℚ) ≠ 0), hj, zpow_natCast]
      push_cast
      ring
    rw [hdiv, roundHalfEven_intCast]
    push_cast
    rw [mul_assoc, ← zpow_natCast, ← hj, ← zpow_add₀ (by norm_num : (2 : ℚ) ≠ 0)]
    congr 2
    omega

theorem rne_intCast (m : Int) (hm : |m| < 2 ^ 53) : rne (m : ℚ) = (m : ℚ) := by
  have := rne_int_mul_zpow m 0 hm
  simpa using this

theorem rne_one : rne 1 = 1 := by
  have := rne_intCast 1 (by norm_num)
  simpa using this

theorem rne_nonneg {x : ℚ} (h : 0 ≤ x) : 0 ≤ rne x := by
  unfold rne
  have hu := ulp_pos x
  have h1 : (0 : ℚ) ≤ x / ulp x := div_nonneg h (le_of_lt hu)
  have h2 := roundHalfEven_mono h1
  have h3 : roundHalfEven (0 : ℚ) = 0 := by
    have := roundHalfEven_intCast 0
    simpa using this
  rw [h3] at h2
  have : (0 : ℚ) ≤ (roundHalfEven (x / ulp x) : ℚ) := by exact_mod_cast h2
  positivity

theorem rne_nonpos {x : ℚ} (h : x ≤ 0) : rne x ≤ 0 := by
  have := rne_nonneg (neg_nonneg.mpr h)
  rw [rne_neg] at this
  linarith

/-- A positive value is rounded within its binade. -/
theorem rne_mem_binade (x : ℚ) (hx : 0 < x) :
    (2 : ℚ) ^ Int.log 2 |x| ≤ rne x ∧ rne x ≤ (2 : ℚ) ^ (Int.log 2 |x| + 1) := by
  have h1 := zpow_log_le x (ne_of_gt hx)
  have h2 := lt_zpow_log_succ x
  rw [abs_of_pos hx] at h1 h2 ⊢
  unfold rne ulp
  rw [abs_of_pos hx]
  generalize Int.log 2 x = e at h1 h2
  have hu : (0 : ℚ) < (2 : ℚ) ^ (e - 52) := by positivity
  have e1 : (2 : ℚ) ^ e = ((2 ^ 52 : Int) : ℚ) * (2 : ℚ) ^ (e - 52) := by
    rw [zpow_sub₀ (by norm_num : (2 : ℚ) ≠ 0)]
    norm_num
    ring
  have e2 : (2 : ℚ) ^ (e + 1) = ((2 ^ 53 : Int) : ℚ) * (2 : ℚ) ^ (e - 52) := by
    rw [zpow_sub₀ (by norm_num : (2 : ℚ) ≠ 0), zpow_add₀ (by norm_num : (2 : ℚ) ≠ 0)]
    norm_num
    ring
  have a1 : ((2 ^ 52 : Int) : ℚ) ≤ x / (2 : ℚ) ^ (e - 52) := by
    rw [le_div_iff₀ hu, ← e1]
    exact h1
  have a2 : x / (2 : ℚ) ^ (e - 52) ≤ ((2 ^ 53 : Int) : ℚ) := by
    rw [div_le_iff₀ hu, ← e2]
    exact le_of_lt h2
  have b1 := roundHalfEven_mono a1
  have b2 := roundHalfEven_mono a2
  rw [roundHalfEven_intCast] at b1 b2
  have c1 : ((2 ^ 52 : Int) : ℚ) ≤ (roundHalfEven (x / (2 : ℚ) ^ (e - 52)) : ℚ) := by
    exact_mod_cast b1
  have c2 : (roundHalfEven (x / (2 : ℚ) ^ (e - 52)) : ℚ) ≤ ((2 ^ 53 : Int) : ℚ) := by
    exact_mod_cast b2
  rw [e1, e2]
  exact ⟨mul_le_mul_of_nonneg_right c1 (le_of_lt hu), mul_le_mul_of_nonneg_right c2 (le_of_lt hu)⟩

theorem rne_pos {x : ℚ} (h : 0 < x) : 0 < rne x :=
  lt_of_lt_of_le (by positivity) (rne_mem_binade x h).1

theorem rne_mono_of_pos {x y : ℚ} (hx : 0 < x) (h : x ≤ y) : rne x ≤ rne y := by
  have hy : 0 < y := lt_of_lt_of_le hx h
  have hl : Int.log 2 |x| ≤ Int.log 2 |y| := by
    rw [abs_of_pos hx, abs_of_pos hy]
    exact Int.log_mono_right hx h
  rcases eq_or_lt_of_le hl with he | hlt
  · unfold rne ulp
    rw [he]
    have hu : (0 : ℚ) < (2 : ℚ) ^ (Int.log 2 |y| - 52) := by positivity
    have := roundHalfEven_mono (div_le_div_of_nonneg_right h (le_of_lt hu))
    have hc : (roundHalfEven (x / (2 : ℚ) ^ (Int.log 2 |y| - 52)) : ℚ)
        ≤ (roundHalfEven (y / (2 : ℚ) ^ (Int.log 2 |y| - 52)) : ℚ) := by exact_mod_cast this
    exact mul_le_mul_of_nonneg_right hc (le_of_lt hu)
  · have a := (rne_mem_binade x hx).2
    have b := (rne_mem_binade y hy).1
    have c : (2 : ℚ) ^ (Int.log 2 |x| + 1) ≤ (2 : ℚ) ^ Int.log 2 |y| :=
      zpow_le_zpow_right₀ (by norm_num) (by omega)
    linarith

/-- Rounding is monotone. -/
theorem rne_mono {x y : ℚ} (h : x ≤ y) : rne x ≤ rne y := by
  rcases lt_trichotomy 0 x with hx | hx | hx
  · exact rne_mono_of_pos hx h
  · subst hx
    rw [rne_zero]
    exact rne_nonneg h
  · rcases le_or_lt 0 y with hy | hy
    · exact le_trans (rne_nonpos (le_of_lt hx)) (rne_nonneg hy)
    · have := rne_mono_of_pos (neg_pos.mpr hy) (neg_le_neg h)
      rw [rne_neg, rne_neg] at this
      linarith

/-- Rounding commutes with scaling by a power of two. -/
theorem rne_zpow_mul (k : Int) (x : ℚ) : rne ((2 : ℚ) ^ k * x) = (2 : ℚ) ^ k * rne x := by
  by_cases hx : x = 0
  · subst hx
    simp [rne_zero]
  · have hk : (0 : ℚ) < (2 : ℚ) ^ k := by positivity
    have h1 := zpow_log_le x hx
    have h2 := lt_zpow_log_succ x
    have hu : ulp ((2 : ℚ) ^ k * x) = (2 : ℚ) ^ k * ulp x := by
      rw [ulp_of_bounds ((2 : ℚ) ^ k * x) (Int.log 2 |x| + k)]
      · unfold ulp
        rw [← zpow_add₀ (by norm_num : (2 : ℚ) ≠ 0)]
        congr 1
        ring
      · rw [abs_mul, abs_of_pos hk, zpow_add₀ (by norm_num : (2 : ℚ) ≠ 0), mul_comm]
        exact mul_le_mul_of_nonneg_left h1 (le_of_lt hk)
      · rw [abs_mul, abs_of_pos hk, show Int.log 2 |x| + k + 1 = k + (Int.log 2 |x| + 1) by ring,
          zpow_add₀ (by norm_num : (2 : ℚ) ≠ 0)]
        exact mul_lt_mul_of_pos_left h2 hk
    unfold rne
    rw [hu, mul_div_mul_left _ _ (ne_of_gt hk)]
    ring

theorem abs_roundHalfEven_div_ulp_le (x : ℚ) : |roundHalfEven (x / ulp x)| ≤ 2 ^ 53 := by
  have hu := ulp_pos x
  have h2 := lt_zpow_log_succ x
  have e2 : (2 : ℚ) ^ (Int.log 2 |x| + 1) = ((2 ^ 53 : Int) : ℚ) * ulp x := by
    unfold ulp
    rw [zpow_sub₀ (by norm_num : (2 : ℚ) ≠ 0), zpow_add₀ (by norm_num : (2 : ℚ) ≠ 0)]
    norm_num
    ring
  rw [e2] at h2
  have h3 := abs_lt.mp h2
  have a1 : x / ulp x ≤ ((2 ^ 53 : Int) : ℚ) := by
    rw [div_le_iff₀ hu]
    exact le_of_lt h3.2
  have a2 : ((-(2 ^ 53) : Int) : ℚ) ≤ x / ulp x := by
    rw [le_div_iff₀ hu]
    push_cast
    push_cast at h3
    linarith [h3.1]
  have b1 := roundHalfEven_mono a1
  have b2 := roundHalfEven_mono a2
  rw [roundHalfEven_intCast] at b1 b2
  rw [abs_le]
  exact ⟨b2, b1⟩

/-- Rounding is idempotent: the result of a rounding is a binary64 value. -/
theorem rne_rne (x : ℚ) : rne (rne x) = rne x := by
  have h := abs_roundHalfEven_div_ulp_le x
  have hdef : rne x = (roundHalfEven (x / ulp x) : ℚ) * (2 : ℚ) ^ (Int.log 2 |x| - 52) := rfl
  rcases lt_or_eq_of_le h with hlt | heq
  · rw [hdef]
    exact rne_int_mul_zpow _ _ hlt
  · have hcases : roundHalfEven (x / ulp x) = 2 ^ 53 ∨ roundHalfEven (x / ulp x) = -(2 ^ 53) := by
      rcases abs_cases (roundHalfEven (x / ulp x)) with ⟨h1, _⟩ | ⟨h1, _⟩
      · left; omega
      · right; omega
    rcases hcases with hc | hc
    · have e : rne x = ((1 : Int) : ℚ) * (2 : ℚ) ^ (Int.log 2 |x| - 52 + 53) := by
        rw [hdef, hc, zpow_add₀ (by norm_num : (2 : ℚ) ≠ 0)]
        norm_num
        ring
      rw [e]
      exact rne_int_mul_zpow _ _ (by norm_num)
    · have e : rne x = ((-1 : Int) : ℚ) * (2 : ℚ) ^ (Int.log 2 |x| - 52 + 53) := by
        rw [hdef, hc, zpow_add₀ (by norm_num : (2 : ℚ) ≠ 0)]
        norm_num
        ring
      rw [e]
      exact rne_int_mul_zpow _ _ (by norm_num)

/-- A value that is written `m * 2^k` with `|m| < 2^53` is left unchanged. -/
theorem rne_exact (x v : ℚ) (m k : Int) (hm : |m| < 2 ^ 53) (hx : x = (m : ℚ) * (2 : ℚ) ^ k)
    (hv : v = x) : rne x = v := by
  rw [hv, hx]
  exact rne_int_mul_zpow m k hm

/-- Evaluation of a rounding of a positive value: `v` is a multiple of the
spacing of the binade of `x`, nearer than half a spacing. -/
theorem rne_eval (x v : ℚ) (e n : Int) (hv : v = (n : ℚ) * (2 : ℚ) ^ (e - 52))
    (h1 : (2 : ℚ) ^ e ≤ x) (h2 : x < (2 : ℚ) ^ (e + 1))
    (h3 : v - (2 : ℚ) ^ (e - 53) < x) (h4 : x < v + (2 : ℚ) ^ (e - 53)) : rne x = v := by
  have hx : 0 < x := lt_of_lt_of_le (by positivity) h1
  rw [hv]
  apply rne_eq_of_nearest x e n (by rw [abs_of_pos hx]; exact h1) (by rw [abs_of_pos hx]; exact h2)
  have hu : (0 : ℚ) < (2 : ℚ) ^ (e - 52) := by positivity
  have e53 : (2 : ℚ) ^ (e - 53) = (2 : ℚ) ^ (e - 52) / 2 := by
    rw [show e - 53 = e - 52 - 1 by ring, zpow_sub₀ (by norm_num : (2 : ℚ) ≠ 0)]
    norm_num
  rw [hv, e53] at h3 h4
  have hlt : |x / (2 : ℚ) ^ (e - 52) - (n : ℚ)| < 1 / 2 := by
    rw [abs_lt]
    constructor
    · rw [lt_sub_iff_add_lt, lt_div_iff₀ hu]
      linarith
    · rw [sub_lt_iff_lt_add, div_lt_iff₀ hu]
      linarith
  exact ⟨le_of_lt hlt, fun h => absurd h (ne_of_lt hlt)⟩

/-- Evaluation of a rounding at a half-way point above an even multiple. -/
theorem rne_eval_tie_down (x v : ℚ) (e n : Int) (hv : v = (n : ℚ) * (2 : ℚ) ^ (e - 52))
    (h1 : (2 : ℚ) ^ e ≤ x) (h2 : x < (2 : ℚ) ^ (e + 1))
    (h3 : x = v + (2 : ℚ) ^ (e - 53)) (hn : n % 2 = 0) : rne x = v := by
  have hx : 0 < x := lt_of_lt_of_le (by positivity) h1
  rw [hv]
  apply rne_eq_of_nearest x e n (by rw [abs_of_pos hx]; exact h1) (by rw [abs_of_pos hx]; exact h2)
  have hu : (0 : ℚ) < (2 : ℚ) ^ (e - 52) := by positivity
  have e53 : (2 : ℚ) ^ (e - 53) = (2 : ℚ) ^ (e - 52) / 2 := by
    rw [show e - 53 = e - 52 - 1 by ring, zpow_sub₀ (by norm_num : (2 : ℚ) ≠ 0)]
    norm_num
  have hq : x / (2 : ℚ) ^ (e - 52) - (n : ℚ) = 1 / 2 := by
    rw [h3, hv, e53]
    field_simp
    ring
  refine ⟨by rw [hq, abs_of_pos (by norm_num : (0 : ℚ) < 1 / 2)], fun _ => hn⟩

/-- Evaluation of a rounding at a half-way point below an even multiple. -/
theorem rne_eval_tie_up (x v : ℚ) (e n : Int) (hv : v = (n : ℚ) * (2 : ℚ) ^ (e - 52))
    (h1 : (2 : ℚ) ^ e ≤ x) (h2 : x < (2 : ℚ) ^ (e + 1))
    (h3 : x = v - (2 : ℚ) ^ (e - 53)) (hn : n % 2 = 0) : rne x = v := by
  have hx : 0 < x := lt_of_lt_of_le (by positivity) h1
  rw [hv]
  apply rne_eq_of_nearest x e n (by rw [abs_of_pos hx]; exact h1) (by rw [abs_of_pos hx]; exact h2)
  have hu : (0 : ℚ) < (2 : ℚ) ^ (e - 52) := by positivity
  have e53 : (2 : ℚ) ^ (e - 53) = (2 : ℚ) ^ (e - 52) / 2 := by
    rw [show e - 53 = e - 52 - 1 by ring, zpow_sub₀ (by norm_num : (2 : ℚ) ≠ 0)]
    norm_num
  have hq : x / (2 : ℚ) ^ (e - 52) - (n : ℚ) = -(1 / 2) := by
    rw [h3, hv, e53]
    field_simp
    ring
  refine ⟨by rw [hq, abs_neg, abs_of_pos (by norm_num : (0 : ℚ) < 1 / 2)], fun _ => hn⟩

theorem abs_rne_sub_le_of_le (x B : ℚ) (h : |x| ≤ B) : |rne x - x| ≤ B / 2 ^ 53 :=
  le_trans (abs_rne_sub_le x) (div_le_div_of_nonneg_right h (by positivity))

theorem rne_le_mul {x : ℚ} (hx : 0 ≤ x) : rne x ≤ x * (1 + 1 / 2 ^ 53) := by
  have h := abs_le.mp (abs_rne_sub_le x)
  rw [abs_of_nonneg hx] at h
  linarith [h.2]

theorem mul_le_rne {x : ℚ} (hx : 0 ≤ x) : x * (1 - 1 / 2 ^ 53) ≤ rne x := by
  have h := abs_le.mp (abs_rne_sub_le x)
  rw [abs_of_nonneg hx] at h
  linarith [h.1]

theorem abs_rne_le (x : ℚ) : |rne x| ≤ |x| * (1 + 1 / 2 ^ 53) := by
  have h := abs_rne_sub_le x
  have h2 : |rne x| ≤ |rne x - x| + |x| := by
    have := abs_add (rne x - x) x
    simpa using this
  linarith

theorem abs_rne_le_of_le (x B : ℚ) (h : |x| ≤ B) : |rne x| ≤ B * (1 + 1 / 2 ^ 53) := by
  have := abs_rne_le x
  have hB : |x| * (1 + 1 / 2 ^ 53) ≤ B * (1 + 1 / 2 ^ 53) :=
    mul_le_mul_of_nonneg_right h (by norm_num)
  linarith

/-- Rounding does not cross a binary64 value: a bound that is itself a
binary64 value is kept. -/
theorem rne_le_of_le {x b : ℚ} (h : x ≤ b) (hb : rne b = b) : rne x ≤ b := by
  have := rne_mono h
  rwa [hb] at this

theorem le_rne_of_le {x b : ℚ} (h : b ≤ x) (hb : rne b = b) : b ≤ rne x := by
  have := rne_mono h
  rwa [hb] at this

theorem abs_rne_le_one {x : ℚ} (h : |x| ≤ 1) : |rne x| ≤ 1 := by
  have h' := abs_le.mp h
  rw [abs_le]
  constructor
  · have := le_rne_of_le h'.1 (by rw [rne_neg, rne_one])
    exact this
  · exact rne_le_of_le h'.2 rne_one

/-- Evaluation of a rounding of a negative value. -/
theorem rne_eval_neg (x v : ℚ) (e n : Int) (hv : -v = (n : ℚ) * (2 : ℚ) ^ (e - 52))
    (h1 : (2 : ℚ) ^ e ≤ -x) (h2 : -x < (2 : ℚ) ^ (e + 1))
    (h3 : -v - (2 : ℚ) ^ (e - 53) < -x) (h4 : -x < -v + (2 : ℚ) ^ (e - 53)) : rne x = v := by
  have := rne_eval (-x) (-v) e n hv h1 h2 h3 h4
  rw [rne_neg] at this
  linarith

theorem rne_eval_neg_tie_down (x v : ℚ) (e n : Int) (hv : -v = (n : ℚ) * (2 : ℚ) ^ (e - 52))
    (h1 : (2 : ℚ) ^ e ≤ -x) (h2 : -x < (2 : ℚ) ^ (e + 1))
    (h3 : -x = -v + (2 : ℚ) ^ (e - 53)) (hn : n % 2 = 0) : rne x = v := by
  have := rne_eval_tie_down (-x) (-v) e n hv h1 h2 h3 hn
  rw [rne_neg] at this
  linarith

theorem rne_eval_neg_tie_up (x v : ℚ) (e n : Int) (hv : -v = (n : ℚ) * (2 : ℚ) ^ (e - 52))
    (h1 : (2 : ℚ) ^ e ≤ -x) (h2 : -x < (2 : ℚ) ^ (e + 1))
    (h3 : -x = -v - (2 : ℚ) ^ (e - 53)) (hn : n % 2 = 0) : rne x = v := by
  have := rne_eval_tie_up (-x) (-v) e n hv h1 h2 h3 hn
  rw [rne_neg] at this
  linarith

theorem rne_nine_tenths : rne (9 / 10) = 8106479329266893 / 9007199254740992 :=
  rne_eval _ _ (-1) (8106479329266893) (by norm_num) (by norm_num) (by norm_num) (by norm_num) (by norm_num)

theorem rne_two_tenths : rne (2 / 10) = 3602879701896397 / 18014398509481984 :=
  rne_eval _ _ (-3) (7205759403792794) (by norm_num) (by norm_num) (by norm_num) (by norm_num) (by norm_num)

theorem rne_three_tenths : rne (3 / 10) = 5404319552844595 / 18014398509481984 :=
  rne_eval _ _ (-2) (5404319552844595) (by norm_num) (by norm_num) (by norm_num) (by norm_num) (by norm_num)

theorem rne_thirteen_tenths : rne (13 / 10) = 5854679515581645 / 4503599627370496 :=
  rne_eval _ _ (0) (5854679515581645) (by norm_num) (by norm_num) (by norm_num) (by norm_num) (by norm_num)

end Binary64

namespace Elo

/-! ## Rating engine: lemmas -/

section EngineLemmas

theorem mathRound_eq_round2 {α : Type} [LinearOrderedField α] [FloorRing α] (x : α) : mathRound (x * 100) / 100 = round2 x := by
  unfold mathRound round2
  rw [mul_comm x 100]
  by_cases h : 100 * x < 0
  · rw [if_neg (not_le.mpr h), if_pos h]
    congr 1
    have : ⌈100 * x - 1 / 2⌉ = -⌊-(100 * x) + 1 / 2⌋ := by
      rw [← Int.ceil_neg]; congr 1; ring
    rw [this]; push_cast; ring
  · rw [if_pos (not_lt.mp h), if_neg h]

theorem scoreFactor_comm {α : Type} [LinearOrderedField α] (s1 s2 : Int) : (scoreFactor s1 s2 : α) = scoreFactor s2 s1 := by
  unfold scoreFactor
  rcases lt_trichotomy s1 s2 with h | h | h
  · simp [h, not_lt.mpr h.le]
  · simp [h]
  · simp [h, not_lt.mpr h.le]

theorem actual1_swap {α : Type} [LinearOrderedField α] (s1 s2 : Int) : (actual1 s2 s1 : α) = actual2 s1 s2 := by
  unfold actual1 actual2
  rcases lt_trichotomy s1 s2 with h | h | h
  · simp [h, not_lt.mpr h.le]
  · simp [h]
  · simp [h, not_lt.mpr h.le]

theorem player1Change_swap {α : Type} [LinearOrderedField α] (pow : α → α → α) (a b : α)
    (sa sb : Int) (m : Int) :
    player1Change pow b a sb sa m = player2Change pow a b sa sb m := by
  unfold player1Change player2Change
  rw [scoreFactor_comm sb sa, actual1_swap]

theorem mathRound_intCast {α : Type} [LinearOrderedField α] [FloorRing α] (n : Int) :
    mathRound ((n : Int) : α) = ((n : Int) : α) := by
  have hf : ∀ m : Int, ⌊((m : Int) : α) + 1 / 2⌋ = m := by
    intro m
    rw [Int.floor_eq_iff]
    constructor
    · linarith
    · linarith
  unfold mathRound
  split_ifs
  · rw [hf]
  · have := hf (-n)
    push_cast at this
    rw [this]
    push_cast
    ring

theorem wrapInt64_of_mem {n : Int} (h1 : -2 ^ 63 ≤ n) (h2 : n < 2 ^ 63) : wrapInt64 n = n := by
  unfold wrapInt64
  rw [Int.emod_eq_of_lt (by linarith) (by linarith)]
  ring

theorem expected_pos (a b : ℝ) : 0 < CalculateExpectedScore Real.rpow a b := by
  unfold CalculateExpectedScore
  have hp : 0 < (10 : ℝ) ^ ((b - a) / 400) := Real.rpow_pos_of_pos (by norm_num) _
  simp only [Real.rpow_eq_pow]
  positivity

theorem expected_add_swap (a b : ℝ) :
    CalculateExpectedScore Real.rpow a b + CalculateExpectedScore Real.rpow b a = 1 := by
  unfold CalculateExpectedScore
  simp only [Real.rpow_eq_pow]
  have h : (b - a) / 400 = -((a - b) / 400) := by ring
  have hp : 0 < (10 : ℝ) ^ ((a - b) / 400) := Real.rpow_pos_of_pos (by norm_num) _
  rw [h, Real.rpow_neg (by norm_num)]
  field_simp
  ring

theorem expected_lt_one (a b : ℝ) : CalculateExpectedScore Real.rpow a b < 1 := by
  have h1 := expected_add_swap a b
  have h2 := expected_pos b a
  linarith

theorem CalculateScoreFactor_ge {F : Type} [LinearOrderedField F] (w l : Int) :
    (0.9 : F) ≤ CalculateScoreFactor w l := by
  unfold CalculateScoreFactor
  by_cases h : wrapInt64 (w + l) = 0
  · simp only [h, if_true]
    norm_num
  · simp only [h, if_false]
    exact le_min (by norm_num) (le_max_left _ _)

theorem scoreFactor_pos {F : Type} [LinearOrderedField F] (s1 s2 : Int) :
    (0 : F) < scoreFactor s1 s2 := by
  unfold scoreFactor
  split_ifs
  · exact lt_of_lt_of_le (by norm_num) (CalculateScoreFactor_ge s1 s2)
  · exact lt_of_lt_of_le (by norm_num) (CalculateScoreFactor_ge s2 s1)
  · norm_num

theorem GetKFactor_pos {F : Type} [LinearOrderedField F] (n : Int) : (0 : F) < GetKFactor n := by
  unfold GetKFactor MaxK BaseK MinK
  split_ifs <;> norm_num

end EngineLemmas

/-! ## Rating engine: the claims -/

section EngineClaims

variable {α : Type} [LinearOrderedField α] [FloorRing α]

/-- C2. For every power function, all ratings `a`, `b`, all scores and all
match counts, `CalculateElo(b, a, sb, sa, mb, ma)` is
`CalculateElo(a, b, sa, sb, ma, mb)` with the two sides exchanged. -/
theorem C2_CalculateElo_swap (pow : α → α → α) (a b : α) (sa sb ma mb : Int) :
    (CalculateElo pow b a sb sa mb ma).Player1NewElo
        = (CalculateElo pow a b sa sb ma mb).Player2NewElo ∧
    (CalculateElo pow b a sb sa mb ma).Player1EloChange
        = (CalculateElo pow a b sa sb ma mb).Player2EloChange ∧
    (CalculateElo pow b a sb sa mb ma).Player2NewElo
        = (CalculateElo pow a b sa sb ma mb).Player1NewElo ∧
    (CalculateElo pow b a sb sa mb ma).Player2EloChange
        = (CalculateElo pow a b sa sb ma mb).Player1EloChange := by
  have h1 := player1Change_swap pow a b sa sb mb
  have h2 := player1Change_swap pow b a sb sa ma
  simp only [CalculateElo, h1, ← h2]
  exact ⟨trivial, trivial, trivial, trivial⟩

/-- C4. With `math.Pow` read as the real power,
`CalculateElo(1000, 1000, 11, 5, 5, 5)` returns new ratings 1023.0 and 977.0
and changes 23.0 and -23.0; the expected scores are 0.5 each, the score
factor is 1.15 and K is 40 for both sides. -/
theorem C4_CalculateElo_example :
    CalculateElo Real.rpow 1000 1000 11 5 5 5
        = { Player1NewElo := 1023, Player2NewElo := 977,
            Player1EloChange := 23, Player2EloChange := -23 } ∧
    CalculateExpectedScore Real.rpow 1000 1000 = 0.5 ∧
    (CalculateScoreFactor 11 5 : ℝ) = 1.15 ∧
    (GetKFactor 5 : ℝ) = 40 := by
  have hE : CalculateExpectedScore Real.rpow 1000 1000 = 0.5 := by
    simp only [CalculateExpectedScore, Real.rpow_eq_pow]
    norm_num
  have hF : (CalculateScoreFactor 11 5 : ℝ) = 1.15 := by
    have hw : wrapInt64 (11 + 5) = 16 := by decide
    have hd : wrapInt64 (11 - 5) = 6 := by decide
    simp only [CalculateScoreFactor, hw, hd]
    norm_num
  have hK : (GetKFactor 5 : ℝ) = 40 := by
    simp [GetKFactor, MaxK]
  have hS : (scoreFactor 11 5 : ℝ) = 1.15 := by
    simp only [scoreFactor]
    rw [if_pos (by decide), hF]
  have h1 : player1Change Real.rpow 1000 1000 11 5 5 = ((23 : Int) : ℝ) := by
    simp only [player1Change, hE, hS, hK, actual1]
    norm_num
  have h2 : player2Change Real.rpow 1000 1000 11 5 5 = ((-23 : Int) : ℝ) := by
    simp only [player2Change, hE, hS, hK, actual2]
    norm_num
  refine ⟨?_, hE, hF, hK⟩
  have e1 : ((1000 : ℝ) + ((23 : Int) : ℝ)) * 100 = ((102300 : Int) : ℝ) := by norm_num
  have e2 : ((1000 : ℝ) + ((-23 : Int) : ℝ)) * 100 = ((97700 : Int) : ℝ) := by norm_num
  have e3 : (((23 : Int) : ℝ)) * 100 = ((2300 : Int) : ℝ) := by norm_num
  have e4 : (((-23 : Int) : ℝ)) * 100 = ((-2300 : Int) : ℝ) := by norm_num
  simp only [CalculateElo, h1, h2, e1, e2, e3, e4, mathRound_intCast]
  norm_num

/-- C5. For every pair of integer scores, in particular for every pair of
non-negative scores in either order, `CalculateScoreFactor` returns a value
`f` with `0.9 <= f <= 1.3`. -/
theorem C5_CalculateScoreFactor_bounds {F : Type} [LinearOrderedField F]
    (winnerScore loserScore : Int) :
    (0.9 : F) ≤ CalculateScoreFactor winnerScore loserScore ∧
    (CalculateScoreFactor winnerScore loserScore : F) ≤ 1.3 := by
  unfold CalculateScoreFactor
  by_cases h : wrapInt64 (winnerScore + loserScore) = 0
  · simp only [h, if_true]
    constructor <;> norm_num
  · simp only [h, if_false]
    exact ⟨le_min (by norm_num) (le_max_left _ _), min_le_left _ _⟩

/-- C7. For every call of `CalculateElo` with equal scores, whatever the
common value, both sides get actual score 0.5 and the score factor is
exactly 1.0, so the unrounded delta of side `i` is
`GetKFactor(matches_i) * (0.5 - expected_i)`, and the reported change and new
rating are rounded from it. -/
theorem C7_CalculateElo_tie (pow : α → α → α) (a b : α) (s m1 m2 : Int) :
    (actual1 s s : α) = 0.5 ∧ (actual2 s s : α) = 0.5 ∧ (scoreFactor s s : α) = 1 ∧
    player1Change pow a b s s m1
        = GetKFactor m1 * (0.5 - CalculateExpectedScore pow a b) ∧
    player2Change pow a b s s m2
        = GetKFactor m2 * (0.5 - CalculateExpectedScore pow b a) ∧
    (CalculateElo pow a b s s m1 m2).Player1EloChange
        = round2 (GetKFactor m1 * (0.5 - CalculateExpectedScore pow a b)) ∧
    (CalculateElo pow a b s s m1 m2).Player2EloChange
        = round2 (GetKFactor m2 * (0.5 - CalculateExpectedScore pow b a)) ∧
    (CalculateElo pow a b s s m1 m2).Player1NewElo
        = round2 (a + GetKFactor m1 * (0.5 - CalculateExpectedScore pow a b)) ∧
    (CalculateElo pow a b s s m1 m2).Player2NewElo
        = round2 (b + GetKFactor m2 * (0.5 - CalculateExpectedScore pow b a)) := by
  have ha1 : (actual1 s s : α) = 0.5 := by simp [actual1]
  have ha2 : (actual2 s s : α) = 0.5 := by simp [actual2]
  have hf : (scoreFactor s s : α) = 1 := by simp [scoreFactor]
  have h1 : player1Change pow a b s s m1
      = GetKFactor m1 * (0.5 - CalculateExpectedScore pow a b) := by
    simp only [player1Change, ha1, hf, mul_one]
  have h2 : player2Change pow a b s s m2
      = GetKFactor m2 * (0.5 - CalculateExpectedScore pow b a) := by
    simp only [player2Change, ha2, hf, mul_one]
  refine ⟨ha1, ha2, hf, h1, h2, ?_, ?_, ?_, ?_⟩ <;>
    simp only [CalculateElo, h1, h2, mathRound_eq_round2]

/-- C21. With `math.Pow` read as the real power, for all ratings `a` and
`b` the value `CalculateExpectedScore(a, b)` lies in the interval [0, 1]
(it is strictly between 0 and 1). -/
theorem C21_expected_score_in_unit_interval (a b : ℝ) :
    0 ≤ CalculateExpectedScore Real.rpow a b ∧ CalculateExpectedScore Real.rpow a b ≤ 1 ∧
    0 < CalculateExpectedScore Real.rpow a b ∧ CalculateExpectedScore Real.rpow a b < 1 :=
  ⟨le_of_lt (expected_pos a b), le_of_lt (expected_lt_one a b), expected_pos a b,
    expected_lt_one a b⟩

end EngineClaims

end Elo

namespace Elo64

open Binary64

/-! ## Rating engine over binary64 values: lemmas -/

/-- Evaluation of `math.Round` on a non-negative value. -/
theorem mathRound_eval (x v : ℚ) (n : Int) (hv : v = (n : ℚ)) (h0 : 0 ≤ x)
    (h1 : (n : ℚ) - 1 / 2 ≤ x) (h2 : x < (n : ℚ) + 1 / 2) : Elo.mathRound x = v := by
  rw [hv]
  unfold Elo.mathRound
  rw [if_pos h0]
  congr 1
  rw [Int.floor_eq_iff]
  constructor <;> linarith

/-- Evaluation of `math.Round` on a negative value. -/
theorem mathRound_eval_neg (x v : ℚ) (n : Int) (hv : v = -(n : ℚ)) (h0 : x < 0)
    (h1 : (n : ℚ) - 1 / 2 ≤ -x) (h2 : -x < (n : ℚ) + 1 / 2) : Elo.mathRound x = v := by
  rw [hv]
  unfold Elo.mathRound
  rw [if_neg (not_le.mpr h0)]
  congr 2
  rw [Int.floor_eq_iff]
  constructor <;> linarith

/-- `math.Round` moves its argument by at most one half. -/
theorem abs_mathRound_sub_le (x : ℚ) : |Elo.mathRound x - x| ≤ 1 / 2 := by
  unfold Elo.mathRound
  by_cases hx : 0 ≤ x
  · rw [if_pos hx]
    have h1 := Int.floor_le (x + 1 / 2)
    have h2 := Int.lt_floor_add_one (x + 1 / 2)
    rw [abs_le]
    constructor <;> linarith
  · rw [if_neg hx]
    have h1 := Int.floor_le (-x + 1 / 2)
    have h2 := Int.lt_floor_add_one (-x + 1 / 2)
    rw [abs_le]
    constructor <;> linarith

/-- The two-decimal rounding of the source is within half a hundredth of
its argument, up to the rounding of its product and of its quotient. -/
theorem abs_round2_sub_le (x : ℚ) : |round2 x - x| ≤ 1 / 200 + (|x| + 1) / 2 ^ 51 := by
  unfold round2 fdiv fmul
  have hX : 0 ≤ |x| := abs_nonneg x
  have h1 := abs_rne_sub_le (x * 100)
  rw [abs_mul, abs_of_pos (by norm_num : (0 : ℚ) < 100)] at h1
  have h2 := abs_mathRound_sub_le (rne (x * 100))
  have h3 := abs_rne_sub_le (Elo.mathRound (rne (x * 100)) / 100)
  rw [abs_div, abs_of_pos (by norm_num : (0 : ℚ) < 100)] at h3
  have ht : |rne (x * 100)| ≤ |x| * 100 + |x| * 100 / 2 ^ 53 := by
    have := abs_add (rne (x * 100) - x * 100) (x * 100)
    rw [sub_add_cancel, abs_mul, abs_of_pos (by norm_num : (0 : ℚ) < 100)] at this
    linarith
  have hn : |Elo.mathRound (rne (x * 100))| ≤ |rne (x * 100)| + 1 / 2 := by
    have := abs_add (Elo.mathRound (rne (x * 100)) - rne (x * 100)) (rne (x * 100))
    rw [sub_add_cancel] at this
    linarith
  generalize rne (Elo.mathRound (rne (x * 100)) / 100) = r at *
  generalize Elo.mathRound (rne (x * 100)) = n at *
  generalize rne (x * 100) = t at *
  have e : r - x = (r - n / 100) + (n - t) / 100 + (t - x * 100) / 100 := by ring
  have a1 := abs_le.mp h1
  have a2 := abs_le.mp h2
  have a3 := abs_le.mp h3
  rw [abs_le]
  constructor
  · rw [e]
    nlinarith [a1.1, a2.1, a3.1]
  · rw [e]
    nlinarith [a1.2, a2.2, a3.2]

theorem mathPow_zero (x : ℚ) : mathPow x 0 = 1 := by
  unfold mathPow
  rw [if_pos (Or.inl rfl)]

theorem mathPow_ten_one : mathPow 10 1 = 10 := by
  unfold mathPow
  rw [if_neg (by norm_num), if_pos rfl]

theorem mathPow_ten (y : ℚ) (n : Int) (hy : y = (n : ℚ)) (h0 : n ≠ 0) (h1 : n ≠ 1)
    (h22 : |n| ≤ 22) : mathPow 10 y = rne ((10 : ℚ) ^ n) := by
  subst hy
  unfold mathPow
  have e0 : ¬ ((n : ℚ) = 0 ∨ (10 : ℚ) = 1) := by
    rintro (h | h)
    · exact h0 (by exact_mod_cast h)
    · norm_num at h
  have e1 : ¬ ((n : ℚ) = 1) := fun h => h1 (by exact_mod_cast h)
  rw [if_neg e0, if_neg e1, if_pos ⟨rfl, by simp, by simpa using h22⟩]
  simp

/-! ## Evaluations of the binary64 engine at concrete inputs -/

/-- Equal ratings: the expected score is exactly 0.5 in binary64. -/
theorem expected_1000_1000 : CalculateExpectedScore mathPow 1000 1000 = (1 / 2) := by
  unfold CalculateExpectedScore
  simp only [fadd, fsub, fmul, fdiv, ofInt, Int.cast_ofNat, Int.cast_one, Int.cast_zero, Int.cast_neg]
  have h1 : rne (1000 - 1000) = 0 := by rw [show (1000 - 1000 : ℚ) = 0 by norm_num]; exact rne_zero
  have h2 : rne (0 / 400) = 0 := by rw [show (0 / 400 : ℚ) = 0 by norm_num]; exact rne_zero
  have h3 : mathPow 10 0 = 1 := mathPow_zero 10
  have h4 : rne (1 + 1) = 2 :=
    rne_exact _ _ (4503599627370496) (-51) (by norm_num) (by norm_num) (by norm_num)
  have h5 : rne (1 / 2) = (1 / 2) :=
    rne_exact _ _ (4503599627370496) (-53) (by norm_num) (by norm_num) (by norm_num)
  simp only [h1, h2, h3, h4, h5]

theorem scoreFactor_65_63 : CalculateScoreFactor 65 63 = (4531747125041561 / 4503599627370496) := by
  have hw : Elo.wrapInt64 (65 + 63) = 128 := by decide
  have hd : Elo.wrapInt64 (65 - 63) = 2 := by decide
  simp only [CalculateScoreFactor, rawScoreFactor, hw, hd]
  rw [if_neg (by decide)]
  simp only [fadd, fsub, fmul, fdiv, ofInt, Int.cast_ofNat, Int.cast_one, Int.cast_zero, Int.cast_neg]
  have h1 : rne (13 / 10) = (5854679515581645 / 4503599627370496) :=
    rne_eval _ _ (0) (5854679515581645) (by norm_num) (by norm_num) (by norm_num) (by norm_num) (by norm_num)
  have h2 : rne (9 / 10) = (8106479329266893 / 9007199254740992) :=
    rne_eval _ _ (-1) (8106479329266893) (by norm_num) (by norm_num) (by norm_num) (by norm_num) (by norm_num)
  have h3 : rne (65) = 65 :=
    rne_exact _ _ (4573968371548160) (-46) (by norm_num) (by norm_num) (by norm_num)
  have h4 : rne (128) = 128 :=
    rne_exact _ _ (4503599627370496) (-45) (by norm_num) (by norm_num) (by norm_num)
  have h5 : rne (65 / 128) = (65 / 128) :=
    rne_exact _ _ (4573968371548160) (-53) (by norm_num) (by norm_num) (by norm_num)
  have h6 : rne (2 / 10) = (3602879701896397 / 18014398509481984) :=
    rne_eval _ _ (-3) (7205759403792794) (by norm_num) (by norm_num) (by norm_num) (by norm_num) (by norm_num)
  have h7 : rne ((65 / 128) * (3602879701896397 / 18014398509481984)) = (13 / 128) :=
    rne_eval _ _ (-4) (7318349394477056) (by norm_num) (by norm_num) (by norm_num) (by norm_num) (by norm_num)
  have h8 : rne ((8106479329266893 / 9007199254740992) + (13 / 128)) = (2255318250894131 / 2251799813685248) :=
    rne_eval_tie_down _ _ (0) (4510636501788262) (by norm_num) (by norm_num) (by norm_num) (by norm_num) (by decide)
  have h9 : rne (2) = 2 :=
    rne_exact _ _ (4503599627370496) (-51) (by norm_num) (by norm_num) (by norm_num)
  have h10 : rne (2 / 128) = (1 / 64) :=
    rne_exact _ _ (4503599627370496) (-58) (by norm_num) (by norm_num) (by norm_num)
  have h11 : rne (3 / 10) = (5404319552844595 / 18014398509481984) :=
    rne_eval _ _ (-2) (5404319552844595) (by norm_num) (by norm_num) (by norm_num) (by norm_num) (by norm_num)
  have h12 : rne ((1 / 64) * (5404319552844595 / 18014398509481984)) = (5404319552844595 / 1152921504606846976) :=
    rne_exact _ _ (5404319552844595) (-60) (by norm_num) (by norm_num) (by norm_num)
  have h13 : rne ((2255318250894131 / 2251799813685248) + (5404319552844595 / 1152921504606846976)) = (4531747125041561 / 4503599627370496) :=
    rne_eval _ _ (0) (4531747125041561) (by norm_num) (by norm_num) (by norm_num) (by norm_num) (by norm_num)
  have h14 : max ((8106479329266893 / 9007199254740992) : ℚ) (4531747125041561 / 4503599627370496) = (4531747125041561 / 4503599627370496) := max_eq_right (by norm_num)
  have h15 : min ((5854679515581645 / 4503599627370496) : ℚ) (4531747125041561 / 4503599627370496) = (4531747125041561 / 4503599627370496) := min_eq_right (by norm_num)
  simp only [h1, h2, h3, h4, h5, h6, h7, h8, h9, h10, h11, h12,
    h13, h14, h15]

theorem CalculateElo_65_63_delta1 : player1Change mathPow 1000 1000 65 63 5 = (5664683906301951 / 281474976710656) := by
  have hsf : scoreFactor 65 63 = (4531747125041561 / 4503599627370496) := by unfold scoreFactor; rw [if_pos (by decide), scoreFactor_65_63]
  have ha : actual1 65 63 = 1 := by unfold actual1; rw [if_pos (by decide)]
  have hk : GetKFactor 5 = 40 := by unfold GetKFactor; rw [if_pos (by decide)]
  unfold player1Change
  rw [hsf, ha, hk, expected_1000_1000]
  simp only [fadd, fsub, fmul, fdiv, ofInt, Int.cast_ofNat, Int.cast_one, Int.cast_zero, Int.cast_neg]
  have h1 : rne (40 * (4531747125041561 / 4503599627370496)) = (5664683906301951 / 140737488355328) :=
    rne_eval _ _ (5) (5664683906301951) (by norm_num) (by norm_num) (by norm_num) (by norm_num) (by norm_num)
  have h2 : rne (1 - (1 / 2)) = (1 / 2) :=
    rne_exact _ _ (4503599627370496) (-53) (by norm_num) (by norm_num) (by norm_num)
  have h3 : rne ((5664683906301951 / 140737488355328) * (1 / 2)) = (5664683906301951 / 281474976710656) :=
    rne_exact _ _ (5664683906301951) (-48) (by norm_num) (by norm_num) (by norm_num)
  simp only [h1, h2, h3]

theorem CalculateElo_65_63_delta2 : player2Change mathPow 1000 1000 65 63 5 = (-5664683906301951 / 281474976710656) := by
  have hsf : scoreFactor 65 63 = (4531747125041561 / 4503599627370496) := by unfold scoreFactor; rw [if_pos (by decide), scoreFactor_65_63]
  have ha : actual2 65 63 = 0 := by unfold actual2; rw [if_pos (by decide)]
  have hk : GetKFactor 5 = 40 := by unfold GetKFactor; rw [if_pos (by decide)]
  unfold player2Change
  rw [hsf, ha, hk, expected_1000_1000]
  simp only [fadd, fsub, fmul, fdiv, ofInt, Int.cast_ofNat, Int.cast_one, Int.cast_zero, Int.cast_neg]
  have h1 : rne (40 * (4531747125041561 / 4503599627370496)) = (5664683906301951 / 140737488355328) :=
    rne_eval _ _ (5) (5664683906301951) (by norm_num) (by norm_num) (by norm_num) (by norm_num) (by norm_num)
  have h2 : rne (0 - (1 / 2)) = (-1 / 2) :=
    rne_exact _ _ (-4503599627370496) (-53) (by norm_num) (by norm_num) (by norm_num)
  have h3 : rne ((5664683906301951 / 140737488355328) * (-1 / 2)) = (-5664683906301951 / 281474976710656) :=
    rne_exact _ _ (-5664683906301951) (-48) (by norm_num) (by norm_num) (by norm_num)
  simp only [h1, h2, h3]

theorem CalculateElo_65_63 : CalculateElo mathPow 1000 1000 65 63 5 5
    = { Player1NewElo := (8973158374745047 / 8796093022208), Player2NewElo := (8619115630601175 / 8796093022208),
        Player1EloChange := (5663276531418399 / 281474976710656), Player2EloChange := (-5663276531418399 / 281474976710656) } := by
  unfold CalculateElo
  simp only [CalculateElo_65_63_delta1, CalculateElo_65_63_delta2]
  simp only [fadd, fsub, fmul, fdiv, ofInt, Int.cast_ofNat, Int.cast_one, Int.cast_zero, Int.cast_neg]
  have h1 : rne (1000 + (5664683906301951 / 281474976710656)) = (8161 / 8) :=
    rne_eval _ _ (9) (8973114394279936) (by norm_num) (by norm_num) (by norm_num) (by norm_num) (by norm_num)
  have h2 : rne ((8161 / 8) * 100) = (204025 / 2) :=
    rne_exact _ _ (7010245620531200) (-36) (by norm_num) (by norm_num) (by norm_num)
  have h3 : Elo.mathRound ((204025 / 2) : ℚ) = 102013 :=
    mathRound_eval _ _ (102013) (by norm_num) (by norm_num) (by norm_num) (by norm_num)
  have h4 : rne (102013 / 100) = (8973158374745047 / 8796093022208) :=
    rne_eval _ _ (9) (8973158374745047) (by norm_num) (by norm_num) (by norm_num) (by norm_num) (by norm_num)
  have h5 : rne (1000 + (-5664683906301951 / 281474976710656)) = (7839 / 8) :=
    rne_eval _ _ (9) (8619071650136064) (by norm_num) (by norm_num) (by norm_num) (by norm_num) (by norm_num)
  have h6 : rne ((7839 / 8) * 100) = (195975 / 2) :=
    rne_exact _ _ (6733649726668800) (-36) (by norm_num) (by norm_num) (by norm_num)
  have h7 : Elo.mathRound ((195975 / 2) : ℚ) = 97988 :=
    mathRound_eval _ _ (97988) (by norm_num) (by norm_num) (by norm_num) (by norm_num)
  have h8 : rne (97988 / 100) = (8619115630601175 / 8796093022208) :=
    rne_eval _ _ (9) (8619115630601175) (by norm_num) (by norm_num) (by norm_num) (by norm_num) (by norm_num)
  have h9 : rne ((5664683906301951 / 281474976710656) * 100) = (4425534301798399 / 2199023255552) :=
    rne_eval _ _ (10) (8851068603596798) (by norm_num) (by norm_num) (by norm_num) (by norm_num) (by norm_num)
  have h10 : Elo.mathRound ((4425534301798399 / 2199023255552) : ℚ) = 2012 :=
    mathRound_eval _ _ (2012) (by norm_num) (by norm_num) (by norm_num) (by norm_num)
  have h11 : rne (2012 / 100) = (5663276531418399 / 281474976710656) :=
    rne_eval _ _ (4) (5663276531418399) (by norm_num) (by norm_num) (by norm_num) (by norm_num) (by norm_num)
  have h12 : rne ((-5664683906301951 / 281474976710656) * 100) = (-4425534301798399 / 2199023255552) :=
    rne_eval_neg _ _ (10) (8851068603596798) (by norm_num) (by norm_num) (by norm_num) (by norm_num) (by norm_num)
  have h13 : Elo.mathRound ((-4425534301798399 / 2199023255552) : ℚ) = (-2012) :=
    mathRound_eval_neg _ _ (2012) (by norm_num) (by norm_num) (by norm_num) (by norm_num)
  have h14 : rne ((-2012) / 100) = (-5663276531418399 / 281474976710656) :=
    rne_eval_neg _ _ (4) (5663276531418399) (by norm_num) (by norm_num) (by norm_num) (by norm_num) (by norm_num)
  simp only [h1, h2, h3, h4, h5, h6, h7, h8, h9, h10, h11, h12,
    h13, h14]

theorem scoreFactor_105_23 : CalculateScoreFactor 105 23 = (5657647031884185 / 4503599627370496) := by
  have hw : Elo.wrapInt64 (105 + 23) = 128 := by decide
  have hd : Elo.wrapInt64 (105 - 23) = 82 := by decide
  simp only [CalculateScoreFactor, rawScoreFactor, hw, hd]
  rw [if_neg (by decide)]
  simp only [fadd, fsub, fmul, fdiv, ofInt, Int.cast_ofNat, Int.cast_one, Int.cast_zero, Int.cast_neg]
  have h1 : rne (13 / 10) = (5854679515581645 / 4503599627370496) :=
    rne_eval _ _ (0) (5854679515581645) (by norm_num) (by norm_num) (by norm_num) (by norm_num) (by norm_num)
  have h2 : rne (9 / 10) = (8106479329266893 / 9007199254740992) :=
    rne_eval _ _ (-1) (8106479329266893) (by norm_num) (by norm_num) (by norm_num) (by norm_num) (by norm_num)
  have h3 : rne (105) = 105 :=
    rne_exact _ _ (7388718138654720) (-46) (by norm_num) (by norm_num) (by norm_num)
  have h4 : rne (128) = 128 :=
    rne_exact _ _ (4503599627370496) (-45) (by norm_num) (by norm_num) (by norm_num)
  have h5 : rne (105 / 128) = (105 / 128) :=
    rne_exact _ _ (7388718138654720) (-53) (by norm_num) (by norm_num) (by norm_num)
  have h6 : rne (2 / 10) = (3602879701896397 / 18014398509481984) :=
    rne_eval _ _ (-3) (7205759403792794) (by norm_num) (by norm_num) (by norm_num) (by norm_num) (by norm_num)
  have h7 : rne ((105 / 128) * (3602879701896397 / 18014398509481984)) = (21 / 128) :=
    rne_eval _ _ (-3) (5910974510923776) (by norm_num) (by norm_num) (by norm_num) (by norm_num) (by norm_num)
  have h8 : rne ((8106479329266893 / 9007199254740992) + (21 / 128)) = (2396055739249459 / 2251799813685248) :=
    rne_eval_tie_down _ _ (0) (4792111478498918) (by norm_num) (by norm_num) (by norm_num) (by norm_num) (by decide)
  have h9 : rne (82) = 82 :=
    rne_exact _ _ (5770237022568448) (-46) (by norm_num) (by norm_num) (by norm_num)
  have h10 : rne (82 / 128) = (41 / 64) :=
    rne_exact _ _ (5770237022568448) (-53) (by norm_num) (by norm_num) (by norm_num)
  have h11 : rne (3 / 10) = (5404319552844595 / 18014398509481984) :=
    rne_eval _ _ (-2) (5404319552844595) (by norm_num) (by norm_num) (by norm_num) (by norm_num) (by norm_num)
  have h12 : rne ((41 / 64) * (5404319552844595 / 18014398509481984)) = (6924284427082137 / 36028797018963968) :=
    rne_eval _ _ (-3) (6924284427082137) (by norm_num) (by norm_num) (by norm_num) (by norm_num) (by norm_num)
  have h13 : rne ((2396055739249459 / 2251799813685248) + (6924284427082137 / 36028797018963968)) = (5657647031884185 / 4503599627370496) :=
    rne_eval _ _ (0) (5657647031884185) (by norm_num) (by norm_num) (by norm_num) (by norm_num) (by norm_num)
  have h14 : max ((8106479329266893 / 9007199254740992) : ℚ) (5657647031884185 / 4503599627370496) = (5657647031884185 / 4503599627370496) := max_eq_right (by norm_num)
  have h15 : min ((5854679515581645 / 4503599627370496) : ℚ) (5657647031884185 / 4503599627370496) = (5657647031884185 / 4503599627370496) := min_eq_right (by norm_num)
  simp only [h1, h2, h3, h4, h5, h6, h7, h8, h9, h10, h11, h12,
    h13, h14, h15]

theorem CalculateElo_105_23_delta1 : player1Change mathPow 1000 1000 105 23 5 = (7072058789855231 / 281474976710656) := by
  have hsf : scoreFactor 105 23 = (5657647031884185 / 4503599627370496) := by unfold scoreFactor; rw [if_pos (by decide), scoreFactor_105_23]
  have ha : actual1 105 23 = 1 := by unfold actual1; rw [if_pos (by decide)]
  have hk : GetKFactor 5 = 40 := by unfold GetKFactor; rw [if_pos (by decide)]
  unfold player1Change
  rw [hsf, ha, hk, expected_1000_1000]
  simp only [fadd, fsub, fmul, fdiv, ofInt, Int.cast_ofNat, Int.cast_one, Int.cast_zero, Int.cast_neg]
  have h1 : rne (40 * (5657647031884185 / 4503599627370496)) = (7072058789855231 / 140737488355328) :=
    rne_eval _ _ (5) (7072058789855231) (by norm_num) (by norm_num) (by norm_num) (by norm_num) (by norm_num)
  have h2 : rne (1 - (1 / 2)) = (1 / 2) :=
    rne_exact _ _ (4503599627370496) (-53) (by norm_num) (by norm_num) (by norm_num)
  have h3 : rne ((7072058789855231 / 140737488355328) * (1 / 2)) = (7072058789855231 / 281474976710656) :=
    rne_exact _ _ (7072058789855231) (-48) (by norm_num) (by norm_num) (by norm_num)
  simp only [h1, h2, h3]

theorem CalculateElo_105_23_delta2 : player2Change mathPow 1000 1000 105 23 5 = (-7072058789855231 / 281474976710656) := by
  have hsf : scoreFactor 105 23 = (5657647031884185 / 4503599627370496) := by unfold scoreFactor; rw [if_pos (by decide), scoreFactor_105_23]
  have ha : actual2 105 23 = 0 := by unfold actual2; rw [if_pos (by decide)]
  have hk : GetKFactor 5 = 40 := by unfold GetKFactor; rw [if_pos (by decide)]
  unfold player2Change
  rw [hsf, ha, hk, expected_1000_1000]
  simp only [fadd, fsub, fmul, fdiv, ofInt, Int.cast_ofNat, Int.cast_one, Int.cast_zero, Int.cast_neg]
  have h1 : rne (40 * (5657647031884185 / 4503599627370496)) = (7072058789855231 / 140737488355328) :=
    rne_eval _ _ (5) (7072058789855231) (by norm_num) (by norm_num) (by norm_num) (by norm_num) (by norm_num)
  have h2 : rne (0 - (1 / 2)) = (-1 / 2) :=
    rne_exact _ _ (-4503599627370496) (-53) (by norm_num) (by norm_num) (by norm_num)
  have h3 : rne ((7072058789855231 / 140737488355328) * (-1 / 2)) = (-7072058789855231 / 281474976710656) :=
    rne_exact _ _ (-7072058789855231) (-48) (by norm_num) (by norm_num) (by norm_num)
  simp only [h1, h2, h3]

theorem CalculateElo_105_23 : CalculateElo mathPow 1000 1000 105 23 5 5
    = { Player1NewElo := (1127142354982011 / 1099511627776), Player2NewElo := (8575135165490135 / 8796093022208),
        Player1EloChange := (7070651414971679 / 281474976710656), Player2EloChange := (-7070651414971679 / 281474976710656) } := by
  unfold CalculateElo
  simp only [CalculateElo_105_23_delta1, CalculateElo_105_23_delta2]
  simp only [fadd, fsub, fmul, fdiv, ofInt, Int.cast_ofNat, Int.cast_one, Int.cast_zero, Int.cast_neg]
  have h1 : rne (1000 + (7072058789855231 / 281474976710656)) = (8201 / 8) :=
    rne_eval _ _ (10) (4508547429695488) (by norm_num) (by norm_num) (by norm_num) (by norm_num) (by norm_num)
  have h2 : rne ((8201 / 8) * 100) = (205025 / 2) :=
    rne_exact _ _ (7044605358899200) (-36) (by norm_num) (by norm_num) (by norm_num)
  have h3 : Elo.mathRound ((205025 / 2) : ℚ) = 102513 :=
    mathRound_eval _ _ (102513) (by norm_num) (by norm_num) (by norm_num) (by norm_num)
  have h4 : rne (102513 / 100) = (1127142354982011 / 1099511627776) :=
    rne_eval _ _ (10) (4508569419928044) (by norm_num) (by norm_num) (by norm_num) (by norm_num) (by norm_num)
  have h5 : rne (1000 + (-7072058789855231 / 281474976710656)) = (7799 / 8) :=
    rne_eval _ _ (9) (8575091185025024) (by norm_num) (by norm_num) (by norm_num) (by norm_num) (by norm_num)
  have h6 : rne ((7799 / 8) * 100) = (194975 / 2) :=
    rne_exact _ _ (6699289988300800) (-36) (by norm_num) (by norm_num) (by norm_num)
  have h7 : Elo.mathRound ((194975 / 2) : ℚ) = 97488 :=
    mathRound_eval _ _ (97488) (by norm_num) (by norm_num) (by norm_num) (by norm_num)
  have h8 : rne (97488 / 100) = (8575135165490135 / 8796093022208) :=
    rne_eval _ _ (9) (8575135165490135) (by norm_num) (by norm_num) (by norm_num) (by norm_num) (by norm_num)
  have h9 : rne ((7072058789855231 / 281474976710656) * 100) = (5525045929574399 / 2199023255552) :=
    rne_eval _ _ (11) (5525045929574399) (by norm_num) (by norm_num) (by norm_num) (by norm_num) (by norm_num)
  have h10 : Elo.mathRound ((5525045929574399 / 2199023255552) : ℚ) = 2512 :=
    mathRound_eval _ _ (2512) (by norm_num) (by norm_num) (by norm_num) (by norm_num)
  have h11 : rne (2512 / 100) = (7070651414971679 / 281474976710656) :=
    rne_eval _ _ (4) (7070651414971679) (by norm_num) (by norm_num) (by norm_num) (by norm_num) (by norm_num)
  have h12 : rne ((-7072058789855231 / 281474976710656) * 100) = (-5525045929574399 / 2199023255552) :=
    rne_eval_neg _ _ (11) (5525045929574399) (by norm_num) (by norm_num) (by norm_num) (by norm_num) (by norm_num)
  have h13 : Elo.mathRound ((-5525045929574399 / 2199023255552) : ℚ) = (-2512) :=
    mathRound_eval_neg _ _ (2512) (by norm_num) (by norm_num) (by norm_num) (by norm_num)
  have h14 : rne ((-2512) / 100) = (-7070651414971679 / 281474976710656) :=
    rne_eval_neg _ _ (4) (7070651414971679) (by norm_num) (by norm_num) (by norm_num) (by norm_num) (by norm_num)
  simp only [h1, h2, h3, h4, h5, h6, h7, h8, h9, h10, h11, h12,
    h13, h14]

theorem expected_1400_1000 : CalculateExpectedScore mathPow 1400 1000 = (8188362958855447 / 9007199254740992) := by
  unfold CalculateExpectedScore
  simp only [fadd, fsub, fmul, fdiv, ofInt, Int.cast_ofNat, Int.cast_one, Int.cast_zero, Int.cast_neg]
  have h1 : rne (1000 - 1400) = (-400) :=
    rne_exact _ _ (-7036874417766400) (-44) (by norm_num) (by norm_num) (by norm_num)
  have h2 : rne ((-400) / 400) = (-1) :=
    rne_exact _ _ (-4503599627370496) (-52) (by norm_num) (by norm_num) (by norm_num)
  have h3 : mathPow 10 (-1) = (3602879701896397 / 36028797018963968) := by
    rw [mathPow_ten _ (-1) (by norm_num) (by decide) (by decide) (by decide),
      show ((10 : ℚ) ^ ((-1) : Int)) = (1 / 10) by norm_num]
    exact rne_eval _ _ (-4) (7205759403792794) (by norm_num) (by norm_num) (by norm_num) (by norm_num) (by norm_num)
  have h4 : rne (1 + (3602879701896397 / 36028797018963968)) = (2476979795053773 / 2251799813685248) :=
    rne_eval _ _ (0) (4953959590107546) (by norm_num) (by norm_num) (by norm_num) (by norm_num) (by norm_num)
  have h5 : rne (1 / (2476979795053773 / 2251799813685248)) = (8188362958855447 / 9007199254740992) :=
    rne_eval _ _ (-1) (8188362958855447) (by norm_num) (by norm_num) (by norm_num) (by norm_num) (by norm_num)
  simp only [h1, h2, h3, h4, h5]

theorem expected_1000_1400 : CalculateExpectedScore mathPow 1000 1400 = (3275345183542179 / 36028797018963968) := by
  unfold CalculateExpectedScore
  simp only [fadd, fsub, fmul, fdiv, ofInt, Int.cast_ofNat, Int.cast_one, Int.cast_zero, Int.cast_neg]
  have h1 : rne (1400 - 1000) = 400 :=
    rne_exact _ _ (7036874417766400) (-44) (by norm_num) (by norm_num) (by norm_num)
  have h2 : rne (400 / 400) = 1 :=
    rne_exact _ _ (4503599627370496) (-52) (by norm_num) (by norm_num) (by norm_num)
  have h3 : mathPow 10 1 = 10 := mathPow_ten_one
  have h4 : rne (1 + 10) = 11 :=
    rne_exact _ _ (6192449487634432) (-49) (by norm_num) (by norm_num) (by norm_num)
  have h5 : rne (1 / 11) = (3275345183542179 / 36028797018963968) :=
    rne_eval _ _ (-4) (6550690367084358) (by norm_num) (by norm_num) (by norm_num) (by norm_num) (by norm_num)
  simp only [h1, h2, h3, h4, h5]

theorem scoreFactor_215_41 : CalculateScoreFactor 215 41 = (5728015776061849 / 4503599627370496) := by
  have hw : Elo.wrapInt64 (215 + 41) = 256 := by decide
  have hd : Elo.wrapInt64 (215 - 41) = 174 := by decide
  simp only [CalculateScoreFactor, rawScoreFactor, hw, hd]
  rw [if_neg (by decide)]
  simp only [fadd, fsub, fmul, fdiv, ofInt, Int.cast_ofNat, Int.cast_one, Int.cast_zero, Int.cast_neg]
  have h1 : rne (13 / 10) = (5854679515581645 / 4503599627370496) :=
    rne_eval _ _ (0) (5854679515581645) (by norm_num) (by norm_num) (by norm_num) (by norm_num) (by norm_num)
  have h2 : rne (9 / 10) = (8106479329266893 / 9007199254740992) :=
    rne_eval _ _ (-1) (8106479329266893) (by norm_num) (by norm_num) (by norm_num) (by norm_num) (by norm_num)
  have h3 : rne (215) = 215 :=
    rne_exact _ _ (7564639999098880) (-45) (by norm_num) (by norm_num) (by norm_num)
  have h4 : rne (256) = 256 :=
    rne_exact _ _ (4503599627370496) (-44) (by norm_num) (by norm_num) (by norm_num)
  have h5 : rne (215 / 256) = (215 / 256) :=
    rne_exact _ _ (7564639999098880) (-53) (by norm_num) (by norm_num) (by norm_num)
  have h6 : rne (2 / 10) = (3602879701896397 / 18014398509481984) :=
    rne_eval _ _ (-3) (7205759403792794) (by norm_num) (by norm_num) (by norm_num) (by norm_num) (by norm_num)
  have h7 : rne ((215 / 256) * (3602879701896397 / 18014398509481984)) = (43 / 256) :=
    rne_eval _ _ (-3) (6051711999279104) (by norm_num) (by norm_num) (by norm_num) (by norm_num) (by norm_num)
  have h8 : rne ((8106479329266893 / 9007199254740992) + (43 / 256)) = (2404851832271667 / 2251799813685248) :=
    rne_eval_tie_down _ _ (0) (4809703664543334) (by norm_num) (by norm_num) (by norm_num) (by norm_num) (by decide)
  have h9 : rne (174) = 174 :=
    rne_exact _ _ (6122080743456768) (-45) (by norm_num) (by norm_num) (by norm_num)
  have h10 : rne (174 / 256) = (87 / 128) :=
    rne_exact _ _ (6122080743456768) (-53) (by norm_num) (by norm_num) (by norm_num)
  have h11 : rne (3 / 10) = (5404319552844595 / 18014398509481984) :=
    rne_eval _ _ (-2) (5404319552844595) (by norm_num) (by norm_num) (by norm_num) (by norm_num) (by norm_num)
  have h12 : rne ((87 / 128) * (5404319552844595 / 18014398509481984)) = (7346496892148121 / 36028797018963968) :=
    rne_eval _ _ (-3) (7346496892148121) (by norm_num) (by norm_num) (by norm_num) (by norm_num) (by norm_num)
  have h13 : rne ((2404851832271667 / 2251799813685248) + (7346496892148121 / 36028797018963968)) = (5728015776061849 / 4503599627370496) :=
    rne_eval _ _ (0) (5728015776061849) (by norm_num) (by norm_num) (by norm_num) (by norm_num) (by norm_num)
  have h14 : max ((8106479329266893 / 9007199254740992) : ℚ) (5728015776061849 / 4503599627370496) = (5728015776061849 / 4503599627370496) := max_eq_right (by norm_num)
  have h15 : min ((5854679515581645 / 4503599627370496) : ℚ) (5728015776061849 / 4503599627370496) = (5728015776061849 / 4503599627370496) := min_eq_right (by norm_num)
  simp only [h1, h2, h3, h4, h5, h6, h7, h8, h9, h10, h11, h12,
    h13, h14, h15]

theorem CalculateElo_215_41_delta1 : player1Change mathPow 1400 1000 215 41 5 = (5207287069147137 / 1125899906842624) := by
  have hsf : scoreFactor 215 41 = (5728015776061849 / 4503599627370496) := by unfold scoreFactor; rw [if_pos (by decide), scoreFactor_215_41]
  have ha : actual1 215 41 = 1 := by unfold actual1; rw [if_pos (by decide)]
  have hk : GetKFactor 5 = 40 := by unfold GetKFactor; rw [if_pos (by decide)]
  unfold player1Change
  rw [hsf, ha, hk, expected_1400_1000]
  simp only [fadd, fsub, fmul, fdiv, ofInt, Int.cast_ofNat, Int.cast_one, Int.cast_zero, Int.cast_neg]
  have h1 : rne (40 * (5728015776061849 / 4503599627370496)) = (7160019720077311 / 140737488355328) :=
    rne_eval _ _ (5) (7160019720077311) (by norm_num) (by norm_num) (by norm_num) (by norm_num) (by norm_num)
  have h2 : rne (1 - (8188362958855447 / 9007199254740992)) = (818836295885545 / 9007199254740992) :=
    rne_exact _ _ (6550690367084360) (-56) (by norm_num) (by norm_num) (by norm_num)
  have h3 : rne ((7160019720077311 / 140737488355328) * (818836295885545 / 9007199254740992)) = (5207287069147137 / 1125899906842624) :=
    rne_eval _ _ (2) (5207287069147137) (by norm_num) (by norm_num) (by norm_num) (by norm_num) (by norm_num)
  simp only [h1, h2, h3]

theorem CalculateElo_215_41_delta2 : player2Change mathPow 1400 1000 215 41 5 = (-5207287069147135 / 1125899906842624) := by
  have hsf : scoreFactor 215 41 = (5728015776061849 / 4503599627370496) := by unfold scoreFactor; rw [if_pos (by decide), scoreFactor_215_41]
  have ha : actual2 215 41 = 0 := by unfold actual2; rw [if_pos (by decide)]
  have hk : GetKFactor 5 = 40 := by unfold GetKFactor; rw [if_pos (by decide)]
  unfold player2Change
  rw [hsf, ha, hk, expected_1000_1400]
  simp only [fadd, fsub, fmul, fdiv, ofInt, Int.cast_ofNat, Int.cast_one, Int.cast_zero, Int.cast_neg]
  have h1 : rne (40 * (5728015776061849 / 4503599627370496)) = (7160019720077311 / 140737488355328) :=
    rne_eval _ _ (5) (7160019720077311) (by norm_num) (by norm_num) (by norm_num) (by norm_num) (by norm_num)
  have h2 : rne (0 - (3275345183542179 / 36028797018963968)) = (-3275345183542179 / 36028797018963968) :=
    rne_exact _ _ (-6550690367084358) (-56) (by norm_num) (by norm_num) (by norm_num)
  have h3 : rne ((7160019720077311 / 140737488355328) * (-3275345183542179 / 36028797018963968)) = (-5207287069147135 / 1125899906842624) :=
    rne_eval_neg _ _ (2) (5207287069147135) (by norm_num) (by norm_num) (by norm_num) (by norm_num) (by norm_num)
  simp only [h1, h2, h3]

theorem CalculateElo_215_41 : CalculateElo mathPow 1400 1000 215 41 5 5
    = { Player1NewElo := (1544407017723003 / 1099511627776), Player2NewElo := (8755455072445399 / 8796093022208),
        Player1EloChange := (5212916568681349 / 1125899906842624), Player2EloChange := (-5201657569612923 / 1125899906842624) } := by
  unfold CalculateElo
  simp only [CalculateElo_215_41_delta1, CalculateElo_215_41_delta2]
  simp only [fadd, fsub, fmul, fdiv, ofInt, Int.cast_ofNat, Int.cast_one, Int.cast_zero, Int.cast_neg]
  have h1 : rne (1400 + (5207287069147137 / 1125899906842624)) = (11237 / 8) :=
    rne_eval _ _ (10) (6177606080659456) (by norm_num) (by norm_num) (by norm_num) (by norm_num) (by norm_num)
  have h2 : rne ((11237 / 8) * 100) = (280925 / 2) :=
    rne_exact _ _ (4826254750515200) (-35) (by norm_num) (by norm_num) (by norm_num)
  have h3 : Elo.mathRound ((280925 / 2) : ℚ) = 140463 :=
    mathRound_eval _ _ (140463) (by norm_num) (by norm_num) (by norm_num) (by norm_num)
  have h4 : rne (140463 / 100) = (1544407017723003 / 1099511627776) :=
    rne_eval _ _ (10) (6177628070892012) (by norm_num) (by norm_num) (by norm_num) (by norm_num) (by norm_num)
  have h5 : rne (1000 + (-5207287069147135 / 1125899906842624)) = (7963 / 8) :=
    rne_eval _ _ (9) (8755411091980288) (by norm_num) (by norm_num) (by norm_num) (by norm_num) (by norm_num)
  have h6 : rne ((7963 / 8) * 100) = (199075 / 2) :=
    rne_exact _ _ (6840164915609600) (-36) (by norm_num) (by norm_num) (by norm_num)
  have h7 : Elo.mathRound ((199075 / 2) : ℚ) = 99538 :=
    mathRound_eval _ _ (99538) (by norm_num) (by norm_num) (by norm_num) (by norm_num)
  have h8 : rne (99538 / 100) = (8755455072445399 / 8796093022208) :=
    rne_eval _ _ (9) (8755455072445399) (by norm_num) (by norm_num) (by norm_num) (by norm_num) (by norm_num)
  have h9 : rne ((5207287069147137 / 1125899906842624) * 100) = (4068193022771201 / 8796093022208) :=
    rne_eval _ _ (8) (8136386045542402) (by norm_num) (by norm_num) (by norm_num) (by norm_num) (by norm_num)
  have h10 : Elo.mathRound ((4068193022771201 / 8796093022208) : ℚ) = 463 :=
    mathRound_eval _ _ (463) (by norm_num) (by norm_num) (by norm_num) (by norm_num)
  have h11 : rne (463 / 100) = (5212916568681349 / 1125899906842624) :=
    rne_eval _ _ (2) (5212916568681349) (by norm_num) (by norm_num) (by norm_num) (by norm_num) (by norm_num)
  have h12 : rne ((-5207287069147135 / 1125899906842624) * 100) = (-4068193022771199 / 8796093022208) :=
    rne_eval_neg _ _ (8) (8136386045542398) (by norm_num) (by norm_num) (by norm_num) (by norm_num) (by norm_num)
  have h13 : Elo.mathRound ((-4068193022771199 / 8796093022208) : ℚ) = (-462) :=
    mathRound_eval_neg _ _ (462) (by norm_num) (by norm_num) (by norm_num) (by norm_num)
  have h14 : rne ((-462) / 100) = (-5201657569612923 / 1125899906842624) :=
    rne_eval_neg _ _ (2) (5201657569612923) (by norm_num) (by norm_num) (by norm_num) (by norm_num) (by norm_num)
  simp only [h1, h2, h3, h4, h5, h6, h7, h8, h9, h10, h11, h12,
    h13, h14]

theorem scoreFactor_wrapped : CalculateScoreFactor 4611686018427387905 4611686018427387904 = (8106479329266893 / 9007199254740992) := by
  have hw : Elo.wrapInt64 (4611686018427387905 + 4611686018427387904) = (-9223372036854775807) := by decide
  have hd : Elo.wrapInt64 (4611686018427387905 - 4611686018427387904) = 1 := by decide
  simp only [CalculateScoreFactor, rawScoreFactor, hw, hd]
  rw [if_neg (by decide)]
  simp only [fadd, fsub, fmul, fdiv, ofInt, Int.cast_ofNat, Int.cast_one, Int.cast_zero, Int.cast_neg]
  have h1 : rne (13 / 10) = (5854679515581645 / 4503599627370496) :=
    rne_eval _ _ (0) (5854679515581645) (by norm_num) (by norm_num) (by norm_num) (by norm_num) (by norm_num)
  have h2 : rne (9 / 10) = (8106479329266893 / 9007199254740992) :=
    rne_eval _ _ (-1) (8106479329266893) (by norm_num) (by norm_num) (by norm_num) (by norm_num) (by norm_num)
  have h3 : rne (4611686018427387905) = 4611686018427387904 :=
    rne_eval _ _ (62) (4503599627370496) (by norm_num) (by norm_num) (by norm_num) (by norm_num) (by norm_num)
  have h4 : rne ((-9223372036854775807)) = (-9223372036854775808) :=
    rne_eval_neg _ _ (62) (9007199254740992) (by norm_num) (by norm_num) (by norm_num) (by norm_num) (by norm_num)
  have h5 : rne (4611686018427387904 / (-9223372036854775808)) = (-1 / 2) :=
    rne_exact _ _ (-4503599627370496) (-53) (by norm_num) (by norm_num) (by norm_num)
  have h6 : rne (2 / 10) = (3602879701896397 / 18014398509481984) :=
    rne_eval _ _ (-3) (7205759403792794) (by norm_num) (by norm_num) (by norm_num) (by norm_num) (by norm_num)
  have h7 : rne ((-1 / 2) * (3602879701896397 / 18014398509481984)) = (-3602879701896397 / 36028797018963968) :=
    rne_exact _ _ (-7205759403792794) (-56) (by norm_num) (by norm_num) (by norm_num)
  have h8 : rne ((8106479329266893 / 9007199254740992) + (-3602879701896397 / 36028797018963968)) = (3602879701896397 / 4503599627370496) :=
    rne_eval _ _ (-1) (7205759403792794) (by norm_num) (by norm_num) (by norm_num) (by norm_num) (by norm_num)
  have h9 : rne (1) = 1 :=
    rne_exact _ _ (4503599627370496) (-52) (by norm_num) (by norm_num) (by norm_num)
  have h10 : rne (1 / (-9223372036854775808)) = (-1 / 9223372036854775808) :=
    rne_exact _ _ (-4503599627370496) (-115) (by norm_num) (by norm_num) (by norm_num)
  have h11 : rne (3 / 10) = (5404319552844595 / 18014398509481984) :=
    rne_eval _ _ (-2) (5404319552844595) (by norm_num) (by norm_num) (by norm_num) (by norm_num) (by norm_num)
  have h12 : rne ((-1 / 9223372036854775808) * (5404319552844595 / 18014398509481984)) = (-5404319552844595 / 166153499473114484112975882535043072) :=
    rne_exact _ _ (-5404319552844595) (-117) (by norm_num) (by norm_num) (by norm_num)
  have h13 : rne ((3602879701896397 / 4503599627370496) + (-5404319552844595 / 166153499473114484112975882535043072)) = (3602879701896397 / 4503599627370496) :=
    rne_eval _ _ (-1) (7205759403792794) (by norm_num) (by norm_num) (by norm_num) (by norm_num) (by norm_num)
  have h14 : max ((8106479329266893 / 9007199254740992) : ℚ) (3602879701896397 / 4503599627370496) = (8106479329266893 / 9007199254740992) := max_eq_left (by norm_num)
  have h15 : min ((5854679515581645 / 4503599627370496) : ℚ) (8106479329266893 / 9007199254740992) = (8106479329266893 / 9007199254740992) := min_eq_right (by norm_num)
  simp only [h1, h2, h3, h4, h5, h6, h7, h8, h9, h10, h11, h12,
    h13, h14, h15]

/-- The score factor of the worked example in binary64:
`1.1500000000000001`. -/
theorem scoreFactor_11_5 : CalculateScoreFactor 11 5 = (5179139571476071 / 4503599627370496) := by
  have hw : Elo.wrapInt64 (11 + 5) = 16 := by decide
  have hd : Elo.wrapInt64 (11 - 5) = 6 := by decide
  simp only [CalculateScoreFactor, rawScoreFactor, hw, hd]
  rw [if_neg (by decide)]
  simp only [fadd, fsub, fmul, fdiv, ofInt, Int.cast_ofNat, Int.cast_one, Int.cast_zero, Int.cast_neg]
  have h1 : rne (13 / 10) = (5854679515581645 / 4503599627370496) :=
    rne_eval _ _ (0) (5854679515581645) (by norm_num) (by norm_num) (by norm_num) (by norm_num) (by norm_num)
  have h2 : rne (9 / 10) = (8106479329266893 / 9007199254740992) :=
    rne_eval _ _ (-1) (8106479329266893) (by norm_num) (by norm_num) (by norm_num) (by norm_num) (by norm_num)
  have h3 : rne (11) = 11 :=
    rne_exact _ _ (6192449487634432) (-49) (by norm_num) (by norm_num) (by norm_num)
  have h4 : rne (16) = 16 :=
    rne_exact _ _ (4503599627370496) (-48) (by norm_num) (by norm_num) (by norm_num)
  have h5 : rne (11 / 16) = (11 / 16) :=
    rne_exact _ _ (6192449487634432) (-53) (by norm_num) (by norm_num) (by norm_num)
  have h6 : rne (2 / 10) = (3602879701896397 / 18014398509481984) :=
    rne_eval _ _ (-3) (7205759403792794) (by norm_num) (by norm_num) (by norm_num) (by norm_num) (by norm_num)
  have h7 : rne ((11 / 16) * (3602879701896397 / 18014398509481984)) = (2476979795053773 / 18014398509481984) :=
    rne_eval _ _ (-3) (4953959590107546) (by norm_num) (by norm_num) (by norm_num) (by norm_num) (by norm_num)
  have h8 : rne ((8106479329266893 / 9007199254740992) + (2476979795053773 / 18014398509481984)) = (2336242306698445 / 2251799813685248) :=
    rne_eval _ _ (0) (4672484613396890) (by norm_num) (by norm_num) (by norm_num) (by norm_num) (by norm_num)
  have h9 : rne (6) = 6 :=
    rne_exact _ _ (6755399441055744) (-50) (by norm_num) (by norm_num) (by norm_num)
  have h10 : rne (6 / 16) = (3 / 8) :=
    rne_exact _ _ (6755399441055744) (-54) (by norm_num) (by norm_num) (by norm_num)
  have h11 : rne (3 / 10) = (5404319552844595 / 18014398509481984) :=
    rne_eval _ _ (-2) (5404319552844595) (by norm_num) (by norm_num) (by norm_num) (by norm_num) (by norm_num)
  have h12 : rne ((3 / 8) * (5404319552844595 / 18014398509481984)) = (2026619832316723 / 18014398509481984) :=
    rne_eval_tie_down _ _ (-4) (8106479329266892) (by norm_num) (by norm_num) (by norm_num) (by norm_num) (by decide)
  have h13 : rne ((2336242306698445 / 2251799813685248) + (2026619832316723 / 18014398509481984)) = (5179139571476071 / 4503599627370496) :=
    rne_eval _ _ (0) (5179139571476071) (by norm_num) (by norm_num) (by norm_num) (by norm_num) (by norm_num)
  have h14 : max ((8106479329266893 / 9007199254740992) : ℚ) (5179139571476071 / 4503599627370496) = (5179139571476071 / 4503599627370496) := max_eq_right (by norm_num)
  have h15 : min ((5854679515581645 / 4503599627370496) : ℚ) (5179139571476071 / 4503599627370496) = (5179139571476071 / 4503599627370496) := min_eq_right (by norm_num)
  simp only [h1, h2, h3, h4, h5, h6, h7, h8, h9, h10, h11, h12,
    h13, h14, h15]

theorem scoreFactor_near_tie : CalculateScoreFactor 2251799813685248 2251799813685247 = 1 := by
  have hw : Elo.wrapInt64 (2251799813685248 + 2251799813685247) = 4503599627370495 := by decide
  have hd : Elo.wrapInt64 (2251799813685248 - 2251799813685247) = 1 := by decide
  simp only [CalculateScoreFactor, rawScoreFactor, hw, hd]
  rw [if_neg (by decide)]
  simp only [fadd, fsub, fmul, fdiv, ofInt, Int.cast_ofNat, Int.cast_one, Int.cast_zero, Int.cast_neg]
  have h1 : rne (13 / 10) = (5854679515581645 / 4503599627370496) :=
    rne_eval _ _ (0) (5854679515581645) (by norm_num) (by norm_num) (by norm_num) (by norm_num) (by norm_num)
  have h2 : rne (9 / 10) = (8106479329266893 / 9007199254740992) :=
    rne_eval _ _ (-1) (8106479329266893) (by norm_num) (by norm_num) (by norm_num) (by norm_num) (by norm_num)
  have h3 : rne (2251799813685248) = 2251799813685248 :=
    rne_exact _ _ (4503599627370496) (-1) (by norm_num) (by norm_num) (by norm_num)
  have h4 : rne (4503599627370495) = 4503599627370495 :=
    rne_exact _ _ (9007199254740990) (-1) (by norm_num) (by norm_num) (by norm_num)
  have h5 : rne (2251799813685248 / 4503599627370495) = (4503599627370497 / 9007199254740992) :=
    rne_eval _ _ (-1) (4503599627370497) (by norm_num) (by norm_num) (by norm_num) (by norm_num) (by norm_num)
  have h6 : rne (2 / 10) = (3602879701896397 / 18014398509481984) :=
    rne_eval _ _ (-3) (7205759403792794) (by norm_num) (by norm_num) (by norm_num) (by norm_num) (by norm_num)
  have h7 : rne ((4503599627370497 / 9007199254740992) * (3602879701896397 / 18014398509481984)) = (1801439850948199 / 18014398509481984) :=
    rne_eval _ _ (-4) (7205759403792796) (by norm_num) (by norm_num) (by norm_num) (by norm_num) (by norm_num)
  have h8 : rne ((8106479329266893 / 9007199254740992) + (1801439850948199 / 18014398509481984)) = 1 :=
    rne_eval _ _ (0) (4503599627370496) (by norm_num) (by norm_num) (by norm_num) (by norm_num) (by norm_num)
  have h9 : rne (1) = 1 :=
    rne_exact _ _ (4503599627370496) (-52) (by norm_num) (by norm_num) (by norm_num)
  have h10 : rne (1 / 4503599627370495) = (4503599627370497 / 20282409603651670423947251286016) :=
    rne_eval _ _ (-52) (4503599627370497) (by norm_num) (by norm_num) (by norm_num) (by norm_num) (by norm_num)
  have h11 : rne (3 / 10) = (5404319552844595 / 18014398509481984) :=
    rne_eval _ _ (-2) (5404319552844595) (by norm_num) (by norm_num) (by norm_num) (by norm_num) (by norm_num)
  have h12 : rne ((4503599627370497 / 20282409603651670423947251286016) * (5404319552844595 / 18014398509481984)) = (1351079888211149 / 20282409603651670423947251286016) :=
    rne_eval _ _ (-54) (5404319552844596) (by norm_num) (by norm_num) (by norm_num) (by norm_num) (by norm_num)
  have h13 : rne (1 + (1351079888211149 / 20282409603651670423947251286016)) = 1 :=
    rne_eval _ _ (0) (4503599627370496) (by norm_num) (by norm_num) (by norm_num) (by norm_num) (by norm_num)
  have h14 : max ((8106479329266893 / 9007199254740992) : ℚ) 1 = 1 := max_eq_right (by norm_num)
  have h15 : min ((5854679515581645 / 4503599627370496) : ℚ) 1 = 1 := min_eq_right (by norm_num)
  simp only [h1, h2, h3, h4, h5, h6, h7, h8, h9, h10, h11, h12,
    h13, h14, h15]

theorem expected_2200_1000 : CalculateExpectedScore mathPow 2200 1000 = (4499100526843653 / 4503599627370496) := by
  unfold CalculateExpectedScore
  simp only [fadd, fsub, fmul, fdiv, ofInt, Int.cast_ofNat, Int.cast_one, Int.cast_zero, Int.cast_neg]
  have h1 : rne (1000 - 2200) = (-1200) :=
    rne_exact _ _ (-5277655813324800) (-42) (by norm_num) (by norm_num) (by norm_num)
  have h2 : rne ((-1200) / 400) = (-3) :=
    rne_exact _ _ (-6755399441055744) (-51) (by norm_num) (by norm_num) (by norm_num)
  have h3 : mathPow 10 (-3) = (1152921504606847 / 1152921504606846976) := by
    rw [mathPow_ten _ (-3) (by norm_num) (by decide) (by decide) (by decide),
      show ((10 : ℚ) ^ ((-3) : Int)) = (1 / 1000) by norm_num]
    exact rne_eval _ _ (-10) (4611686018427388) (by norm_num) (by norm_num) (by norm_num) (by norm_num) (by norm_num)
  have h4 : rne (1 + (1152921504606847 / 1152921504606846976)) = (2254051613498933 / 2251799813685248) :=
    rne_eval _ _ (0) (4508103226997866) (by norm_num) (by norm_num) (by norm_num) (by norm_num) (by norm_num)
  have h5 : rne (1 / (2254051613498933 / 2251799813685248)) = (4499100526843653 / 4503599627370496) :=
    rne_eval _ _ (-1) (8998201053687306) (by norm_num) (by norm_num) (by norm_num) (by norm_num) (by norm_num)
  simp only [h1, h2, h3, h4, h5]

theorem expected_1000_2200 : CalculateExpectedScore mathPow 1000 2200 = (1151769734871975 / 1152921504606846976) := by
  unfold CalculateExpectedScore
  simp only [fadd, fsub, fmul, fdiv, ofInt, Int.cast_ofNat, Int.cast_one, Int.cast_zero, Int.cast_neg]
  have h1 : rne (2200 - 1000) = 1200 :=
    rne_exact _ _ (5277655813324800) (-42) (by norm_num) (by norm_num) (by norm_num)
  have h2 : rne (1200 / 400) = 3 :=
    rne_exact _ _ (6755399441055744) (-51) (by norm_num) (by norm_num) (by norm_num)
  have h3 : mathPow 10 3 = 1000 := by
    rw [mathPow_ten _ (3) (by norm_num) (by decide) (by decide) (by decide),
      show ((10 : ℚ) ^ ((3) : Int)) = 1000 by norm_num]
    exact rne_exact _ _ (8796093022208000) (-43) (by norm_num) (by norm_num) (by norm_num)
  have h4 : rne (1 + 1000) = 1001 :=
    rne_exact _ _ (8804889115230208) (-43) (by norm_num) (by norm_num) (by norm_num)
  have h5 : rne (1 / 1001) = (1151769734871975 / 1152921504606846976) :=
    rne_eval _ _ (-10) (4607078939487900) (by norm_num) (by norm_num) (by norm_num) (by norm_num) (by norm_num)
  simp only [h1, h2, h3, h4, h5]

theorem CalculateElo_11_5_delta1 : player1Change mathPow 1000 1000 11 5 5 = (6473924464345089 / 281474976710656) := by
  have hsf : scoreFactor 11 5 = (5179139571476071 / 4503599627370496) := by unfold scoreFactor; rw [if_pos (by decide), scoreFactor_11_5]
  have ha : actual1 11 5 = 1 := by unfold actual1; rw [if_pos (by decide)]
  have hk : GetKFactor 5 = 40 := by unfold GetKFactor; rw [if_pos (by decide)]
  unfold player1Change
  rw [hsf, ha, hk, expected_1000_1000]
  simp only [fadd, fsub, fmul, fdiv, ofInt, Int.cast_ofNat, Int.cast_one, Int.cast_zero, Int.cast_neg]
  have h1 : rne (40 * (5179139571476071 / 4503599627370496)) = (6473924464345089 / 140737488355328) :=
    rne_eval _ _ (5) (6473924464345089) (by norm_num) (by norm_num) (by norm_num) (by norm_num) (by norm_num)
  have h2 : rne (1 - (1 / 2)) = (1 / 2) :=
    rne_exact _ _ (4503599627370496) (-53) (by norm_num) (by norm_num) (by norm_num)
  have h3 : rne ((6473924464345089 / 140737488355328) * (1 / 2)) = (6473924464345089 / 281474976710656) :=
    rne_exact _ _ (6473924464345089) (-48) (by norm_num) (by norm_num) (by norm_num)
  simp only [h1, h2, h3]

theorem CalculateElo_11_5_delta2 : player2Change mathPow 1000 1000 11 5 5 = (-6473924464345089 / 281474976710656) := by
  have hsf : scoreFactor 11 5 = (5179139571476071 / 4503599627370496) := by unfold scoreFactor; rw [if_pos (by decide), scoreFactor_11_5]
  have ha : actual2 11 5 = 0 := by unfold actual2; rw [if_pos (by decide)]
  have hk : GetKFactor 5 = 40 := by unfold GetKFactor; rw [if_pos (by decide)]
  unfold player2Change
  rw [hsf, ha, hk, expected_1000_1000]
  simp only [fadd, fsub, fmul, fdiv, ofInt, Int.cast_ofNat, Int.cast_one, Int.cast_zero, Int.cast_neg]
  have h1 : rne (40 * (5179139571476071 / 4503599627370496)) = (6473924464345089 / 140737488355328) :=
    rne_eval _ _ (5) (6473924464345089) (by norm_num) (by norm_num) (by norm_num) (by norm_num) (by norm_num)
  have h2 : rne (0 - (1 / 2)) = (-1 / 2) :=
    rne_exact _ _ (-4503599627370496) (-53) (by norm_num) (by norm_num) (by norm_num)
  have h3 : rne ((6473924464345089 / 140737488355328) * (-1 / 2)) = (-6473924464345089 / 281474976710656) :=
    rne_exact _ _ (-6473924464345089) (-48) (by norm_num) (by norm_num) (by norm_num)
  simp only [h1, h2, h3]

/-- The worked example in binary64: `CalculateElo(1000, 1000, 11, 5, 5, 5)`
returns the new ratings 1023 and 977 and the changes 23 and -23. -/
theorem CalculateElo_11_5 : CalculateElo mathPow 1000 1000 11 5 5 5
    = { Player1NewElo := 1023, Player2NewElo := 977,
        Player1EloChange := 23, Player2EloChange := (-23) } := by
  unfold CalculateElo
  simp only [CalculateElo_11_5_delta1, CalculateElo_11_5_delta2]
  simp only [fadd, fsub, fmul, fdiv, ofInt, Int.cast_ofNat, Int.cast_one, Int.cast_zero, Int.cast_neg]
  have h1 : rne (1000 + (6473924464345089 / 281474976710656)) = 1023 :=
    rne_eval _ _ (9) (8998403161718784) (by norm_num) (by norm_num) (by norm_num) (by norm_num) (by norm_num)
  have h2 : rne (1023 * 100) = 102300 :=
    rne_exact _ _ (7030002470092800) (-36) (by norm_num) (by norm_num) (by norm_num)
  have h3 : Elo.mathRound (102300 : ℚ) = 102300 :=
    mathRound_eval _ _ (102300) (by norm_num) (by norm_num) (by norm_num) (by norm_num)
  have h4 : rne (102300 / 100) = 1023 :=
    rne_exact _ _ (8998403161718784) (-43) (by norm_num) (by norm_num) (by norm_num)
  have h5 : rne (1000 + (-6473924464345089 / 281474976710656)) = 977 :=
    rne_eval _ _ (9) (8593782882697216) (by norm_num) (by norm_num) (by norm_num) (by norm_num) (by norm_num)
  have h6 : rne (977 * 100) = 97700 :=
    rne_exact _ _ (6713892877107200) (-36) (by norm_num) (by norm_num) (by norm_num)
  have h7 : Elo.mathRound (97700 : ℚ) = 97700 :=
    mathRound_eval _ _ (97700) (by norm_num) (by norm_num) (by norm_num) (by norm_num)
  have h8 : rne (97700 / 100) = 977 :=
    rne_exact _ _ (8593782882697216) (-43) (by norm_num) (by norm_num) (by norm_num)
  have h9 : rne ((6473924464345089 / 281474976710656) * 100) = (5057753487769601 / 2199023255552) :=
    rne_eval _ _ (11) (5057753487769601) (by norm_num) (by norm_num) (by norm_num) (by norm_num) (by norm_num)
  have h10 : Elo.mathRound ((5057753487769601 / 2199023255552) : ℚ) = 2300 :=
    mathRound_eval _ _ (2300) (by norm_num) (by norm_num) (by norm_num) (by norm_num)
  have h11 : rne (2300 / 100) = 23 :=
    rne_exact _ _ (6473924464345088) (-48) (by norm_num) (by norm_num) (by norm_num)
  have h12 : rne ((-6473924464345089 / 281474976710656) * 100) = (-5057753487769601 / 2199023255552) :=
    rne_eval_neg _ _ (11) (5057753487769601) (by norm_num) (by norm_num) (by norm_num) (by norm_num) (by norm_num)
  have h13 : Elo.mathRound ((-5057753487769601 / 2199023255552) : ℚ) = (-2300) :=
    mathRound_eval_neg _ _ (2300) (by norm_num) (by norm_num) (by norm_num) (by norm_num)
  have h14 : rne ((-2300) / 100) = (-23) :=
    rne_exact _ _ (-6473924464345088) (-48) (by norm_num) (by norm_num) (by norm_num)
  simp only [h1, h2, h3, h4, h5, h6, h7, h8, h9, h10, h11, h12,
    h13, h14]

/-! ## Rating engine over binary64 values: error bounds -/

theorem mathRound_nearest_half_away (t : ℚ) :
    ∃ n : Int, Elo.mathRound t = (n : ℚ) ∧ |t - (n : ℚ)| ≤ 1 / 2 ∧
      (|t - (n : ℚ)| = 1 / 2 → |t| < |(n : ℚ)|) := by
  unfold Elo.mathRound
  by_cases h : 0 ≤ t
  · rw [if_pos h]
    have h1 := Int.floor_le (t + 1 / 2)
    have h2 := Int.lt_floor_add_one (t + 1 / 2)
    refine ⟨⌊t + 1 / 2⌋, rfl, ?_, ?_⟩
    · rw [abs_le]
      constructor <;> linarith
    · intro ht
      have h3 : t - ((⌊t + 1 / 2⌋ : Int) : ℚ) = -(1 / 2) := by
        rcases abs_eq (by norm_num : (0 : ℚ) ≤ 1 / 2) |>.mp ht with h' | h'
        · linarith
        · exact h'
      rw [abs_of_nonneg h, abs_of_pos (by linarith)]
      linarith
  · rw [if_neg h]
    have h0 : t < 0 := not_le.mp h
    have h1 := Int.floor_le (-t + 1 / 2)
    have h2 := Int.lt_floor_add_one (-t + 1 / 2)
    refine ⟨-⌊-t + 1 / 2⌋, by push_cast; rfl, ?_, ?_⟩
    · push_cast
      rw [abs_le]
      constructor <;> linarith
    · push_cast
      intro ht
      have h3 : t - -((⌊-t + 1 / 2⌋ : Int) : ℚ) = 1 / 2 := by
        rcases abs_eq (by norm_num : (0 : ℚ) ≤ 1 / 2) |>.mp ht with h' | h'
        · exact h'
        · linarith
      rw [abs_of_neg h0, abs_neg, abs_of_pos (by linarith)]
      linarith

/-- The new rating and the reported delta of one side, computed from the
same binary64 delta `d`, agree up to one hundredth and the rounding errors. -/
theorem abs_round2_fadd_sub_le (old d : ℚ) :
    |round2 (fadd old d) - (old + round2 d)| ≤ 1 / 100 + (|old| + |d| + 1) / 2 ^ 49 := by
  have h1 := abs_round2_sub_le (fadd old d)
  have h3 := abs_round2_sub_le d
  unfold fadd at h1 ⊢
  have h2 := abs_rne_sub_le (old + d)
  have h4 := abs_rne_le (old + d)
  have h5 := abs_add old d
  have hO := abs_nonneg old
  have hD := abs_nonneg d
  generalize round2 (rne (old + d)) = N at *
  generalize round2 d = C at *
  generalize rne (old + d) = s at *
  have e : N - (old + C) = (N - s) + (s - (old + d)) - (C - d) := by ring
  have a1 := abs_le.mp h1
  have a2 := abs_le.mp h2
  have a3 := abs_le.mp h3
  rw [abs_le]
  constructor
  · rw [e]
    nlinarith [a1.1, a2.1, a3.2]
  · rw [e]
    nlinarith [a1.2, a2.2, a3.1]

theorem CalculateScoreFactor_eq (w l : Int) (h1 : -2 ^ 63 ≤ w + l) (h2 : w + l < 2 ^ 63)
    (h3 : -2 ^ 63 ≤ w - l) (h4 : w - l < 2 ^ 63) (hne : w + l ≠ 0) :
    CalculateScoreFactor w l
      = min (rne (13 / 10)) (max (rne (9 / 10))
          (rne (rne (rne (9 / 10) + rne (rne (rne (w : ℚ) / rne ((w + l : Int) : ℚ)) * rne (2 / 10)))
            + rne (rne (rne ((w - l : Int) : ℚ) / rne ((w + l : Int) : ℚ)) * rne (3 / 10))))) := by
  unfold CalculateScoreFactor rawScoreFactor
  simp only [Elo.wrapInt64_of_mem h1 h2, Elo.wrapInt64_of_mem h3 h4]
  rw [if_neg hne]
  rfl

/-- The binary64 quotient of two converted integers is within `2^-51` of
the exact quotient, when the quotient is at most 1 in absolute value. -/
theorem abs_fdiv_sub_le (x t : ℚ) (ht : 0 < t) (hx : |x| ≤ t) :
    |rne (rne x / rne t) - x / t| ≤ 4 / 2 ^ 53 := by
  have hfx := abs_le.mp (abs_rne_sub_le_of_le x t hx)
  have hft := abs_le.mp (abs_rne_sub_le t)
  rw [abs_of_pos ht] at hft
  have hftpos : 0 < rne t := rne_pos ht
  have hr : |x / t| ≤ 1 := by
    rw [abs_div, abs_of_pos ht]
    exact (div_le_one ht).mpr hx
  have hr' := abs_le.mp hr
  have hxt : x = x / t * t := by field_simp
  -- the exact quotient of the rounded operands
  have key : (rne x / rne t - x / t) * rne t = (rne x - x) - x / t * (rne t - t) := by
    field_simp
    ring
  have hd : |rne x / rne t - x / t| ≤ (5 / 2) / 2 ^ 53 := by
    have h1 : |rne x / rne t - x / t| * rne t ≤ 2 * t / 2 ^ 53 := by
      have hm : |rne x / rne t - x / t| * rne t = |(rne x / rne t - x / t) * rne t| := by
        rw [abs_mul, abs_of_pos hftpos]
      rw [hm, key]
      have e1 : |x / t * (rne t - t)| ≤ t / 2 ^ 53 := by
        rw [abs_mul]
        have := abs_le.mpr hft
        calc |x / t| * |rne t - t| ≤ 1 * (t / 2 ^ 53) :=
              mul_le_mul hr this (abs_nonneg _) (by norm_num)
          _ = t / 2 ^ 53 := one_mul _
      have e2 : |rne x - x| ≤ t / 2 ^ 53 := abs_le.mpr hfx
      have := abs_sub (rne x - x) (x / t * (rne t - t))
      linarith
    have h2 : |rne x / rne t - x / t| * (t * (1 - 1 / 2 ^ 53)) ≤ |rne x / rne t - x / t| * rne t :=
      mul_le_mul_of_nonneg_left (by linarith [hft.1]) (abs_nonneg _)
    have h3 : |rne x / rne t - x / t| * (1 - 1 / 2 ^ 53) * t ≤ (2 / 2 ^ 53) * t := by
      calc |rne x / rne t - x / t| * (1 - 1 / 2 ^ 53) * t
            = |rne x / rne t - x / t| * (t * (1 - 1 / 2 ^ 53)) := by ring
        _ ≤ 2 * t / 2 ^ 53 := le_trans h2 h1
        _ = (2 / 2 ^ 53) * t := by ring
    have h4 := le_of_mul_le_mul_right h3 ht
    have h5 := abs_nonneg (rne x / rne t - x / t)
    linarith
  have hq : |rne x / rne t| ≤ 1 + (5 / 2) / 2 ^ 53 := by
    have := abs_add (rne x / rne t - x / t) (x / t)
    rw [sub_add_cancel] at this
    linarith
  have hrq := abs_rne_sub_le_of_le _ _ hq
  have := abs_add (rne (rne x / rne t) - rne x / rne t) (rne x / rne t - x / t)
  rw [sub_add_sub_cancel] at this
  have e : (1 + (5 / 2) / 2 ^ 53) / 2 ^ 53 + (5 / 2) / 2 ^ 53 ≤ (4 : ℚ) / 2 ^ 53 := by norm_num
  linarith

/-- Without overflow and for non-negative scores, the binary64 score factor
is within `2^-50` of the exact value of the formula. -/
theorem abs_CalculateScoreFactor_sub_le (w l : Int) (hw : 0 ≤ w) (hl : 0 ≤ l)
    (hT : w + l < 2 ^ 63) (hne : w + l ≠ 0) :
    |CalculateScoreFactor w l - Elo.scoreFactorSpec w l| ≤ 1 / 2 ^ 50 := by
  rw [CalculateScoreFactor_eq w l (by linarith) hT (by linarith) (by linarith) hne]
  unfold Elo.scoreFactorSpec
  simp only [if_neg hne]
  have hTpos : (0 : ℚ) < ((w + l : Int) : ℚ) := by
    have : 0 < w + l := by omega
    exact_mod_cast this
  have hwq : (0 : ℚ) ≤ (w : ℚ) := by exact_mod_cast hw
  have hlq : (0 : ℚ) ≤ (l : ℚ) := by exact_mod_cast hl
  have hTe : ((w + l : Int) : ℚ) = (w : ℚ) + (l : ℚ) := by push_cast; ring
  have hDe : ((w - l : Int) : ℚ) = (w : ℚ) - (l : ℚ) := by push_cast; ring
  have hxw : |(w : ℚ)| ≤ ((w + l : Int) : ℚ) := by
    rw [abs_of_nonneg hwq, hTe]; linarith
  have hxd : |((w - l : Int) : ℚ)| ≤ ((w + l : Int) : ℚ) := by
    rw [hTe, hDe, abs_le]; constructor <;> linarith
  have hA := abs_le.mp (abs_fdiv_sub_le (w : ℚ) _ hTpos hxw)
  have hB := abs_le.mp (abs_fdiv_sub_le ((w - l : Int) : ℚ) _ hTpos hxd)
  have hW0 : 0 ≤ (w : ℚ) / ((w + l : Int) : ℚ) := div_nonneg hwq (le_of_lt hTpos)
  have hW1 : (w : ℚ) / ((w + l : Int) : ℚ) ≤ 1 :=
    (div_le_one hTpos).mpr (by rw [hTe]; linarith)
  have hM := abs_le.mp ((by
    rw [abs_div, abs_of_pos hTpos]
    exact (div_le_one hTpos).mpr hxd) : |((w - l : Int) : ℚ) / ((w + l : Int) : ℚ)| ≤ 1)
  rw [rne_nine_tenths, rne_two_tenths, rne_three_tenths, rne_thirteen_tenths]
  generalize rne (rne (w : ℚ) / rne ((w + l : Int) : ℚ)) = wr at hA ⊢
  generalize rne (rne ((w - l : Int) : ℚ) / rne ((w + l : Int) : ℚ)) = pd at hB ⊢
  generalize (w : ℚ) / ((w + l : Int) : ℚ) = W at hA hW0 hW1 ⊢
  generalize ((w - l : Int) : ℚ) / ((w + l : Int) : ℚ) = M at hB hM ⊢
  -- the two products
  have b1 : |wr * (3602879701896397 / 18014398509481984)| ≤ 21 / 100 := by
    rw [abs_le]; constructor <;> linarith [hA.1, hA.2]
  have h1 := abs_le.mp (abs_rne_sub_le_of_le _ _ b1)
  have b2 : |pd * (5404319552844595 / 18014398509481984)| ≤ 31 / 100 := by
    rw [abs_le]; constructor <;> linarith [hB.1, hB.2, hM.1, hM.2]
  have h2 := abs_le.mp (abs_rne_sub_le_of_le _ _ b2)
  generalize rne (wr * (3602879701896397 / 18014398509481984)) = t1 at h1 ⊢
  generalize rne (pd * (5404319552844595 / 18014398509481984)) = t2 at h2 ⊢
  -- the two sums
  have b3 : |8106479329266893 / 9007199254740992 + t1| ≤ 12 / 10 := by
    rw [abs_le]; constructor <;> linarith [hA.1, hA.2, h1.1, h1.2]
  have h3 := abs_le.mp (abs_rne_sub_le_of_le _ _ b3)
  generalize rne (8106479329266893 / 9007199254740992 + t1) = s1 at h3 ⊢
  have b4 : |s1 + t2| ≤ 16 / 10 := by
    rw [abs_le]
    constructor <;> linarith [hA.1, hA.2, h1.1, h1.2, hB.1, hB.2, hM.1, hM.2, h2.1, h2.2, h3.1, h3.2]
  have h4 := abs_le.mp (abs_rne_sub_le_of_le _ _ b4)
  generalize rne (s1 + t2) = s2 at h4 ⊢
  have hs : |s2 - (0.9 + 0.2 * W + 0.3 * M)| ≤ 1 / 2 ^ 50 := by
    rw [abs_le]
    constructor
    · norm_num
      norm_num at hA hB h1 h2 h3 h4
      linarith [hA.1, hA.2, h1.1, h1.2, hB.1, hB.2, hM.1, hM.2, h2.1, h2.2, h3.1, h3.2, h4.1, h4.2]
    · norm_num
      norm_num at hA hB h1 h2 h3 h4
      linarith [hA.1, hA.2, h1.1, h1.2, hB.1, hB.2, hM.1, hM.2, h2.1, h2.2, h3.1, h3.2, h4.1, h4.2]
  have hmax := abs_max_sub_max_le_max (8106479329266893 / 9007199254740992 : ℚ) s2 0.9
    (0.9 + 0.2 * W + 0.3 * M)
  have hmin := abs_min_sub_min_le_max (5854679515581645 / 4503599627370496 : ℚ)
    (max (8106479329266893 / 9007199254740992) s2) 1.3 (max 0.9 (0.9 + 0.2 * W + 0.3 * M))
  have c9 : |(8106479329266893 / 9007199254740992 : ℚ) - 0.9| ≤ 1 / 2 ^ 50 := by
    rw [abs_le]; constructor <;> norm_num
  have c13 : |(5854679515581645 / 4503599627370496 : ℚ) - 1.3| ≤ 1 / 2 ^ 50 := by
    rw [abs_le]; constructor <;> norm_num
  exact le_trans hmin (max_le c13 (le_trans hmax (max_le c9 hs)))

theorem rne_half : rne (1 / 2) = 1 / 2 :=
  rne_exact _ _ (1) (-1) (by norm_num) (by norm_num) (by norm_num)

theorem nine_tenths_le_one : rne (9 / 10) ≤ 1 := by
  rw [rne_nine_tenths]; norm_num

theorem one_le_thirteen_tenths : 1 ≤ rne (13 / 10) := by
  rw [rne_thirteen_tenths]; norm_num

/-- The unclamped binary64 score factor of a decisive outcome with
non-negative scores is at least 1.0. -/
theorem one_le_rawScoreFactor (w l : Int) (h0 : 0 ≤ l) (h1 : l < w) (hT : w + l < 2 ^ 63) :
    1 ≤ rawScoreFactor w l (w + l) := by
  unfold rawScoreFactor
  simp only [Elo.wrapInt64_of_mem (by linarith : -2 ^ 63 ≤ w - l) (by linarith : w - l < 2 ^ 63)]
  unfold fadd fmul fdiv ofInt
  have hlq : (0 : ℚ) ≤ (l : ℚ) := by exact_mod_cast h0
  have hwl : (l : ℚ) < (w : ℚ) := by exact_mod_cast h1
  have hTe : ((w + l : Int) : ℚ) = (w : ℚ) + (l : ℚ) := by push_cast; ring
  have hDe : ((w - l : Int) : ℚ) = (w : ℚ) - (l : ℚ) := by push_cast; ring
  have hTpos : (0 : ℚ) < ((w + l : Int) : ℚ) := by rw [hTe]; linarith
  have hfT : 0 < rne ((w + l : Int) : ℚ) := rne_pos hTpos
  -- the win ratio is at least one half
  have hfw : (1 / 2) * rne ((w + l : Int) : ℚ) ≤ rne (w : ℚ) := by
    have h := rne_zpow_mul (-1) ((w + l : Int) : ℚ)
    have e : (2 : ℚ) ^ (-1 : Int) = 1 / 2 := by norm_num
    rw [e] at h
    rw [← h]
    apply rne_mono
    rw [hTe]
    linarith
  have hwr : 1 / 2 ≤ rne (rne (w : ℚ) / rne ((w + l : Int) : ℚ)) := by
    apply le_rne_of_le _ rne_half
    rw [le_div_iff₀ hfT]
    exact hfw
  -- the margin ratio is non-negative
  have hpd : 0 ≤ rne (rne ((w - l : Int) : ℚ) / rne ((w + l : Int) : ℚ)) := by
    apply rne_nonneg
    apply div_nonneg _ (le_of_lt hfT)
    apply rne_nonneg
    rw [hDe]
    linarith
  rw [rne_nine_tenths, rne_two_tenths, rne_three_tenths]
  generalize rne (rne (w : ℚ) / rne ((w + l : Int) : ℚ)) = wr at hwr ⊢
  generalize rne (rne ((w - l : Int) : ℚ) / rne ((w + l : Int) : ℚ)) = pd at hpd ⊢
  have ht1 : 3602879701896397 / 36028797018963968
      ≤ rne (wr * (3602879701896397 / 18014398509481984)) := by
    apply le_rne_of_le
    · linarith
    · exact rne_exact _ _ (3602879701896397) (-55) (by norm_num) (by norm_num) (by norm_num)
  have ht2 : 0 ≤ rne (pd * (5404319552844595 / 18014398509481984)) :=
    rne_nonneg (by positivity)
  generalize rne (wr * (3602879701896397 / 18014398509481984)) = t1 at ht1 ⊢
  generalize rne (pd * (5404319552844595 / 18014398509481984)) = t2 at ht2 ⊢
  have hs1 : 1 ≤ rne (8106479329266893 / 9007199254740992 + t1) := by
    have h := rne_mono (by linarith :
      (8106479329266893 / 9007199254740992 + 3602879701896397 / 36028797018963968 : ℚ)
        ≤ 8106479329266893 / 9007199254740992 + t1)
    have e : rne (8106479329266893 / 9007199254740992 + 3602879701896397 / 36028797018963968)
        = 1 :=
      rne_eval _ _ (0) (4503599627370496) (by norm_num) (by norm_num) (by norm_num) (by norm_num) (by norm_num)
    rwa [e] at h
  generalize rne (8106479329266893 / 9007199254740992 + t1) = s1 at hs1 ⊢
  exact le_rne_of_le (by linarith) rne_one

/-- With a loser score of 0 the unclamped binary64 score factor is the
binary64 value `1.4000000000000001`. -/
theorem rawScoreFactor_zero_loser (w : Int) (hw : 0 < w) (hT : w < 2 ^ 63) :
    rawScoreFactor w 0 w = 6305039478318695 / 4503599627370496 := by
  unfold rawScoreFactor
  simp only [sub_zero, Elo.wrapInt64_of_mem (by linarith : -2 ^ 63 ≤ w) hT]
  unfold fadd fmul fdiv ofInt
  have hwq : (0 : ℚ) < (w : ℚ) := by exact_mod_cast hw
  have hfw : rne (w : ℚ) ≠ 0 := ne_of_gt (rne_pos hwq)
  simp only [div_self hfw, rne_one, one_mul, rne_rne]
  rw [rne_nine_tenths, rne_two_tenths, rne_three_tenths]
  have h1 : rne (8106479329266893 / 9007199254740992 + 3602879701896397 / 18014398509481984)
      = 2476979795053773 / 2251799813685248 :=
    rne_eval _ _ (0) (4953959590107546) (by norm_num) (by norm_num) (by norm_num) (by norm_num) (by norm_num)
  have h2 : rne (2476979795053773 / 2251799813685248 + 5404319552844595 / 18014398509481984)
      = 6305039478318695 / 4503599627370496 :=
    rne_eval _ _ (0) (6305039478318695) (by norm_num) (by norm_num) (by norm_num) (by norm_num) (by norm_num)
  rw [h1, h2]

theorem CalculateScoreFactor_of_total (w l : Int) (h : Elo.wrapInt64 (w + l) ≠ 0) :
    CalculateScoreFactor w l
      = min (rne (13 / 10)) (max (rne (9 / 10)) (rawScoreFactor w l (Elo.wrapInt64 (w + l)))) := by
  unfold CalculateScoreFactor
  simp only [if_neg h]

/-- The binary64 score factor lies between the binary64 values of 0.9 and
of 1.3, for all scores. -/
theorem CalculateScoreFactor_mem (w l : Int) :
    rne (9 / 10) ≤ CalculateScoreFactor w l ∧ CalculateScoreFactor w l ≤ rne (13 / 10) := by
  by_cases h : Elo.wrapInt64 (w + l) = 0
  · unfold CalculateScoreFactor
    simp only [h, if_true]
    exact ⟨nine_tenths_le_one, one_le_thirteen_tenths⟩
  · rw [CalculateScoreFactor_of_total w l h]
    refine ⟨le_min ?_ (le_max_left _ _), min_le_left _ _⟩
    exact le_trans nine_tenths_le_one one_le_thirteen_tenths

/-- With non-negative powers the binary64 expected score lies in `(0, 1]`. -/
theorem expected_mem (pow : ℚ → ℚ → ℚ) (hpow : ∀ y, 0 ≤ pow 10 y) (a b : ℚ) :
    0 < CalculateExpectedScore pow a b ∧ CalculateExpectedScore pow a b ≤ 1 := by
  unfold CalculateExpectedScore fdiv fadd
  have hp := hpow (rne (fsub b a / 400))
  generalize pow 10 (rne (fsub b a / 400)) = p at hp ⊢
  have h1 : 1 ≤ rne (1 + p) := le_rne_of_le (by linarith) rne_one
  have h2 : 0 < 1 / rne (1 + p) := by positivity
  have h3 : 1 / rne (1 + p) ≤ 1 := by
    rw [div_le_one (by linarith)]
    exact h1
  exact ⟨rne_pos h2, rne_le_of_le h3 rne_one⟩

theorem mathPow_nonneg (y : ℚ) : 0 ≤ mathPow 10 y := by
  unfold mathPow
  split_ifs
  · norm_num
  · norm_num
  · exact rne_nonneg (by positivity)
  · exact le_refl 0

theorem scoreFactor_mem (s1 s2 : Int) :
    rne (9 / 10) ≤ scoreFactor s1 s2 ∧ scoreFactor s1 s2 ≤ rne (13 / 10) := by
  unfold scoreFactor
  split_ifs
  · exact CalculateScoreFactor_mem s1 s2
  · exact CalculateScoreFactor_mem s2 s1
  · exact ⟨nine_tenths_le_one, one_le_thirteen_tenths⟩

theorem GetKFactor_mem (m : Int) : 16 ≤ GetKFactor m ∧ GetKFactor m ≤ 40 := by
  unfold GetKFactor
  split_ifs <;> norm_num

/-- The product `k * scoreFactor` of `CalculateElo` is positive and at most
53. -/
theorem kScore_mem (m s1 s2 : Int) :
    0 < fmul (GetKFactor m) (scoreFactor s1 s2) ∧ fmul (GetKFactor m) (scoreFactor s1 s2) ≤ 53 := by
  unfold fmul
  have hk := GetKFactor_mem m
  have hs := scoreFactor_mem s1 s2
  rw [rne_nine_tenths, rne_thirteen_tenths] at hs
  have h53 : rne 53 = 53 := by
    have := rne_intCast 53 (by norm_num)
    simpa using this
  constructor
  · apply rne_pos
    have : (0 : ℚ) < scoreFactor s1 s2 := lt_of_lt_of_le (by norm_num) hs.1
    have : (0 : ℚ) < GetKFactor m := lt_of_lt_of_le (by norm_num) hk.1
    positivity
  · apply rne_le_of_le _ h53
    have h1 : GetKFactor m * scoreFactor s1 s2 ≤ 40 * (5854679515581645 / 4503599627370496) :=
      mul_le_mul hk.2 hs.2 (le_trans (by norm_num) hs.1) (by norm_num)
    linarith

theorem rne_hundredth_pos : 0 < rne (1 / 100) := rne_pos (by norm_num)

/-- With non-negative powers the binary64 delta of a side is at most 53 in
absolute value. -/
theorem abs_delta_le (m e a : ℚ) (hm0 : 0 < m) (hm : m ≤ 53) (he : 0 < e ∧ e ≤ 1)
    (ha : 0 ≤ a ∧ a ≤ 1) : |fmul m (fsub a e)| ≤ 53 := by
  unfold fmul fsub
  have hx : |a - e| ≤ 1 := by rw [abs_le]; constructor <;> linarith [he.1, he.2, ha.1, ha.2]
  have hg := abs_rne_le_one hx
  have hy : |m * rne (a - e)| ≤ 53 := by
    rw [abs_mul, abs_of_pos hm0]
    calc m * |rne (a - e)| ≤ 53 * 1 := mul_le_mul hm hg (abs_nonneg _) (by norm_num)
      _ = 53 := by norm_num
  have h53 : rne 53 = 53 := by
    have := rne_intCast 53 (by norm_num)
    simpa using this
  have h' := abs_le.mp hy
  rw [abs_le]
  exact ⟨le_rne_of_le h'.1 (by rw [rne_neg, h53]), rne_le_of_le h'.2 h53⟩

theorem actual1_mem (s1 s2 : Int) : 0 ≤ actual1 s1 s2 ∧ actual1 s1 s2 ≤ 1 := by
  unfold actual1
  split_ifs <;> norm_num

theorem actual2_mem (s1 s2 : Int) : 0 ≤ actual2 s1 s2 ∧ actual2 s1 s2 ≤ 1 := by
  unfold actual2
  split_ifs <;> norm_num

theorem abs_player1Change_le (pow : ℚ → ℚ → ℚ) (hpow : ∀ y, 0 ≤ pow 10 y) (a b : ℚ)
    (s1 s2 m1 : Int) : |player1Change pow a b s1 s2 m1| ≤ 53 :=
  abs_delta_le _ _ _ (kScore_mem m1 s1 s2).1 (kScore_mem m1 s1 s2).2
    (expected_mem pow hpow a b) (actual1_mem s1 s2)

theorem abs_player2Change_le (pow : ℚ → ℚ → ℚ) (hpow : ∀ y, 0 ≤ pow 10 y) (a b : ℚ)
    (s1 s2 m2 : Int) : |player2Change pow a b s1 s2 m2| ≤ 53 :=
  abs_delta_le _ _ _ (kScore_mem m2 s1 s2).1 (kScore_mem m2 s1 s2).2
    (expected_mem pow hpow b a) (actual2_mem s1 s2)

/-- The two exponents passed to `math.Pow` by the two calls of
`CalculateExpectedScore` are opposite. -/
theorem exponent_swap (a b : ℚ) : fdiv (fsub a b) 400 = -fdiv (fsub b a) 400 := by
  unfold fdiv fsub
  rw [show a - b = -(b - a) by ring, rne_neg, neg_div, rne_neg]

/-- One expected score `fl(1 / fl(1 + p))` against the exact `1 / (1 + p)`. -/
theorem expected_bracket (p : ℚ) (hp : 0 ≤ p) :
    1 / (1 + p) * (9007199254740991 / 9007199254740993) ≤ rne (1 / rne (1 + p)) ∧
    rne (1 / rne (1 + p)) ≤ 1 / (1 + p) * (9007199254740993 / 9007199254740991) := by
  have hA : (0 : ℚ) < 1 + p := by linarith
  have h1 := mul_le_rne (le_of_lt hA)
  have h2 := rne_le_mul (le_of_lt hA)
  have hpos : 0 < rne (1 + p) := rne_pos hA
  have hi : (0 : ℚ) < 1 / rne (1 + p) := by positivity
  have h3 := mul_le_rne (le_of_lt hi)
  have h4 := rne_le_mul (le_of_lt hi)
  have hiA : (0 : ℚ) < 1 / (1 + p) := by positivity
  -- 1 / fl(A) against 1 / A
  have u1 : 1 / rne (1 + p) ≤ 1 / (1 + p) * (9007199254740992 / 9007199254740991) := by
    rw [div_le_iff₀ hpos]
    have e : 1 / (1 + p) * (9007199254740992 / 9007199254740991) * ((1 + p) * (1 - 1 / 2 ^ 53))
        = 1 := by
      field_simp
      norm_num
      ring
    have : 1 / (1 + p) * (9007199254740992 / 9007199254740991) * ((1 + p) * (1 - 1 / 2 ^ 53))
        ≤ 1 / (1 + p) * (9007199254740992 / 9007199254740991) * rne (1 + p) :=
      mul_le_mul_of_nonneg_left h1 (by positivity)
    linarith
  have l1 : 1 / (1 + p) * (9007199254740992 / 9007199254740993) ≤ 1 / rne (1 + p) := by
    rw [le_div_iff₀ hpos]
    have e : 1 / (1 + p) * (9007199254740992 / 9007199254740993) * ((1 + p) * (1 + 1 / 2 ^ 53))
        = 1 := by
      field_simp
      norm_num
      ring
    have : 1 / (1 + p) * (9007199254740992 / 9007199254740993) * rne (1 + p)
        ≤ 1 / (1 + p) * (9007199254740992 / 9007199254740993) * ((1 + p) * (1 + 1 / 2 ^ 53)) :=
      mul_le_mul_of_nonneg_left h2 (by positivity)
    linarith
  generalize rne (1 / rne (1 + p)) = e at h3 h4 ⊢
  generalize 1 / rne (1 + p) = i at hi h3 h4 u1 l1
  generalize 1 / (1 + p) = iA at hiA u1 l1 ⊢
  constructor
  · norm_num at h3 l1 ⊢
    linarith
  · norm_num at h4 u1 ⊢
    linarith

/-- The exact sum `1/(1+p) + 1/(1+q)` is within `eta` of 1 when `p * q` is
within `eta` of 1. -/
theorem abs_inv_add_inv_sub_one_le (p q η : ℚ) (hp : 0 ≤ p) (hq : 0 ≤ q)
    (hpq : |p * q - 1| ≤ η) : |1 / (1 + p) + 1 / (1 + q) - 1| ≤ η := by
  have hA : (0 : ℚ) < 1 + p := by linarith
  have hB : (0 : ℚ) < 1 + q := by linarith
  have e : 1 / (1 + p) + 1 / (1 + q) - 1 = -(p * q - 1) / ((1 + p) * (1 + q)) := by
    field_simp
    ring
  have hAB : 1 ≤ (1 + p) * (1 + q) := by nlinarith [mul_nonneg hp hq]
  rw [e, abs_div, abs_neg, abs_of_pos (by positivity : (0 : ℚ) < (1 + p) * (1 + q))]
  rw [div_le_iff₀ (by positivity)]
  have hη : 0 ≤ η := le_trans (abs_nonneg _) hpq
  nlinarith

/-- The two binary64 expected scores `fl(1/fl(1+p))` and `fl(1/fl(1+q))` add
up to 1 within `eta + 2^-51`, when `p * q` is within `eta` of 1. -/
theorem abs_expected_add_sub_one_le (p q η : ℚ) (hp : 0 ≤ p) (hq : 0 ≤ q)
    (hpq : |p * q - 1| ≤ η) (hη : η ≤ 1 / 4) :
    |rne (1 / rne (1 + p)) + rne (1 / rne (1 + q)) - 1| ≤ η + 1 / 2 ^ 51 := by
  have h1 := expected_bracket p hp
  have h2 := expected_bracket q hq
  have h3 := abs_le.mp (abs_inv_add_inv_sub_one_le p q η hp hq hpq)
  have hiA : (0 : ℚ) < 1 / (1 + p) := by positivity
  have hiB : (0 : ℚ) < 1 / (1 + q) := by positivity
  generalize rne (1 / rne (1 + p)) = e1 at h1 ⊢
  generalize rne (1 / rne (1 + q)) = e2 at h2 ⊢
  generalize 1 / (1 + p) = iA at h1 h3 hiA
  generalize 1 / (1 + q) = iB at h2 h3 hiB
  rw [abs_le]
  constructor
  · norm_num
    linarith [h1.1, h2.1, h3.1]
  · norm_num
    linarith [h1.2, h2.2, h3.2]

theorem exponent_1400_1000 : fdiv (fsub 1000 1400) 400 = -1 := by
  unfold fdiv fsub
  have h1 : rne (1000 - 1400) = -400 :=
    rne_exact _ _ (-400) (0) (by norm_num) (by norm_num) (by norm_num)
  have h2 : rne (-400 / 400) = -1 :=
    rne_exact _ _ (-1) (0) (by norm_num) (by norm_num) (by norm_num)
  rw [h1, h2]

theorem mathPow_ten_neg_one : mathPow 10 (-1) = 3602879701896397 / 36028797018963968 := by
  rw [mathPow_ten _ (-1) (by norm_num) (by decide) (by decide) (by decide),
    show ((10 : ℚ) ^ ((-1) : Int)) = (1 / 10) by norm_num]
  exact rne_eval _ _ (-4) (7205759403792794) (by norm_num) (by norm_num) (by norm_num) (by norm_num) (by norm_num)

theorem expected_of_pow_mem (p : ℚ) (hp : 0 ≤ p) :
    0 < rne (1 / rne (1 + p)) ∧ rne (1 / rne (1 + p)) ≤ 1 := by
  have h1 : 1 ≤ rne (1 + p) := le_rne_of_le (by linarith) rne_one
  have h2 : 0 < 1 / rne (1 + p) := by positivity
  have h3 : 1 / rne (1 + p) ≤ 1 := by
    rw [div_le_one (by linarith)]
    exact h1
  exact ⟨rne_pos h2, rne_le_of_le h3 rne_one⟩

theorem actual_add (s1 s2 : Int) : actual1 s1 s2 + actual2 s1 s2 = 1 := by
  unfold actual1 actual2
  split_ifs <;> norm_num

/-- Two values whose sum is below 1 in absolute value are rounded by
`math.Round` to integers whose sum is -1, 0 or 1. -/
theorem mathRound_add_mathRound (x y : ℚ) (h : |x + y| < 1) :
    ∃ k : Int, |k| ≤ 1 ∧ Elo.mathRound x + Elo.mathRound y = (k : ℚ) := by
  obtain ⟨n, hn, hn1, _⟩ := mathRound_nearest_half_away x
  obtain ⟨m, hm, hm1, _⟩ := mathRound_nearest_half_away y
  have a1 := abs_le.mp hn1
  have a2 := abs_le.mp hm1
  have a3 := abs_lt.mp h
  refine ⟨n + m, ?_, by rw [hn, hm]; push_cast; ring⟩
  have h1 : ((n + m : Int) : ℚ) < 2 := by push_cast; linarith [a1.1, a2.1, a3.2]
  have h2 : (-2 : ℚ) < ((n + m : Int) : ℚ) := by push_cast; linarith [a1.2, a2.2, a3.1]
  have h1' : n + m < 2 := by exact_mod_cast h1
  have h2' : -2 < n + m := by exact_mod_cast h2
  rw [abs_le]
  constructor <;> omega

theorem rne_fifty_three : rne 53 = 53 := by
  have := rne_intCast 53 (by norm_num)
  simpa using this

theorem abs_rne_le_of_exact {x b : ℚ} (h : |x| ≤ b) (hb : rne b = b) : |rne x| ≤ b := by
  have h' := abs_le.mp h
  rw [abs_le]
  exact ⟨le_rne_of_le h'.1 (by rw [rne_neg, hb]), rne_le_of_le h'.2 hb⟩

/-- The reported deltas of the two sides, computed with the same product
`m = fl(k * factor)` from expected scores that add up to 1 within `eta`,
add up to -0.01, 0 or 0.01, within `2^-46`. -/
theorem round2_delta_add (m e1 e2 a1 a2 η : ℚ) (hm0 : 0 < m) (hm : m ≤ 53)
    (he1 : 0 < e1 ∧ e1 ≤ 1) (he2 : 0 < e2 ∧ e2 ≤ 1) (ha : a1 + a2 = 1)
    (ha1 : 0 ≤ a1 ∧ a1 ≤ 1)
    (hsum : |e1 + e2 - 1| ≤ η) (hη : η ≤ 1 / 2 ^ 13) :
    ∃ k : Int, |k| ≤ 1 ∧
      |round2 (fmul m (fsub a1 e1)) + round2 (fmul m (fsub a2 e2)) - (k : ℚ) / 100|
        ≤ 1 / 2 ^ 46 := by
  unfold round2 fmul fsub fdiv
  have hη0 : 0 ≤ η := le_trans (abs_nonneg _) hsum
  -- the differences actual - expected
  have hx1 : |a1 - e1| ≤ 1 := by rw [abs_le]; constructor <;> linarith [he1.1, he1.2, ha1.1, ha1.2]
  have hx2 : |a2 - e2| ≤ 1 := by rw [abs_le]; constructor <;> linarith [he2.1, he2.2, ha1.1, ha1.2]
  have g1e := abs_le.mp (abs_rne_sub_le_of_le _ _ hx1)
  have g2e := abs_le.mp (abs_rne_sub_le_of_le _ _ hx2)
  have g1b := abs_rne_le_one hx1
  have g2b := abs_rne_le_one hx2
  have hs := abs_le.mp hsum
  generalize rne (a1 - e1) = g1 at g1e g1b ⊢
  generalize rne (a2 - e2) = g2 at g2e g2b ⊢
  have hg : |g1 + g2| ≤ η + 2 / 2 ^ 53 := by
    rw [abs_le]
    constructor <;> linarith [g1e.1, g1e.2, g2e.1, g2e.2, hs.1, hs.2]
  -- the deltas
  have hy1 : |m * g1| ≤ 53 := by
    rw [abs_mul, abs_of_pos hm0]
    calc m * |g1| ≤ 53 * 1 := mul_le_mul hm g1b (abs_nonneg _) (by norm_num)
      _ = 53 := by norm_num
  have hy2 : |m * g2| ≤ 53 := by
    rw [abs_mul, abs_of_pos hm0]
    calc m * |g2| ≤ 53 * 1 := mul_le_mul hm g2b (abs_nonneg _) (by norm_num)
      _ = 53 := by norm_num
  have hmg : |m * (g1 + g2)| ≤ 53 * (η + 2 / 2 ^ 53) := by
    rw [abs_mul, abs_of_pos hm0]
    exact mul_le_mul hm hg (abs_nonneg _) (by norm_num)
  have d1e := abs_le.mp (abs_rne_sub_le_of_le _ _ hy1)
  have d2e := abs_le.mp (abs_rne_sub_le_of_le _ _ hy2)
  have d1b := abs_le.mp (abs_rne_le_of_exact hy1 rne_fifty_three)
  have d2b := abs_le.mp (abs_rne_le_of_exact hy2 rne_fifty_three)
  have hmg' := abs_le.mp hmg
  have hmul : m * (g1 + g2) = m * g1 + m * g2 := by ring
  rw [hmul] at hmg'
  generalize rne (m * g1) = d1 at d1e d1b ⊢
  generalize rne (m * g2) = d2 at d2e d2b ⊢
  generalize m * g1 = y1 at d1e hmg'
  generalize m * g2 = y2 at d2e hmg'
  -- the products with 100
  have hz1 : |d1 * 100| ≤ 5300 := by rw [abs_le]; constructor <;> linarith [d1b.1, d1b.2]
  have hz2 : |d2 * 100| ≤ 5300 := by rw [abs_le]; constructor <;> linarith [d2b.1, d2b.2]
  have t1e := abs_le.mp (abs_rne_sub_le_of_le _ _ hz1)
  have t2e := abs_le.mp (abs_rne_sub_le_of_le _ _ hz2)
  generalize rne (d1 * 100) = t1 at t1e ⊢
  generalize rne (d2 * 100) = t2 at t2e ⊢
  have ht : |t1 + t2| < 1 := by
    rw [abs_lt]
    constructor
    · norm_num at t1e t2e d1e d2e hmg' hη ⊢
      linarith [t1e.1, t2e.1, d1e.1, d2e.1, hmg'.1]
    · norm_num at t1e t2e d1e d2e hmg' hη ⊢
      linarith [t1e.2, t2e.2, d1e.2, d2e.2, hmg'.2]
  obtain ⟨k, hk, hkeq⟩ := mathRound_add_mathRound t1 t2 ht
  have n1 := abs_le.mp (abs_mathRound_sub_le t1)
  have n2 := abs_le.mp (abs_mathRound_sub_le t2)
  have hq1 : |Elo.mathRound t1 / 100| ≤ 54 := by
    rw [abs_le]
    constructor <;> linarith [n1.1, n1.2, t1e.1, t1e.2, d1b.1, d1b.2]
  have hq2 : |Elo.mathRound t2 / 100| ≤ 54 := by
    rw [abs_le]
    constructor <;> linarith [n2.1, n2.2, t2e.1, t2e.2, d2b.1, d2b.2]
  have c1e := abs_le.mp (abs_rne_sub_le_of_le _ _ hq1)
  have c2e := abs_le.mp (abs_rne_sub_le_of_le _ _ hq2)
  refine ⟨k, hk, ?_⟩
  rw [← hkeq, abs_le]
  constructor
  · norm_num at c1e c2e ⊢
    linarith [c1e.1, c2e.1]
  · norm_num at c1e c2e ⊢
    linarith [c1e.2, c2e.2]

theorem scoreFactor_symm (s1 s2 : Int) : scoreFactor s1 s2 = scoreFactor s2 s1 := by
  unfold scoreFactor
  rcases lt_trichotomy s1 s2 with h | h | h
  · simp [h, not_lt.mpr h.le]
  · simp [h]
  · simp [h, not_lt.mpr h.le]

theorem actual_exchange (s1 s2 : Int) : actual1 s2 s1 = actual2 s1 s2 := by
  unfold actual1 actual2
  rcases lt_trichotomy s1 s2 with h | h | h
  · simp [h, not_lt.mpr h.le]
  · simp [h]
  · simp [h, not_lt.mpr h.le]

theorem delta_exchange (pow : ℚ → ℚ → ℚ) (a b : ℚ) (sa sb : Int) (m : Int) :
    player1Change pow b a sb sa m = player2Change pow a b sa sb m := by
  unfold player1Change player2Change
  rw [scoreFactor_symm sb sa, actual_exchange]

/-- The binary64 `CalculateElo(b, a, sb, sa, mb, ma)` is
`CalculateElo(a, b, sa, sb, ma, mb)` with the two sides exchanged. -/
theorem CalculateElo_swap (pow : ℚ → ℚ → ℚ) (a b : ℚ) (sa sb ma mb : Int) :
    (CalculateElo pow b a sb sa mb ma).Player1NewElo
        = (CalculateElo pow a b sa sb ma mb).Player2NewElo ∧
    (CalculateElo pow b a sb sa mb ma).Player1EloChange
        = (CalculateElo pow a b sa sb ma mb).Player2EloChange ∧
    (CalculateElo pow b a sb sa mb ma).Player2NewElo
        = (CalculateElo pow a b sa sb ma mb).Player1NewElo ∧
    (CalculateElo pow b a sb sa mb ma).Player2EloChange
        = (CalculateElo pow a b sa sb ma mb).Player1EloChange := by
  have h1 := delta_exchange pow a b sa sb mb
  have h2 := delta_exchange pow b a sb sa ma
  simp only [CalculateElo, h1, ← h2]
  exact ⟨trivial, trivial, trivial, trivial⟩

/-- With equal scores the binary64 delta of a side is
`fl(k * fl(0.5 - expected))`: the score factor is 1.0 and the product
`k * 1.0` is exact. -/
theorem tie_delta (pow : ℚ → ℚ → ℚ) (a b : ℚ) (s m1 m2 : Int) :
    player1Change pow a b s s m1
      = fmul (GetKFactor m1) (fsub (1 / 2) (CalculateExpectedScore pow a b)) ∧
    player2Change pow a b s s m2
      = fmul (GetKFactor m2) (fsub (1 / 2) (CalculateExpectedScore pow b a)) := by
  have hk : ∀ m : Int, fmul (GetKFactor m) 1 = GetKFactor m := by
    intro m
    unfold fmul GetKFactor
    rw [mul_one]
    split_ifs
    · exact rne_exact _ _ (5) (3) (by norm_num) (by norm_num) (by norm_num)
    · exact rne_exact _ _ (1) (5) (by norm_num) (by norm_num) (by norm_num)
    · exact rne_exact _ _ (1) (4) (by norm_num) (by norm_num) (by norm_num)
  unfold player1Change player2Change scoreFactor actual1 actual2
  simp only [gt_iff_lt, lt_self_iff_false, if_false, hk]
  exact ⟨trivial, trivial⟩

/-! ## Rating engine over binary64 values: the claims -/

/-- C1 (counterexample). The ratings 2200 and 1000: the exponents are -3 and
3, `math.Pow` returns the binary64 value of 0.001 and exactly 1000, the two
expected scores are 0.9990009990009991 and 0.000999000999000999, and their
binary64 sum is 1.0000000000000002, one unit in the last place above 1. -/
theorem C1_expected_scores_sum_exceeds_one :
    CalculateExpectedScore mathPow 2200 1000 = 4499100526843653 / 4503599627370496 ∧
    CalculateExpectedScore mathPow 1000 2200 = 1151769734871975 / 1152921504606846976 ∧
    fadd (CalculateExpectedScore mathPow 2200 1000) (CalculateExpectedScore mathPow 1000 2200)
      = 1 + 1 / 2 ^ 52 ∧
    CalculateExpectedScore mathPow 2200 1000 + CalculateExpectedScore mathPow 1000 2200 ≠ 1 := by
  refine ⟨expected_2200_1000, expected_1000_2200, ?_, ?_⟩
  · rw [expected_2200_1000, expected_1000_2200]
    unfold fadd
    exact rne_eval _ _ (0) (4503599627370497) (by norm_num) (by norm_num) (by norm_num) (by norm_num) (by norm_num)
  · rw [expected_2200_1000, expected_1000_2200]
    norm_num

/-- C1 (amended). For all ratings `a` and `b`, the two calls of
`CalculateExpectedScore` pass opposite exponents `x` and `-x` to `math.Pow`;
when `math.Pow` returns non-negative values `p` and `q` there, with `p * q`
within `eta <= 1/4` of 1, the two expected scores add up to 1 within
rounding: their exact sum differs from 1 by at most `eta + 2^-51`, and their
binary64 sum by at most `eta + 2^-50`. -/
theorem C1_expected_scores_sum_to_one_within_rounding (pow : ℚ → ℚ → ℚ) (a b η : ℚ)
    (hp : 0 ≤ pow 10 (fdiv (fsub b a) 400)) (hq : 0 ≤ pow 10 (-fdiv (fsub b a) 400))
    (hpq : |pow 10 (fdiv (fsub b a) 400) * pow 10 (-fdiv (fsub b a) 400) - 1| ≤ η)
    (hη : η ≤ 1 / 4) :
    fdiv (fsub a b) 400 = -fdiv (fsub b a) 400 ∧
    |CalculateExpectedScore pow a b + CalculateExpectedScore pow b a - 1| ≤ η + 1 / 2 ^ 51 ∧
    |fadd (CalculateExpectedScore pow a b) (CalculateExpectedScore pow b a) - 1|
      ≤ η + 1 / 2 ^ 50 := by
  have hsum : |CalculateExpectedScore pow a b + CalculateExpectedScore pow b a - 1|
      ≤ η + 1 / 2 ^ 51 := by
    unfold CalculateExpectedScore
    rw [exponent_swap a b]
    unfold fdiv fadd
    exact abs_expected_add_sub_one_le _ _ η hp hq hpq hη
  refine ⟨exponent_swap a b, hsum, ?_⟩
  unfold fadd
  have hη0 : 0 ≤ η := le_trans (abs_nonneg _) hpq
  have hs := abs_le.mp hsum
  have hb : |CalculateExpectedScore pow a b + CalculateExpectedScore pow b a| ≤ 2 := by
    rw [abs_le]
    constructor <;> linarith [hs.1, hs.2]
  have hr := abs_le.mp (abs_rne_sub_le_of_le _ _ hb)
  rw [abs_le]
  constructor
  · norm_num at hr hs ⊢
    linarith [hr.1, hs.1]
  · norm_num at hr hs ⊢
    linarith [hr.2, hs.2]

/-- C1 (amended), at a concrete input: the ratings 1000 and 1400, where
`math.Pow` returns the binary64 value of 0.1 and exactly 10. -/
theorem C1_expected_scores_sum_to_one_within_rounding_witness :
    0 ≤ mathPow 10 (fdiv (fsub 1000 1400) 400) ∧
    0 ≤ mathPow 10 (-fdiv (fsub 1000 1400) 400) ∧
    |mathPow 10 (fdiv (fsub 1000 1400) 400) * mathPow 10 (-fdiv (fsub 1000 1400) 400) - 1|
      ≤ 1 / 2 ^ 53 ∧
    |CalculateExpectedScore mathPow 1400 1000 + CalculateExpectedScore mathPow 1000 1400 - 1|
      ≤ 1 / 2 ^ 53 + 1 / 2 ^ 51 := by
  have hpq : |mathPow 10 (fdiv (fsub 1000 1400) 400)
      * mathPow 10 (-fdiv (fsub 1000 1400) 400) - 1| ≤ 1 / 2 ^ 53 := by
    rw [exponent_1400_1000, neg_neg, mathPow_ten_neg_one, mathPow_ten_one, abs_le]
    constructor <;> norm_num
  exact ⟨mathPow_nonneg _, mathPow_nonneg _, hpq,
    (C1_expected_scores_sum_to_one_within_rounding mathPow 1400 1000 (1 / 2 ^ 53)
      (mathPow_nonneg _) (mathPow_nonneg _) hpq (by norm_num)).2.1⟩

/-- C3 (counterexample). Two players rated 1000 with 5 matches each, score
65 to 63: the exact delta `40 * 1.00625 * 0.5` is 20.125 and its rounding to
two decimals, halves away from zero, is 20.13; `CalculateElo` reports the
binary64 value of 20.12, because the score factor is computed as
1.0062499999999999 and the delta as 20.124999999999996. -/
theorem C3_reported_delta_is_not_round2_of_exact_delta :
    (Elo.player1Change mathPow 1000 1000 65 63 5 : ℚ) = 161 / 8 ∧
    Elo.round2 (Elo.player1Change mathPow 1000 1000 65 63 5 : ℚ) = 2013 / 100 ∧
    player1Change mathPow 1000 1000 65 63 5 = 5664683906301951 / 281474976710656 ∧
    (CalculateElo mathPow 1000 1000 65 63 5 5).Player1EloChange = rne (2012 / 100) ∧
    (CalculateElo mathPow 1000 1000 65 63 5 5).Player1EloChange < 2013 / 100 - 9 / 1000 := by
  have hd : (Elo.player1Change mathPow 1000 1000 65 63 5 : ℚ) = 161 / 8 := by
    have hw : Elo.wrapInt64 (65 + 63) = 128 := by decide
    have hd : Elo.wrapInt64 (65 - 63) = 2 := by decide
    simp only [Elo.player1Change, Elo.GetKFactor, Elo.MaxK, Elo.scoreFactor, Elo.actual1,
      Elo.CalculateExpectedScore, Elo.CalculateScoreFactor, hw, hd]
    rw [show ((1000 : ℚ) - 1000) / 400 = 0 by norm_num, mathPow_zero]
    norm_num
  have hr : rne (2012 / 100) = 5663276531418399 / 281474976710656 :=
    rne_eval _ _ (4) (5663276531418399) (by norm_num) (by norm_num) (by norm_num) (by norm_num) (by norm_num)
  refine ⟨hd, ?_, CalculateElo_65_63_delta1, ?_, ?_⟩
  · rw [hd]
    unfold Elo.round2
    rw [if_neg (by norm_num)]
    have : ⌊(100 : ℚ) * (161 / 8) + 1 / 2⌋ = 2013 := by
      rw [Int.floor_eq_iff]
      constructor <;> norm_num
    rw [this]
    norm_num
  · rw [CalculateElo_65_63, hr]
  · rw [CalculateElo_65_63]
    norm_num

/-- C3 (amended). For all inputs, the delta of side i is the binary64 value
`d_i = fl(fl(K_i * factor) * fl(actual_i - expected_i))`, and `CalculateElo`
returns `PlayeriEloChange = round2(d_i)` and
`PlayeriNewElo = round2(fl(oldRating_i + d_i))`, the new rating derived from
the unrounded binary64 delta and not from the rounded one; here
`round2(x) = fl(round(fl(x * 100)) / 100)`, `round` takes the nearest
integer with halves away from zero, `fl` rounds to the nearest binary64
value, and `round2(x)` differs from `x` by at most
`0.005 + (|x| + 1) * 2^-51`. -/
theorem C3_CalculateElo_rounds_float_delta (pow : ℚ → ℚ → ℚ) (a b : ℚ) (s1 s2 m1 m2 : Int) :
    player1Change pow a b s1 s2 m1
      = fmul (fmul (GetKFactor m1) (scoreFactor s1 s2))
          (fsub (actual1 s1 s2) (CalculateExpectedScore pow a b)) ∧
    player2Change pow a b s1 s2 m2
      = fmul (fmul (GetKFactor m2) (scoreFactor s1 s2))
          (fsub (actual2 s1 s2) (CalculateExpectedScore pow b a)) ∧
    (CalculateElo pow a b s1 s2 m1 m2).Player1EloChange
      = round2 (player1Change pow a b s1 s2 m1) ∧
    (CalculateElo pow a b s1 s2 m1 m2).Player1NewElo
      = round2 (fadd a (player1Change pow a b s1 s2 m1)) ∧
    (CalculateElo pow a b s1 s2 m1 m2).Player2EloChange
      = round2 (player2Change pow a b s1 s2 m2) ∧
    (CalculateElo pow a b s1 s2 m1 m2).Player2NewElo
      = round2 (fadd b (player2Change pow a b s1 s2 m2)) ∧
    (∀ x : ℚ, round2 x = rne (Elo.mathRound (rne (x * 100)) / 100)) ∧
    (∀ t : ℚ, ∃ n : Int, Elo.mathRound t = (n : ℚ) ∧ |t - (n : ℚ)| ≤ 1 / 2 ∧
      (|t - (n : ℚ)| = 1 / 2 → |t| < |(n : ℚ)|)) ∧
    (∀ x : ℚ, |round2 x - x| ≤ 1 / 200 + (|x| + 1) / 2 ^ 51) :=
  ⟨rfl, rfl, rfl, rfl, rfl, rfl, fun _ => rfl, mathRound_nearest_half_away, abs_round2_sub_le⟩

/-- C6 (counterexample). The scores 2^62 + 1 and 2^62: their Go sum wraps
around to `-(2^63 - 1)`, the win ratio becomes -0.5 and
`CalculateScoreFactor` returns the binary64 value of 0.9, whereas the
formula over the integers is above 1.0.  Without overflow the result is still
not the value of the formula: for the scores 11 and 5 the formula gives
1.15, and `CalculateScoreFactor` returns `1.1500000000000001`, the binary64
value next above the one nearest to 1.15. -/
theorem C6_score_factor_differs_from_formula :
    CalculateScoreFactor 4611686018427387905 4611686018427387904 = rne (9 / 10) ∧
    (1 : ℚ) < Elo.scoreFactorSpec 4611686018427387905 4611686018427387904 ∧
    Elo.scoreFactorSpec 11 5 = (23 / 20 : ℚ) ∧
    rne (23 / 20) = 5179139571476070 / 4503599627370496 ∧
    CalculateScoreFactor 11 5 = 5179139571476071 / 4503599627370496 := by
  refine ⟨?_, ?_, ?_, ?_, scoreFactor_11_5⟩
  · rw [scoreFactor_wrapped, rne_nine_tenths]
  · unfold Elo.scoreFactorSpec
    norm_num
  · unfold Elo.scoreFactorSpec
    norm_num
  · exact rne_eval _ _ (0) (5179139571476070) (by norm_num) (by norm_num) (by norm_num) (by norm_num) (by norm_num)

/-- C6 (amended). For all integers `winnerScore`, `loserScore` with
`total = winnerScore + loserScore`: `CalculateScoreFactor` returns 1.0 when
`total = 0`; and when the scores are non-negative, `total` fits a Go `int`
(`total < 2^63`) and `total` is not 0, the result differs by at most `2^-50`
from `min(1.3, max(0.9, 0.9 + 0.2*(winnerScore/total) +
0.3*((winnerScore - loserScore)/total)))`. -/
theorem C6_CalculateScoreFactor_formula_within_rounding (w l : Int) :
    (w + l = 0 → CalculateScoreFactor w l = 1) ∧
    (0 ≤ w → 0 ≤ l → w + l < 2 ^ 63 → w + l ≠ 0 →
      |CalculateScoreFactor w l - Elo.scoreFactorSpec w l| ≤ 1 / 2 ^ 50) := by
  refine ⟨fun h => ?_, abs_CalculateScoreFactor_sub_le w l⟩
  unfold CalculateScoreFactor
  have : Elo.wrapInt64 (w + l) = 0 := by rw [h]; decide
  simp only [this, if_true]

/-- C6 (amended), at a concrete input: the scores 11 and 5 of the worked
example. -/
theorem C6_CalculateScoreFactor_formula_within_rounding_witness :
    (0 : Int) ≤ 11 ∧ (0 : Int) ≤ 5 ∧ (11 + 5 : Int) < 2 ^ 63 ∧ (11 + 5 : Int) ≠ 0 ∧
    |CalculateScoreFactor 11 5 - Elo.scoreFactorSpec 11 5| ≤ 1 / 2 ^ 50 :=
  ⟨by decide, by decide, by decide, by decide,
    (C6_CalculateScoreFactor_formula_within_rounding 11 5).2 (by decide) (by decide)
      (by decide) (by decide)⟩

/-- C8. For every match count `n`, `GetKFactor(n)` is 40 if `n < 10`, 32 if
`10 <= n < 30` and 16 if `n >= 30`; in `CalculateElo` the delta of side 1 is
computed with `GetKFactor(player1Matches)` and that of side 2 with
`GetKFactor(player2Matches)`, both reported fields of a side are computed
from that side's delta, and neither side's result depends on the other
side's match count. -/
theorem C8_GetKFactor_brackets (pow : ℚ → ℚ → ℚ) (a b : ℚ) (s1 s2 : Int) (n m1 m2 k : Int) :
    GetKFactor n = (if n < 10 then 40 else if n < 30 then 32 else 16) ∧
    player1Change pow a b s1 s2 m1
      = fmul (fmul (GetKFactor m1) (scoreFactor s1 s2))
          (fsub (actual1 s1 s2) (CalculateExpectedScore pow a b)) ∧
    player2Change pow a b s1 s2 m2
      = fmul (fmul (GetKFactor m2) (scoreFactor s1 s2))
          (fsub (actual2 s1 s2) (CalculateExpectedScore pow b a)) ∧
    (CalculateElo pow a b s1 s2 m1 m2).Player1EloChange
      = round2 (player1Change pow a b s1 s2 m1) ∧
    (CalculateElo pow a b s1 s2 m1 m2).Player1NewElo
      = round2 (fadd a (player1Change pow a b s1 s2 m1)) ∧
    (CalculateElo pow a b s1 s2 m1 m2).Player2EloChange
      = round2 (player2Change pow a b s1 s2 m2) ∧
    (CalculateElo pow a b s1 s2 m1 m2).Player2NewElo
      = round2 (fadd b (player2Change pow a b s1 s2 m2)) ∧
    (CalculateElo pow a b s1 s2 m1 k).Player1EloChange
      = (CalculateElo pow a b s1 s2 m1 m2).Player1EloChange ∧
    (CalculateElo pow a b s1 s2 m1 k).Player1NewElo
      = (CalculateElo pow a b s1 s2 m1 m2).Player1NewElo ∧
    (CalculateElo pow a b s1 s2 k m2).Player2EloChange
      = (CalculateElo pow a b s1 s2 m1 m2).Player2EloChange ∧
    (CalculateElo pow a b s1 s2 k m2).Player2NewElo
      = (CalculateElo pow a b s1 s2 m1 m2).Player2NewElo :=
  ⟨rfl, rfl, rfl, rfl, rfl, rfl, rfl, rfl, rfl, rfl, rfl⟩

/-- C24 (counterexample). A player rated 1400 beats a player rated 1000, 215
to 41, both with 5 matches and so with the same K-factor 40: the binary64
deltas are 4.625000000000001 and -4.624999999999999, the reported deltas are
the binary64 values of 4.63 and of -4.62, and they do not cancel. -/
theorem C24_changes_do_not_cancel :
    GetKFactor 5 = GetKFactor 5 ∧
    (CalculateElo mathPow 1400 1000 215 41 5 5).Player1EloChange = rne (463 / 100) ∧
    (CalculateElo mathPow 1400 1000 215 41 5 5).Player2EloChange = -rne (462 / 100) ∧
    (CalculateElo mathPow 1400 1000 215 41 5 5).Player1EloChange
      + (CalculateElo mathPow 1400 1000 215 41 5 5).Player2EloChange ≠ 0 ∧
    fadd (CalculateElo mathPow 1400 1000 215 41 5 5).Player1EloChange
      (CalculateElo mathPow 1400 1000 215 41 5 5).Player2EloChange ≠ 0 := by
  have h1 : rne (463 / 100) = 5212916568681349 / 1125899906842624 :=
    rne_eval _ _ (2) (5212916568681349) (by norm_num) (by norm_num) (by norm_num) (by norm_num) (by norm_num)
  have h2 : rne (462 / 100) = 5201657569612923 / 1125899906842624 :=
    rne_eval _ _ (2) (5201657569612923) (by norm_num) (by norm_num) (by norm_num) (by norm_num) (by norm_num)
  rw [CalculateElo_215_41, h1, h2]
  refine ⟨rfl, rfl, by norm_num, by norm_num, ?_⟩
  have h3 : fadd (5212916568681349 / 1125899906842624) (-5201657569612923 / 1125899906842624)
      = 5629499534213 / 562949953421312 := by
    unfold fadd
    exact rne_exact _ _ (5629499534213) (-49) (by norm_num) (by norm_num) (by norm_num)
  rw [h3]
  norm_num

/-- C24 (amended). If both sides fall in the same K-factor bracket, and
`math.Pow` returns non-negative values `p` and `q` at the two opposite
exponents of the call, with `p * q` within `eta <= 2^-14` of 1, then for all
ratings and all scores the two reported deltas cancel up to one hundredth:
their sum is within `2^-46` of -0.01, of 0 or of 0.01, so that it is at most
`0.01 + 2^-46` in absolute value, and at most `0.01 + 2^-45` when it is
evaluated in binary64. -/
theorem C24_changes_cancel_up_to_a_hundredth (pow : ℚ → ℚ → ℚ) (a b η : ℚ)
    (s1 s2 m1 m2 : Int) (hK : GetKFactor m1 = GetKFactor m2)
    (hp : 0 ≤ pow 10 (fdiv (fsub b a) 400)) (hq : 0 ≤ pow 10 (-fdiv (fsub b a) 400))
    (hpq : |pow 10 (fdiv (fsub b a) 400) * pow 10 (-fdiv (fsub b a) 400) - 1| ≤ η)
    (hη : η ≤ 1 / 2 ^ 14) :
    (∃ k : Int, |k| ≤ 1 ∧
      |(CalculateElo pow a b s1 s2 m1 m2).Player1EloChange
        + (CalculateElo pow a b s1 s2 m1 m2).Player2EloChange - (k : ℚ) / 100| ≤ 1 / 2 ^ 46) ∧
    |(CalculateElo pow a b s1 s2 m1 m2).Player1EloChange
        + (CalculateElo pow a b s1 s2 m1 m2).Player2EloChange| ≤ 1 / 100 + 1 / 2 ^ 46 ∧
    |fadd (CalculateElo pow a b s1 s2 m1 m2).Player1EloChange
        (CalculateElo pow a b s1 s2 m1 m2).Player2EloChange| ≤ 1 / 100 + 1 / 2 ^ 45 := by
  have hη0 : 0 ≤ η := le_trans (abs_nonneg _) hpq
  have hsum : |CalculateExpectedScore pow a b + CalculateExpectedScore pow b a - 1|
      ≤ η + 1 / 2 ^ 51 := by
    unfold CalculateExpectedScore
    rw [exponent_swap a b]
    unfold fdiv fadd
    exact abs_expected_add_sub_one_le _ _ η hp hq hpq (by linarith [show (1 : ℚ) / 2 ^ 14 ≤ 1 / 4 by norm_num])
  have he1 : 0 < CalculateExpectedScore pow a b ∧ CalculateExpectedScore pow a b ≤ 1 := by
    unfold CalculateExpectedScore fdiv fadd
    exact expected_of_pow_mem _ hp
  have he2 : 0 < CalculateExpectedScore pow b a ∧ CalculateExpectedScore pow b a ≤ 1 := by
    unfold CalculateExpectedScore
    rw [exponent_swap a b]
    unfold fdiv fadd
    exact expected_of_pow_mem _ hq
  have hm := kScore_mem m2 s1 s2
  obtain ⟨k, hk, hkb⟩ := round2_delta_add (fmul (GetKFactor m2) (scoreFactor s1 s2))
    (CalculateExpectedScore pow a b) (CalculateExpectedScore pow b a)
    (actual1 s1 s2) (actual2 s1 s2) (η + 1 / 2 ^ 51) hm.1 hm.2 he1 he2 (actual_add s1 s2)
    (actual1_mem s1 s2) hsum
    (by linarith [show (1 : ℚ) / 2 ^ 14 + 1 / 2 ^ 51 ≤ 1 / 2 ^ 13 by norm_num])
  have hc1 : (CalculateElo pow a b s1 s2 m1 m2).Player1EloChange
      = round2 (fmul (fmul (GetKFactor m2) (scoreFactor s1 s2))
          (fsub (actual1 s1 s2) (CalculateExpectedScore pow a b))) := by
    rw [← hK]
    rfl
  have hc2 : (CalculateElo pow a b s1 s2 m1 m2).Player2EloChange
      = round2 (fmul (fmul (GetKFactor m2) (scoreFactor s1 s2))
          (fsub (actual2 s1 s2) (CalculateExpectedScore pow b a))) := rfl
  rw [hc1, hc2]
  have hkq : |(k : ℚ)| ≤ 1 := by
    have : ((|k| : Int) : ℚ) ≤ ((1 : Int) : ℚ) := by exact_mod_cast hk
    simpa using this
  have hkb' := abs_le.mp hkb
  have hkq' := abs_le.mp hkq
  have hS : |round2 (fmul (fmul (GetKFactor m2) (scoreFactor s1 s2))
        (fsub (actual1 s1 s2) (CalculateExpectedScore pow a b)))
      + round2 (fmul (fmul (GetKFactor m2) (scoreFactor s1 s2))
        (fsub (actual2 s1 s2) (CalculateExpectedScore pow b a)))| ≤ 1 / 100 + 1 / 2 ^ 46 := by
    rw [abs_le]
    constructor <;> linarith [hkb'.1, hkb'.2, hkq'.1, hkq'.2]
  refine ⟨⟨k, hk, hkb⟩, hS, ?_⟩
  unfold fadd
  have h := abs_rne_le_of_le _ _ hS
  norm_num at h ⊢
  linarith

/-- C24 (amended), at a concrete input: a player rated 1400 beats a player
rated 1000, 215 to 41, both with 5 matches; `math.Pow` returns the binary64
value of 0.1 and exactly 10. -/
theorem C24_changes_cancel_up_to_a_hundredth_witness :
    GetKFactor 5 = GetKFactor 5 ∧
    0 ≤ mathPow 10 (fdiv (fsub 1000 1400) 400) ∧
    0 ≤ mathPow 10 (-fdiv (fsub 1000 1400) 400) ∧
    |mathPow 10 (fdiv (fsub 1000 1400) 400) * mathPow 10 (-fdiv (fsub 1000 1400) 400) - 1|
      ≤ 1 / 2 ^ 53 ∧
    |(CalculateElo mathPow 1400 1000 215 41 5 5).Player1EloChange
        + (CalculateElo mathPow 1400 1000 215 41 5 5).Player2EloChange| ≤ 1 / 100 + 1 / 2 ^ 46 := by
  have hpq : |mathPow 10 (fdiv (fsub 1000 1400) 400)
      * mathPow 10 (-fdiv (fsub 1000 1400) 400) - 1| ≤ 1 / 2 ^ 53 := by
    rw [exponent_1400_1000, neg_neg, mathPow_ten_neg_one, mathPow_ten_one, abs_le]
    constructor <;> norm_num
  exact ⟨rfl, mathPow_nonneg _, mathPow_nonneg _, hpq,
    (C24_changes_cancel_up_to_a_hundredth mathPow 1400 1000 (1 / 2 ^ 53) 215 41 5 5 rfl
      (mathPow_nonneg _) (mathPow_nonneg _) hpq (by norm_num)).2.1⟩

/-- C26 (counterexample). The scores 2^51 and 2^51 - 1 are non-negative and
decisive and their sum fits a Go `int`, but the win ratio exceeds one half by
one unit in the last place only and `CalculateScoreFactor` returns exactly
1.0, which is not greater than 1.0.  The scores 2^62 + 1 and 2^62 are
non-negative and decisive, but their Go sum wraps around to a negative total
and `CalculateScoreFactor` returns the binary64 value of 0.9. -/
theorem C26_score_factor_not_above_one :
    (0 : Int) ≤ 2251799813685247 ∧ (2251799813685247 : Int) < 2251799813685248 ∧
    CalculateScoreFactor 2251799813685248 2251799813685247 = 1 ∧
    (0 : Int) ≤ 4611686018427387904 ∧ (4611686018427387904 : Int) < 4611686018427387905 ∧
    CalculateScoreFactor 4611686018427387905 4611686018427387904 = rne (9 / 10) ∧
    rne (9 / 10) < 1 := by
  refine ⟨by decide, by decide, scoreFactor_near_tie, by decide, by decide, ?_, ?_⟩
  · rw [scoreFactor_wrapped, rne_nine_tenths]
  · rw [rne_nine_tenths]; norm_num

/-- C26 (amended). For every decisive outcome with non-negative scores whose
sum fits a Go `int` (`winnerScore > loserScore >= 0` and
`winnerScore + loserScore < 2^63`), `CalculateScoreFactor` is at least 1.0,
strictly greater than 1.0 when the sum is at most `10^14`, at most the
binary64 value of 1.3, and equal to that value when `loserScore = 0`; on
those calls the `total = 0` branch is not taken and the lower clamp at 0.9
has no effect. -/
theorem C26_decisive_score_factor_at_least_one (w l : Int) (h0 : 0 ≤ l) (h1 : l < w)
    (hT : w + l < 2 ^ 63) :
    1 ≤ CalculateScoreFactor w l ∧
    (w + l ≤ 10 ^ 14 → 1 < CalculateScoreFactor w l) ∧
    CalculateScoreFactor w l ≤ rne (13 / 10) ∧
    (l = 0 → CalculateScoreFactor w l = rne (13 / 10)) ∧
    Elo.wrapInt64 (w + l) ≠ 0 ∧
    max (rne (9 / 10)) (rawScoreFactor w l (Elo.wrapInt64 (w + l)))
      = rawScoreFactor w l (Elo.wrapInt64 (w + l)) := by
  have hwrap : Elo.wrapInt64 (w + l) = w + l := Elo.wrapInt64_of_mem (by linarith) hT
  have hne : Elo.wrapInt64 (w + l) ≠ 0 := by rw [hwrap]; omega
  have hraw := one_le_rawScoreFactor w l h0 h1 hT
  have hmax : max (rne (9 / 10)) (rawScoreFactor w l (w + l)) = rawScoreFactor w l (w + l) :=
    max_eq_right (le_trans nine_tenths_le_one hraw)
  have heq : CalculateScoreFactor w l = min (rne (13 / 10)) (rawScoreFactor w l (w + l)) := by
    rw [CalculateScoreFactor_of_total w l hne, hwrap, hmax]
  refine ⟨?_, ?_, (CalculateScoreFactor_mem w l).2, ?_, hne, by rw [hwrap]; exact hmax⟩
  · rw [heq]
    exact le_min one_le_thirteen_tenths hraw
  · intro hsmall
    have hclose := abs_le.mp
      (abs_CalculateScoreFactor_sub_le w l (by linarith) h0 hT (by omega))
    have hspec : 1 + 1 / 2 ^ 49 ≤ (Elo.scoreFactorSpec w l : ℚ) := by
      unfold Elo.scoreFactorSpec
      simp only [if_neg (by omega : w + l ≠ 0)]
      have hlq : (0 : ℚ) ≤ (l : ℚ) := by exact_mod_cast h0
      have hwl : (l : ℚ) + 1 ≤ (w : ℚ) := by exact_mod_cast (by omega : l + 1 ≤ w)
      have hTe : ((w + l : Int) : ℚ) = (w : ℚ) + (l : ℚ) := by push_cast; ring
      have hDe : ((w - l : Int) : ℚ) = (w : ℚ) - (l : ℚ) := by push_cast; ring
      have hTpos : (0 : ℚ) < ((w + l : Int) : ℚ) := by rw [hTe]; linarith
      have hTle : ((w + l : Int) : ℚ) ≤ 10 ^ 14 := by exact_mod_cast hsmall
      have hi : (1 : ℚ) / 10 ^ 14 ≤ 1 / ((w + l : Int) : ℚ) :=
        one_div_le_one_div_of_le hTpos hTle
      have hW : 1 / 2 + (1 / 2) * (1 / ((w + l : Int) : ℚ)) ≤ (w : ℚ) / ((w + l : Int) : ℚ) := by
        rw [le_div_iff₀ hTpos]
        have hone : 1 / ((w + l : Int) : ℚ) * ((w + l : Int) : ℚ) = 1 :=
          one_div_mul_cancel (ne_of_gt hTpos)
        have : (1 / 2 + 1 / 2 * (1 / ((w + l : Int) : ℚ))) * ((w + l : Int) : ℚ)
            = (1 / 2) * ((w + l : Int) : ℚ) + 1 / 2 * (1 / ((w + l : Int) : ℚ) * ((w + l : Int) : ℚ)) := by
          ring
        rw [this, hone, hTe]
        linarith
      have hM : 1 / ((w + l : Int) : ℚ) ≤ ((w - l : Int) : ℚ) / ((w + l : Int) : ℚ) := by
        apply div_le_div_of_nonneg_right _ (le_of_lt hTpos)
        rw [hDe]
        linarith
      refine le_min (by norm_num) (le_trans ?_ (le_max_right _ _))
      generalize (w : ℚ) / ((w + l : Int) : ℚ) = W at hW ⊢
      generalize ((w - l : Int) : ℚ) / ((w + l : Int) : ℚ) = M at hM ⊢
      generalize 1 / ((w + l : Int) : ℚ) = i at hW hM hi
      norm_num at hi ⊢
      linarith
    norm_num at hclose hspec ⊢
    linarith [hclose.1]
  · intro hl
    subst hl
    rw [heq, add_zero, rawScoreFactor_zero_loser w (by linarith) (by linarith), rne_thirteen_tenths]
    exact min_eq_left (by norm_num)

/-- C26 (amended), at a concrete input: the scores 11 and 5 of the worked
example. -/
theorem C26_decisive_score_factor_at_least_one_witness :
    (0 : Int) ≤ 5 ∧ (5 : Int) < 11 ∧ (11 + 5 : Int) < 2 ^ 63 ∧
    1 ≤ CalculateScoreFactor 11 5 ∧ CalculateScoreFactor 11 5 ≤ rne (13 / 10) :=
  ⟨by decide, by decide, by decide,
    (C26_decisive_score_factor_at_least_one 11 5 (by decide) (by decide) (by decide)).1,
    (C26_decisive_score_factor_at_least_one 11 5 (by decide) (by decide) (by decide)).2.2.1⟩

/-- C27 (counterexample). Two players rated 1000 with 5 matches each, score
105 to 23: the new rating of side 1 is the binary64 value of 1025.13 and its
reported delta the binary64 value of 25.12; the new rating exceeds the old
rating plus the delta by more than one hundredth, both as exact difference
of the returned values and when the difference is evaluated in binary64
(0.010000000000218279 against the binary64 value of 0.01). -/
theorem C27_new_rating_and_delta_differ_by_more_than_a_hundredth :
    (CalculateElo mathPow 1000 1000 105 23 5 5).Player1NewElo = rne (102513 / 100) ∧
    (CalculateElo mathPow 1000 1000 105 23 5 5).Player1EloChange = rne (2512 / 100) ∧
    1 / 100 < |(CalculateElo mathPow 1000 1000 105 23 5 5).Player1NewElo
        - (1000 + (CalculateElo mathPow 1000 1000 105 23 5 5).Player1EloChange)| ∧
    rne (1 / 100) < |fsub (CalculateElo mathPow 1000 1000 105 23 5 5).Player1NewElo
        (fadd 1000 (CalculateElo mathPow 1000 1000 105 23 5 5).Player1EloChange)| := by
  have hn : rne (102513 / 100) = 1127142354982011 / 1099511627776 :=
    rne_eval _ _ (10) (4508569419928044) (by norm_num) (by norm_num) (by norm_num) (by norm_num) (by norm_num)
  have hc : rne (2512 / 100) = 7070651414971679 / 281474976710656 :=
    rne_eval _ _ (4) (7070651414971679) (by norm_num) (by norm_num) (by norm_num) (by norm_num) (by norm_num)
  have h0 : rne (1 / 100) = 5764607523034235 / 576460752303423488 :=
    rne_eval _ _ (-7) (5764607523034235) (by norm_num) (by norm_num) (by norm_num) (by norm_num) (by norm_num)
  have hs : rne (1000 + 7070651414971679 / 281474976710656) = 1127131359865733 / 1099511627776 :=
    rne_eval _ _ (10) (4508525439462932) (by norm_num) (by norm_num) (by norm_num) (by norm_num) (by norm_num)
  have hf : rne (1127142354982011 / 1099511627776 - 1127131359865733 / 1099511627776)
      = 5497558139 / 549755813888 :=
    rne_exact _ _ (5764607523160064) (-59) (by norm_num) (by norm_num) (by norm_num)
  rw [CalculateElo_105_23]
  refine ⟨hn.symm, hc.symm, ?_, ?_⟩
  · rw [abs_of_pos (by norm_num)]
    norm_num
  · simp only [fsub, fadd]
    rw [hs, hf, h0, abs_of_pos (by norm_num)]
    norm_num

/-- C27 (amended). For every input of `CalculateElo` and each side i, the
reported new rating and the reported delta agree up to one hundredth and the
binary64 rounding errors:
`|PlayeriNewElo - (oldRating_i + PlayeriEloChange)| <= 0.01 + (|oldRating_i| + |d_i| + 1) * 2^-49`,
where `d_i` is the binary64 delta of side i before its rounding to two
decimals; when `math.Pow` returns non-negative values, `|d_i| <= 53` and the
difference is at most `0.01 + (|oldRating_i| + 54) * 2^-49`. -/
theorem C27_new_rating_agrees_with_change_up_to_rounding (pow : ℚ → ℚ → ℚ) (a b : ℚ)
    (s1 s2 m1 m2 : Int) :
    |(CalculateElo pow a b s1 s2 m1 m2).Player1NewElo
        - (a + (CalculateElo pow a b s1 s2 m1 m2).Player1EloChange)|
      ≤ 1 / 100 + (|a| + |player1Change pow a b s1 s2 m1| + 1) / 2 ^ 49 ∧
    |(CalculateElo pow a b s1 s2 m1 m2).Player2NewElo
        - (b + (CalculateElo pow a b s1 s2 m1 m2).Player2EloChange)|
      ≤ 1 / 100 + (|b| + |player2Change pow a b s1 s2 m2| + 1) / 2 ^ 49 ∧
    ((∀ y, 0 ≤ pow 10 y) →
      |(CalculateElo pow a b s1 s2 m1 m2).Player1NewElo
          - (a + (CalculateElo pow a b s1 s2 m1 m2).Player1EloChange)|
        ≤ 1 / 100 + (|a| + 54) / 2 ^ 49 ∧
      |(CalculateElo pow a b s1 s2 m1 m2).Player2NewElo
          - (b + (CalculateElo pow a b s1 s2 m1 m2).Player2EloChange)|
        ≤ 1 / 100 + (|b| + 54) / 2 ^ 49) := by
  have h1 := abs_round2_fadd_sub_le a (player1Change pow a b s1 s2 m1)
  have h2 := abs_round2_fadd_sub_le b (player2Change pow a b s1 s2 m2)
  refine ⟨h1, h2, fun hpow => ?_⟩
  have d1 := abs_player1Change_le pow hpow a b s1 s2 m1
  have d2 := abs_player2Change_le pow hpow a b s1 s2 m2
  have e1 : (|a| + |player1Change pow a b s1 s2 m1| + 1) / 2 ^ 49 ≤ (|a| + 54) / 2 ^ 49 :=
    div_le_div_of_nonneg_right (by linarith) (by positivity)
  have e2 : (|b| + |player2Change pow a b s1 s2 m2| + 1) / 2 ^ 49 ≤ (|b| + 54) / 2 ^ 49 :=
    div_le_div_of_nonneg_right (by linarith) (by positivity)
  exact ⟨le_trans h1 (by linarith), le_trans h2 (by linarith)⟩

/-- C27 (amended), at a concrete input: two players rated 1000 with 5
matches each, score 105 to 23. -/
theorem C27_new_rating_agrees_with_change_up_to_rounding_witness :
    (∀ y, 0 ≤ mathPow 10 y) ∧
    |(CalculateElo mathPow 1000 1000 105 23 5 5).Player1NewElo
        - (1000 + (CalculateElo mathPow 1000 1000 105 23 5 5).Player1EloChange)|
      ≤ 1 / 100 + (|(1000 : ℚ)| + 54) / 2 ^ 49 :=
  ⟨mathPow_nonneg,
    ((C27_new_rating_agrees_with_change_up_to_rounding mathPow 1000 1000 105 23 5 5).2.2
      mathPow_nonneg).1⟩

end Elo64

namespace Backfill

/-! ## Reign reconstruction: lemmas -/

theorem loopBody_zero (iter : Nat → EloMap → List (Nat × ℚ)) (st : LoopState) (m : Match) :
    (loopBody iter 0 st m).reigns = st.reigns ∧
    (loopBody iter 0 st m).championshipStart = m.CreatedAt := by
  simp [loopBody]

theorem loopBody_succ (iter : Nat → EloMap → List (Nat × ℚ)) (i : Nat) (hi : i ≠ 0)
    (st : LoopState) (m : Match) :
    ((loopBody iter i st m).reigns = st.reigns ∧
      (loopBody iter i st m).currentChampionID = st.currentChampionID ∧
      (loopBody iter i st m).championshipStart = st.championshipStart) ∨
    ((loopBody iter i st m).reigns = st.reigns ++
        [{ PlayerID := st.currentChampionID
           StartedAt := st.championshipStart
           EndedAt := some m.CreatedAt }] ∧
      (loopBody iter i st m).currentChampionID ≠ st.currentChampionID ∧
      (loopBody iter i st m).championshipStart = m.CreatedAt) := by
  unfold loopBody
  simp only [if_neg hi]
  split_ifs with h
  · right
    exact ⟨rfl, h, rfl⟩
  · left
    exact ⟨rfl, rfl, rfl⟩

theorem tiled_loopBody (iter : Nat → EloMap → List (Nat × ℚ)) (i : Nat) (hi : i ≠ 0)
    (t0 : Int) (st : LoopState) (m : Match) (hst : Tiled t0 st)
    (hle : st.championshipStart ≤ m.CreatedAt) : Tiled t0 (loopBody iter i st m) := by
  obtain ⟨hc, hch, hh⟩ := hst
  rcases loopBody_succ iter i hi st m with ⟨h1, h2, h3⟩ | ⟨h1, _, h3⟩
  · have e : closeReigns (loopBody iter i st m) = closeReigns st := by
      simp only [closeReigns, h1, h2, h3]
    exact ⟨by rw [h1]; exact hc, by rw [e]; exact hch, by rw [e]; exact hh⟩
  · have e : closeReigns (loopBody iter i st m) = st.reigns ++
        [{ PlayerID := st.currentChampionID, StartedAt := st.championshipStart,
           EndedAt := some m.CreatedAt },
         { PlayerID := (loopBody iter i st m).currentChampionID, StartedAt := m.CreatedAt,
           EndedAt := none }] := by
      simp only [closeReigns, h1, h3, List.append_assoc, List.singleton_append]
    refine ⟨?_, ?_, ?_⟩
    · rw [h1]
      intro r hr
      rcases List.mem_append.mp hr with hr | hr
      · exact hc r hr
      · rw [List.mem_singleton] at hr
        subst hr
        exact ⟨m.CreatedAt, rfl, hle⟩
    · rw [e, List.chain'_append]
      rw [closeReigns, List.chain'_append] at hch
      refine ⟨hch.1, ?_, ?_⟩
      · rw [List.chain'_pair]
        rfl
      · intro x hx y hy
        have hxo : Meets x
            (⟨st.currentChampionID, st.championshipStart, none⟩ : ChampionshipReign) :=
          hch.2.2 x hx _ rfl
        have hy' : y = (⟨st.currentChampionID, st.championshipStart, some m.CreatedAt⟩ :
            ChampionshipReign) := by
          simpa using hy.symm
        rw [hy']
        exact hxo
    · rw [e]
      rw [closeReigns] at hh
      cases hrs : st.reigns with
      | nil => rw [hrs] at hh; simpa using hh
      | cons r rs => rw [hrs] at hh; simpa using hh

theorem tiled_loop (iter : Nat → EloMap → List (Nat × ℚ)) (t0 : Int) :
    ∀ (ms : List Match) (i : Nat) (st : LoopState), i ≠ 0 → Tiled t0 st →
      (∀ m ∈ ms, st.championshipStart ≤ m.CreatedAt) → OrderedByCreatedAt ms →
      Tiled t0 (loop iter i st ms) := by
  intro ms
  induction ms with
  | nil => intro i st _ hst _ _; exact hst
  | cons m rest ih =>
    intro i st hi hst hle hord
    rw [loop]
    have hm : st.championshipStart ≤ m.CreatedAt := hle m (List.mem_cons_self _ _)
    have hord' := List.pairwise_cons.mp hord
    apply ih (i + 1) _ (Nat.succ_ne_zero i) (tiled_loopBody iter i hi t0 st m hst hm)
    · intro m' hm'
      rcases loopBody_succ iter i hi st m with ⟨_, _, h3⟩ | ⟨_, _, h3⟩
      · rw [h3]; exact hle m' (List.mem_cons_of_mem _ hm')
      · rw [h3]; exact hord'.1 m' hm'
    · exact hord'.2

theorem chain_starts_of_meets :
    ∀ (rs : List ChampionshipReign), List.Chain' Meets rs →
      (∀ r ∈ rs.dropLast, ∃ e, r.EndedAt = some e ∧ r.StartedAt ≤ e) →
      List.Chain' (fun r1 r2 => r1.StartedAt ≤ r2.StartedAt) rs
  | [], _, _ => List.chain'_nil
  | [_], _, _ => List.chain'_singleton _
  | r1 :: r2 :: rs, hch, hcl => by
    rw [List.chain'_cons] at hch ⊢
    refine ⟨?_, chain_starts_of_meets (r2 :: rs) hch.2 ?_⟩
    · obtain ⟨e, he, hle⟩ := hcl r1 (by simp [List.dropLast])
      have h := hch.1
      unfold Meets at h
      rw [he] at h
      cases h
      exact hle
    · intro r hr
      apply hcl r
      cases rs with
      | nil => simp [List.dropLast] at hr
      | cons r3 rs => simp only [List.dropLast_cons₂] at hr ⊢; exact List.mem_cons_of_mem _ hr

/-- The reconstruction of a non-empty ordered match list ends in a state
whose reigns tile the time axis from the first match on. -/
theorem tiled_backfill (iter : Nat → EloMap → List (Nat × ℚ)) (players : List Player)
    (m : Match) (rest : List Match) (hord : OrderedByCreatedAt (m :: rest)) :
    Tiled m.CreatedAt (loop iter 0 (initState players) (m :: rest)) := by
  rw [loop]
  have hord' := List.pairwise_cons.mp hord
  have h0 := loopBody_zero iter (initState players) m
  apply tiled_loop iter m.CreatedAt rest 1 _ (by decide)
  · have hr : (loopBody iter 0 (initState players) m).reigns = [] := h0.1
    refine ⟨?_, ?_, ?_⟩
    · rw [hr]
      intro r hr'
      cases hr'
    · rw [closeReigns, hr]
      exact List.chain'_singleton _
    · rw [closeReigns, hr, h0.2]
      rfl
  · intro m' hm'
    rw [h0.2]
    exact hord'.1 m' hm'
  · exact hord'.2

/-! ## Reign reconstruction: the claims -/

/-- C9. For every non-empty list of matches ordered by non-decreasing
creation time, whatever the order in which the rating map is visited, the
reign list computed by `BackfillChampionshipHistory` contains exactly one
reign with an absent end timestamp, that reign is the last one of the list,
and every other reign has `EndedAt >= StartedAt`. -/
theorem C9_backfill_one_open_reign_last (iter : Nat → EloMap → List (Nat × ℚ))
    (players : List Player) (matchList : List Match) (hne : matchList ≠ [])
    (hord : OrderedByCreatedAt matchList) :
    ((backfillReigns iter players matchList).filter (fun r => r.EndedAt.isNone)).length = 1 ∧
    (∃ r, (backfillReigns iter players matchList).getLast? = some r ∧ r.EndedAt = none) ∧
    (∀ r ∈ (backfillReigns iter players matchList).dropLast,
      ∃ e, r.EndedAt = some e ∧ r.StartedAt ≤ e) := by
  obtain ⟨m, rest, rfl⟩ := List.exists_cons_of_ne_nil hne
  obtain ⟨hc, _, _⟩ := tiled_backfill iter players m rest hord
  unfold backfillReigns closeReigns
  refine ⟨?_, ?_, ?_⟩
  · rw [List.filter_append]
    have : List.filter (fun r => r.EndedAt.isNone)
        (loop iter 0 (initState players) (m :: rest)).reigns = [] := by
      rw [List.filter_eq_nil_iff]
      intro r hr
      obtain ⟨e, he, _⟩ := hc r hr
      simp [he]
    rw [this]
    simp
  · exact ⟨_, List.getLast?_concat _, rfl⟩
  · rw [List.dropLast_concat]
    exact hc

/-- C9, at a concrete input: three matches, the lead changes at the second. -/
theorem C9_backfill_one_open_reign_last_witness :
    ((backfillReigns (fun _ m => m) [⟨1⟩, ⟨2⟩]
        [⟨1, 2, 1020, 980, 10⟩, ⟨1, 2, 990, 1010, 20⟩, ⟨1, 2, 980, 1020, 30⟩]).filter
          (fun r => r.EndedAt.isNone)).length = 1 ∧
    (∃ r, (backfillReigns (fun _ m => m) [⟨1⟩, ⟨2⟩]
        [⟨1, 2, 1020, 980, 10⟩, ⟨1, 2, 990, 1010, 20⟩, ⟨1, 2, 980, 1020, 30⟩]).getLast?
          = some r ∧ r.EndedAt = none) ∧
    (∀ r ∈ (backfillReigns (fun _ m => m) [⟨1⟩, ⟨2⟩]
        [⟨1, 2, 1020, 980, 10⟩, ⟨1, 2, 990, 1010, 20⟩, ⟨1, 2, 980, 1020, 30⟩]).dropLast,
      ∃ e, r.EndedAt = some e ∧ r.StartedAt ≤ e) :=
  C9_backfill_one_open_reign_last (fun _ m => m) [⟨1⟩, ⟨2⟩]
    [⟨1, 2, 1020, 980, 10⟩, ⟨1, 2, 990, 1010, 20⟩, ⟨1, 2, 980, 1020, 30⟩]
    (by decide) (by decide)

/-- C10. For every non-empty list of matches ordered by non-decreasing
creation time, whatever the order in which the rating map is visited, the
reigns computed by `BackfillChampionshipHistory` tile the timeline: the
first reign starts at the first match's creation time, each closed reign's
`EndedAt` equals the `StartedAt` of the reign that follows it, the start
times never decrease, and the final reign is open. -/
theorem C10_backfill_reigns_tile_timeline (iter : Nat → EloMap → List (Nat × ℚ))
    (players : List Player) (matchList : List Match) (hne : matchList ≠ [])
    (hord : OrderedByCreatedAt matchList) :
    (backfillReigns iter players matchList).head?.map (fun r => r.StartedAt)
        = matchList.head?.map (fun m => m.CreatedAt) ∧
    List.Chain' (fun r1 r2 => r1.EndedAt = some r2.StartedAt)
        (backfillReigns iter players matchList) ∧
    List.Chain' (fun r1 r2 => r1.StartedAt ≤ r2.StartedAt)
        (backfillReigns iter players matchList) ∧
    (backfillReigns iter players matchList).getLast?.map (fun r => r.EndedAt) = some none := by
  obtain ⟨m, rest, rfl⟩ := List.exists_cons_of_ne_nil hne
  obtain ⟨hc, hch, hh⟩ := tiled_backfill iter players m rest hord
  refine ⟨hh, hch, ?_, ?_⟩
  · unfold backfillReigns
    have hsub : ∀ r ∈ (closeReigns (loop iter 0 (initState players) (m :: rest))).dropLast,
        ∃ e, r.EndedAt = some e ∧ r.StartedAt ≤ e := by
      rw [closeReigns, List.dropLast_concat]
      exact hc
    exact chain_starts_of_meets _ hch hsub
  · simp [backfillReigns, closeReigns]

/-- C10, at a concrete input: three matches, the lead changes at the second. -/
theorem C10_backfill_reigns_tile_timeline_witness :
    (backfillReigns (fun _ m => m) [⟨1⟩, ⟨2⟩]
        [⟨1, 2, 1020, 980, 10⟩, ⟨1, 2, 990, 1010, 20⟩, ⟨1, 2, 980, 1020, 30⟩]).head?.map
          (fun r => r.StartedAt)
        = (some 10) ∧
    List.Chain' (fun r1 r2 => r1.EndedAt = some r2.StartedAt)
        (backfillReigns (fun _ m => m) [⟨1⟩, ⟨2⟩]
          [⟨1, 2, 1020, 980, 10⟩, ⟨1, 2, 990, 1010, 20⟩, ⟨1, 2, 980, 1020, 30⟩]) :=
  ⟨(C10_backfill_reigns_tile_timeline (fun _ m => m) [⟨1⟩, ⟨2⟩]
      [⟨1, 2, 1020, 980, 10⟩, ⟨1, 2, 990, 1010, 20⟩, ⟨1, 2, 980, 1020, 30⟩]
      (by decide) (by decide)).1,
   (C10_backfill_reigns_tile_timeline (fun _ m => m) [⟨1⟩, ⟨2⟩]
      [⟨1, 2, 1020, 980, 10⟩, ⟨1, 2, 990, 1010, 20⟩, ⟨1, 2, 980, 1020, 30⟩]
      (by decide) (by decide)).2.1⟩

/-! ## Reconstruction against the persistence layer -/

theorem createAll_fails (createFails : Nat → Bool) :
    ∀ (rs : List ChampionshipReign) (k : Nat),
      (∃ j, j < rs.length ∧ createFails (k + j) = true) →
      (createAll createFails k rs).1 = false := by
  intro rs
  induction rs with
  | nil =>
    intro k h
    obtain ⟨j, hj, _⟩ := h
    simp at hj
  | cons r rest ih =>
    intro k h
    obtain ⟨j, hj, hf⟩ := h
    unfold createAll
    by_cases hk : createFails k = true
    · simp [hk]
    · simp only [hk, Bool.false_eq_true, if_false]
      apply ih (k + 1)
      cases j with
      | zero => exact absurd hf hk
      | succ j =>
        refine ⟨j, by simpa using hj, ?_⟩
        rw [← hf]
        congr 1
        omega

theorem findLeader_fold (l : List (Nat × ℚ)) :
    ∀ top : Nat × ℚ,
      (l.foldl (fun top entry => if entry.2 > top.2 then (entry.1, entry.2) else top) top = top ∧
        ∀ e ∈ l, e.2 ≤ top.2) ∨
      (l.foldl (fun top entry => if entry.2 > top.2 then (entry.1, entry.2) else top) top ∈ l ∧
        top.2 < (l.foldl (fun top entry => if entry.2 > top.2 then (entry.1, entry.2) else top)
          top).2 ∧
        ∀ e ∈ l, e.2 ≤ (l.foldl (fun top entry => if entry.2 > top.2 then (entry.1, entry.2)
          else top) top).2) := by
  induction l with
  | nil =>
    intro top
    left
    exact ⟨rfl, fun e he => by cases he⟩
  | cons x rest ih =>
    intro top
    rw [List.foldl_cons]
    by_cases hx : x.2 > top.2
    · rw [if_pos hx]
      have hxx : (x.1, x.2) = x := rfl
      rw [hxx]
      rcases ih x with ⟨h1, h2⟩ | ⟨h1, h2, h3⟩
      · right
        rw [h1]
        refine ⟨List.mem_cons_self _ _, hx, ?_⟩
        intro e he
        rcases List.mem_cons.mp he with he | he
        · rw [he]
        · exact h2 e he
      · right
        refine ⟨List.mem_cons_of_mem _ h1, lt_trans hx h2, ?_⟩
        intro e he
        rcases List.mem_cons.mp he with he | he
        · rw [he]; exact le_of_lt h2
        · exact h3 e he
    · rw [if_neg hx]
      have hx' : x.2 ≤ top.2 := not_lt.mp hx
      rcases ih top with ⟨h1, h2⟩ | ⟨h1, h2, h3⟩
      · left
        refine ⟨h1, ?_⟩
        intro e he
        rcases List.mem_cons.mp he with he | he
        · rw [he]; exact hx'
        · exact h2 e he
      · right
        refine ⟨List.mem_cons_of_mem _ h1, h2, ?_⟩
        intro e he
        rcases List.mem_cons.mp he with he | he
        · rw [he]; exact le_of_lt (lt_of_le_of_lt hx' h2)
        · exact h3 e he

/-- The scan returns `(0, 0)` when no rating is positive, and otherwise an
entry that holds the maximum. -/
theorem findLeader_spec (l : List (Nat × ℚ)) :
    (findLeader l = (0, 0) ∧ ∀ e ∈ l, e.2 ≤ 0) ∨
    (findLeader l ∈ l ∧ 0 < (findLeader l).2 ∧ ∀ e ∈ l, e.2 ≤ (findLeader l).2) :=
  findLeader_fold l (0, 0)

/-- Two visiting orders of a map whose positive maximum has a single holder
select the same leader. -/
theorem findLeader_order_irrelevant (playerElos l1 l2 : List (Nat × ℚ))
    (h1 : l1.Perm playerElos) (h2 : l2.Perm playerElos) (hu : UniqueTop playerElos) :
    (findLeader l1).1 = (findLeader l2).1 := by
  have m1 : ∀ e, e ∈ l1 ↔ e ∈ playerElos := fun e => h1.mem_iff
  have m2 : ∀ e, e ∈ l2 ↔ e ∈ playerElos := fun e => h2.mem_iff
  rcases findLeader_spec l1 with ⟨a1, a2⟩ | ⟨a1, a2, a3⟩
  · rcases findLeader_spec l2 with ⟨b1, _⟩ | ⟨b1, b2, _⟩
    · rw [a1, b1]
    · have := a2 _ ((m1 _).mpr ((m2 _).mp b1))
      exact absurd b2 (not_lt.mpr this)
  · rcases findLeader_spec l2 with ⟨_, b2⟩ | ⟨b1, _, b3⟩
    · have := b2 _ ((m2 _).mpr ((m1 _).mp a1))
      exact absurd a2 (not_lt.mpr this)
    · have ha : findLeader l1 ∈ playerElos := (m1 _).mp a1
      have hb : findLeader l2 ∈ playerElos := (m2 _).mp b1
      apply hu _ ha _ hb a2
      · intro e he
        exact a3 e ((m1 e).mpr he)
      · exact le_antisymm (a3 _ ((m1 _).mpr hb)) (b3 _ ((m2 _).mpr ha))

theorem loopBody_congr (iter1 iter2 : Nat → EloMap → List (Nat × ℚ)) (i : Nat)
    (st : LoopState) (m : Match)
    (h : (findLeader (iter1 i (applyMatch st.playerElos m))).1
        = (findLeader (iter2 i (applyMatch st.playerElos m))).1) :
    loopBody iter1 i st m = loopBody iter2 i st m := by
  unfold loopBody
  unfold applyMatch at h
  simp only [h]

theorem loopBody_playerElos (iter : Nat → EloMap → List (Nat × ℚ)) (i : Nat)
    (st : LoopState) (m : Match) :
    (loopBody iter i st m).playerElos = applyMatch st.playerElos m := by
  unfold loopBody applyMatch
  simp only []
  split_ifs <;> rfl

theorem loop_order_irrelevant (iter1 iter2 : Nat → EloMap → List (Nat × ℚ))
    (h1 : IsRangeOrder iter1) (h2 : IsRangeOrder iter2) :
    ∀ (ms : List Match) (i : Nat) (st : LoopState), UniqueTopRun st.playerElos ms →
      loop iter1 i st ms = loop iter2 i st ms := by
  intro ms
  induction ms with
  | nil => intro i st _; rfl
  | cons m rest ih =>
    intro i st hu
    obtain ⟨hu1, hu2⟩ := hu
    have hb : loopBody iter1 i st m = loopBody iter2 i st m :=
      loopBody_congr iter1 iter2 i st m
        (findLeader_order_irrelevant _ _ _ (h1 i _) (h2 i _) hu1)
    rw [loop, loop, hb]
    apply ih
    rw [loopBody_playerElos]
    exact hu2

/-- C11 (what the code does when an insert fails). Whenever the matches and
the players are read, the `DELETE` succeeds and one of the inserts of the
newly computed reigns fails, `BackfillChampionshipHistory` returns the error
of the insert and the table is left empty, whatever rows it held before the
call: the old rows are not restored by the rollback. -/
theorem C11_insert_failure_leaves_table_empty (iter : Nat → EloMap → List (Nat × ℚ))
    (matchList : List Match) (players : List Player) (createFails : Nat → Bool)
    (stored : List ChampionshipReign) (hne : matchList ≠ [])
    (hfail : ∃ j, j < (backfillReigns iter players matchList).length ∧ createFails j = true) :
    (BackfillChampionshipHistory iter
        { matchRows := some matchList, playerRows := some players,
          deleteFails := false, createFails := createFails } stored).err
      = some BackfillError.createReign ∧
    (BackfillChampionshipHistory iter
        { matchRows := some matchList, playerRows := some players,
          deleteFails := false, createFails := createFails } stored).reigns = [] := by
  have hlen : ¬ matchList.length = 0 := by
    intro h
    exact hne (List.length_eq_zero.mp h)
  have hc : (createAll createFails 0 (backfillReigns iter players matchList)).1 = false := by
    apply createAll_fails
    obtain ⟨j, hj, hf⟩ := hfail
    exact ⟨j, hj, by simpa using hf⟩
  simp [BackfillChampionshipHistory, hlen, hc]

/-- C11, at the failing input: the table holds one open reign of player 9,
there is one match, and the first insert fails. -/
theorem C11_insert_failure_leaves_table_empty_witness :
    (BackfillChampionshipHistory (fun _ m => m)
        { matchRows := some [⟨1, 2, 1020, 980, 10⟩], playerRows := some [⟨1⟩, ⟨2⟩],
          deleteFails := false, createFails := fun _ => true } [⟨9, 0, none⟩]).err
      = some BackfillError.createReign ∧
    (BackfillChampionshipHistory (fun _ m => m)
        { matchRows := some [⟨1, 2, 1020, 980, 10⟩], playerRows := some [⟨1⟩, ⟨2⟩],
          deleteFails := false, createFails := fun _ => true } [⟨9, 0, none⟩]).reigns = [] :=
  C11_insert_failure_leaves_table_empty (fun _ m => m) [⟨1, 2, 1020, 980, 10⟩] [⟨1⟩, ⟨2⟩]
    (fun _ => true) [⟨9, 0, none⟩] (by decide) ⟨0, by decide, rfl⟩

/-- C12 (counterexample). Two players share the maximum rating 1000 after
the only match; a run that visits the map in one order and a run that visits
it in the reverse order compute different reign lists. -/
theorem C12_reconstruction_not_idempotent_on_ties :
    IsRangeOrder (fun _ m => m) ∧ IsRangeOrder (fun _ m => m.reverse) ∧
    backfillReigns (fun _ m => m) [⟨1⟩, ⟨2⟩] [⟨1, 2, 1000, 1000, 10⟩]
      ≠ backfillReigns (fun _ m => m.reverse) [⟨1⟩, ⟨2⟩] [⟨1, 2, 1000, 1000, 10⟩] := by
  refine ⟨fun _ m => List.Perm.refl m, fun _ m => List.reverse_perm m, ?_⟩
  decide

/-- C12 (amended). Two runs of the reconstruction on the same match list and
the same player list yield identical reign lists (same owners, same start
and end timestamps, same order) for every input in which, after every match,
the positive maximum of the rating map, when there is one, has a single
holder; the two runs may visit the map in different orders. -/
theorem C12_reconstruction_idempotent_without_ties
    (iter1 iter2 : Nat → EloMap → List (Nat × ℚ))
    (h1 : IsRangeOrder iter1) (h2 : IsRangeOrder iter2)
    (players : List Player) (matchList : List Match)
    (hu : UniqueTopRun (initElos players) matchList) :
    backfillReigns iter1 players matchList = backfillReigns iter2 players matchList := by
  unfold backfillReigns
  rw [loop_order_irrelevant iter1 iter2 h1 h2 matchList 0 (initState players) hu]

/-- C12 (amended), at a concrete input: two matches without a tie at the
top, one run visiting the map in order and one in reverse order. -/
theorem C12_reconstruction_idempotent_without_ties_witness :
    backfillReigns (fun _ m => m) [⟨1⟩, ⟨2⟩] [⟨1, 2, 1020, 980, 10⟩, ⟨1, 2, 990, 1010, 20⟩]
      = backfillReigns (fun _ m => m.reverse) [⟨1⟩, ⟨2⟩]
          [⟨1, 2, 1020, 980, 10⟩, ⟨1, 2, 990, 1010, 20⟩] :=
  C12_reconstruction_idempotent_without_ties (fun _ m => m) (fun _ m => m.reverse)
    (fun _ m => List.Perm.refl m) (fun _ m => List.reverse_perm m) [⟨1⟩, ⟨2⟩]
    [⟨1, 2, 1020, 980, 10⟩, ⟨1, 2, 990, 1010, 20⟩]
    (by
      simp only [UniqueTopRun, UniqueTop]
      decide)

/-- C13. When the match list is empty, `BackfillChampionshipHistory` returns
nil and issues no delete and no insert: the persisted reign records are
unchanged. -/
theorem C13_empty_match_list_is_noop (iter : Nat → EloMap → List (Nat × ℚ))
    (playerRows : Option (List Player)) (deleteFails : Bool) (createFails : Nat → Bool)
    (stored : List ChampionshipReign) :
    BackfillChampionshipHistory iter
        { matchRows := some [], playerRows := playerRows,
          deleteFails := deleteFails, createFails := createFails } stored
      = { err := none, reigns := stored, writes := [] } := by
  simp [BackfillChampionshipHistory]

/-! ## Leader selection and reign boundaries -/

theorem findLeader_fold_first (l : List (Nat × ℚ)) :
    ∀ top : Nat × ℚ,
      (l.foldl (fun top entry => if entry.2 > top.2 then (entry.1, entry.2) else top) top = top ∧
        ∀ e ∈ l, e.2 ≤ top.2) ∨
      (∃ pre e post, l = pre ++ e :: post ∧
        l.foldl (fun top entry => if entry.2 > top.2 then (entry.1, entry.2) else top) top = e ∧
        top.2 < e.2 ∧ (∀ x ∈ pre, x.2 < e.2) ∧ ∀ x ∈ post, x.2 ≤ e.2) := by
  induction l with
  | nil =>
    intro top
    left
    exact ⟨rfl, fun e he => by cases he⟩
  | cons x rest ih =>
    intro top
    rw [List.foldl_cons]
    by_cases hx : x.2 > top.2
    · rw [if_pos hx]
      have hxx : (x.1, x.2) = x := rfl
      rw [hxx]
      right
      rcases ih x with ⟨h1, h2⟩ | ⟨pre, e, post, h1, h2, h3, h4, h5⟩
      · exact ⟨[], x, rest, rfl, h1, hx, (fun y hy => by cases hy), h2⟩
      · refine ⟨x :: pre, e, post, by rw [h1]; rfl, h2, lt_trans hx h3, ?_, h5⟩
        intro y hy
        rcases List.mem_cons.mp hy with hy | hy
        · rw [hy]; exact h3
        · exact h4 y hy
    · rw [if_neg hx]
      have hx' : x.2 ≤ top.2 := not_lt.mp hx
      rcases ih top with ⟨h1, h2⟩ | ⟨pre, e, post, h1, h2, h3, h4, h5⟩
      · left
        refine ⟨h1, ?_⟩
        intro y hy
        rcases List.mem_cons.mp hy with hy | hy
        · rw [hy]; exact hx'
        · exact h2 y hy
      · right
        refine ⟨x :: pre, e, post, by rw [h1]; rfl, h2, h3, ?_, h5⟩
        intro y hy
        rcases List.mem_cons.mp hy with hy | hy
        · rw [hy]; exact lt_of_le_of_lt hx' h3
        · exact h4 y hy

/-- When some rating is strictly positive, the scan selects the first entry,
in the visiting order, that holds the maximum rating. -/
theorem findLeader_first_max (visited : List (Nat × ℚ)) (hpos : ∃ e ∈ visited, 0 < e.2) :
    IsFirstMaxHolder visited (findLeader visited).1 ∧ 0 < (findLeader visited).2 := by
  rcases findLeader_fold_first visited (0, 0) with ⟨_, h2⟩ | ⟨pre, e, post, h1, h2, h3, h4, h5⟩
  · obtain ⟨e, he, hp⟩ := hpos
    exact absurd hp (not_lt.mpr (h2 e he))
  · have hf : findLeader visited = e := h2
    rw [hf]
    exact ⟨⟨pre, e, post, h1, rfl, h4, h5⟩, h3⟩

theorem loopBody_leader (iter : Nat → EloMap → List (Nat × ℚ)) (i : Nat)
    (st : LoopState) (m : Match) :
    (loopBody iter i st m).currentChampionID
      = (findLeader (iter i (applyMatch st.playerElos m))).1 := by
  unfold loopBody applyMatch
  simp only []
  split_ifs with h1 h2
  · rfl
  · rfl
  · exact (not_not.mp h2).symm

theorem loopBody_reigns (iter : Nat → EloMap → List (Nat × ℚ)) (i : Nat) (hi : i ≠ 0)
    (st : LoopState) (m : Match) :
    (loopBody iter i st m).reigns
      = if st.currentChampionID ≠ (findLeader (iter i (applyMatch st.playerElos m))).1 then
          st.reigns ++ [{ PlayerID := st.currentChampionID, StartedAt := st.championshipStart,
                          EndedAt := some m.CreatedAt }]
        else st.reigns := by
  unfold loopBody applyMatch
  simp only [if_neg hi]
  by_cases h : (findLeader (iter i (EloMap.set (EloMap.set st.playerElos m.Player1ID
      m.Player1EloAfter) m.Player2ID m.Player2EloAfter))).1 = st.currentChampionID
  · have h' : ¬ st.currentChampionID ≠ (findLeader (iter i (EloMap.set (EloMap.set
        st.playerElos m.Player1ID m.Player1EloAfter) m.Player2ID m.Player2EloAfter))).1 :=
      fun hc => hc h.symm
    simp only [ne_eq, h, not_true_eq_false, if_false]
  · have h' : st.currentChampionID ≠ (findLeader (iter i (EloMap.set (EloMap.set
        st.playerElos m.Player1ID m.Player1EloAfter) m.Player2ID m.Player2EloAfter))).1 :=
      fun hc => h hc.symm
    rw [if_pos h, if_pos h']

/-- The owners of the reigns are the leaders after the matches, with
repetitions of the tracked leader dropped. -/
theorem loop_owners (iter : Nat → EloMap → List (Nat × ℚ)) :
    ∀ (ms : List Match) (i : Nat) (st : LoopState), i ≠ 0 →
      (closeReigns (loop iter i st ms)).map (fun r => r.PlayerID)
        = st.reigns.map (fun r => r.PlayerID) ++
            List.destutter' (fun a b => a ≠ b) st.currentChampionID
              (leaderTrace iter i st.playerElos ms) := by
  intro ms
  induction ms with
  | nil =>
    intro i st _
    simp [loop, closeReigns, leaderTrace]
  | cons m rest ih =>
    intro i st hi
    rw [loop, ih (i + 1) _ (Nat.succ_ne_zero i), loopBody_playerElos, loopBody_leader,
      loopBody_reigns iter i hi, leaderTrace]
    by_cases h : st.currentChampionID ≠ (findLeader (iter i (applyMatch st.playerElos m))).1
    · rw [if_pos h, List.destutter'_cons_pos _ h]
      simp
    · rw [if_neg h, List.destutter'_cons_neg _ h]
      rw [not_not] at h
      rw [← h]

theorem destutter'_length (l : List Nat) :
    ∀ a : Nat, (List.destutter' (fun a b => a ≠ b) a l).length = 1 + countChanges (a :: l) := by
  induction l with
  | nil => intro a; simp [countChanges]
  | cons b rest ih =>
    intro a
    by_cases h : a ≠ b
    · rw [List.destutter'_cons_pos _ h, List.length_cons, ih b, countChanges, if_pos h]
      omega
    · rw [List.destutter'_cons_neg _ h, ih a, countChanges, if_neg h]
      rw [not_not] at h
      rw [h]
      omega

theorem countChanges_le (l : List Nat) : ∀ a : Nat, countChanges (a :: l) ≤ l.length := by
  induction l with
  | nil => intro a; simp [countChanges]
  | cons b rest ih =>
    intro a
    rw [countChanges, List.length_cons]
    have := ih b
    split_ifs <;> omega

theorem leaderTrace_length (iter : Nat → EloMap → List (Nat × ℚ)) :
    ∀ (ms : List Match) (i : Nat) (playerElos : EloMap),
      (leaderTrace iter i playerElos ms).length = ms.length := by
  intro ms
  induction ms with
  | nil => intro i e; rfl
  | cons m rest ih => intro i e; simp [leaderTrace, ih]

/-- The owners of the reconstructed reigns of a non-empty match list. -/
theorem backfill_owners (iter : Nat → EloMap → List (Nat × ℚ)) (players : List Player)
    (m : Match) (rest : List Match) :
    (backfillReigns iter players (m :: rest)).map (fun r => r.PlayerID)
      = List.destutter (fun a b => a ≠ b)
          (leaderTrace iter 0 (initElos players) (m :: rest)) := by
  unfold backfillReigns
  rw [loop, loop_owners iter rest 1 _ (by decide), (loopBody_zero iter _ m).1,
    loopBody_playerElos, loopBody_leader, leaderTrace, List.destutter_cons']
  rfl

theorem positiveUniqueTop_uniqueTop (playerElos : EloMap) (h : PositiveUniqueTop playerElos) :
    UniqueTop playerElos := by
  obtain ⟨e, he, _, hmax, huniq⟩ := h
  intro e1 h1 e2 h2 _ hmax1 heq
  have e1e : e1.2 = e.2 := le_antisymm (hmax e1 h1) (hmax1 e he)
  rw [huniq e1 h1 e1e, huniq e2 h2 (by rw [heq, e1e])]

theorem positiveUniqueTopRun_uniqueTopRun :
    ∀ (ms : List Match) (playerElos : EloMap), PositiveUniqueTopRun playerElos ms →
      UniqueTopRun playerElos ms := by
  intro ms
  induction ms with
  | nil => intro _ _; trivial
  | cons m rest ih =>
    intro e h
    exact ⟨positiveUniqueTop_uniqueTop _ h.1, ih _ h.2⟩


/-- C22 (what the code does). When some rating of the map is strictly
positive, the scan selects the first entry in the visiting order that holds
the maximum rating.  When no rating is positive it selects nobody: on the
map that holds -5 for player 1 and -7 for player 2 the scan ends with
`topPlayerID = 0` and `topElo = 0`, 0 is not a key of the map, and the
reconstruction opens a reign for player 0. -/
theorem C22_leader_scan_misses_nonpositive_maps :
    (∀ visited : List (Nat × ℚ), (∃ e ∈ visited, 0 < e.2) →
      IsFirstMaxHolder visited (findLeader visited).1) ∧
    findLeader [(1, -5), (2, -7)] = (0, 0) ∧
    ¬ IsFirstMaxHolder [(1, -5), (2, -7)] (findLeader [(1, -5), (2, -7)]).1 ∧
    backfillReigns (fun _ m => m) [⟨1⟩, ⟨2⟩] [⟨1, 2, -5, -7, 10⟩] = [⟨0, 10, none⟩] := by
  have hf : findLeader [(1, -5), (2, -7)] = (0, 0) := by decide
  refine ⟨fun visited hpos => (findLeader_first_max visited hpos).1, hf, ?_, by decide⟩
  rintro ⟨pre, e, post, h1, h2, _, _⟩
  rw [hf] at h2
  have he : e ∈ [((1 : Nat), (-5 : ℚ)), (2, -7)] := by
    rw [h1]
    exact List.mem_append_right _ (List.mem_cons_self _ _)
  simp only [List.mem_cons, List.mem_singleton, List.not_mem_nil, or_false] at he
  rcases he with he | he
  · rw [he] at h2
    exact absurd h2 (by decide)
  · rw [he] at h2
    exact absurd h2 (by decide)

/-- C23. In the reconstruction of a non-empty match list, the tracked
leader is the leader after the previous match and a reign boundary is
produced at match `i > 0` exactly when the leader after match `i` differs
from it: the owners of the reigns are the leaders after the matches with
repetitions dropped, the number of reigns is 1 plus the number of matches
whose leader differs from the one before (so at most the number of matches),
and any two consecutive reigns have different owners. -/
theorem C23_reign_boundaries_at_leader_changes (iter : Nat → EloMap → List (Nat × ℚ))
    (players : List Player) (matchList : List Match) (hne : matchList ≠ []) :
    (backfillReigns iter players matchList).map (fun r => r.PlayerID)
      = List.destutter (fun a b => a ≠ b) (leaderTrace iter 0 (initElos players) matchList) ∧
    (backfillReigns iter players matchList).length
      = 1 + countChanges (leaderTrace iter 0 (initElos players) matchList) ∧
    (backfillReigns iter players matchList).length ≤ matchList.length ∧
    List.Chain' (fun r1 r2 => r1.PlayerID ≠ r2.PlayerID)
      (backfillReigns iter players matchList) := by
  obtain ⟨m, rest, rfl⟩ := List.exists_cons_of_ne_nil hne
  have ho := backfill_owners iter players m rest
  have hlen : (backfillReigns iter players (m :: rest)).length
      = 1 + countChanges (leaderTrace iter 0 (initElos players) (m :: rest)) := by
    have := congrArg List.length ho
    rw [List.length_map] at this
    rw [this, leaderTrace, List.destutter_cons', destutter'_length]
  refine ⟨ho, hlen, ?_, ?_⟩
  · rw [hlen, leaderTrace]
    have h1 := countChanges_le (leaderTrace iter (0 + 1) (applyMatch (initElos players) m) rest)
      (findLeader (iter 0 (applyMatch (initElos players) m))).1
    rw [leaderTrace_length] at h1
    rw [List.length_cons]
    omega
  · have hc := List.destutter_is_chain' (fun a b : Nat => a ≠ b)
      (leaderTrace iter 0 (initElos players) (m :: rest))
    rw [← ho, List.chain'_map] at hc
    exact hc

/-- C23, at a concrete input: three matches, the lead changes at the
second. -/
theorem C23_reign_boundaries_at_leader_changes_witness :
    (backfillReigns (fun _ m => m) [⟨1⟩, ⟨2⟩]
        [⟨1, 2, 1020, 980, 10⟩, ⟨1, 2, 990, 1010, 20⟩, ⟨1, 2, 980, 1020, 30⟩]).length
      = 1 + countChanges (leaderTrace (fun _ m => m) 0 (initElos [⟨1⟩, ⟨2⟩])
          [⟨1, 2, 1020, 980, 10⟩, ⟨1, 2, 990, 1010, 20⟩, ⟨1, 2, 980, 1020, 30⟩]) :=
  (C23_reign_boundaries_at_leader_changes (fun _ m => m) [⟨1⟩, ⟨2⟩]
    [⟨1, 2, 1020, 980, 10⟩, ⟨1, 2, 990, 1010, 20⟩, ⟨1, 2, 980, 1020, 30⟩] (by decide)).2.1

/-- C30. If, after every match of the input, the maximum rating in the
replay map is strictly positive and is held by exactly one competitor, then
the reign list computed by the reconstruction does not depend on the order
in which the rating map is iterated: any two iteration orders give the same
reign list. -/
theorem C30_reigns_independent_of_iteration_order
    (iter1 iter2 : Nat → EloMap → List (Nat × ℚ))
    (h1 : IsRangeOrder iter1) (h2 : IsRangeOrder iter2)
    (players : List Player) (matchList : List Match)
    (hu : PositiveUniqueTopRun (initElos players) matchList) :
    backfillReigns iter1 players matchList = backfillReigns iter2 players matchList := by
  unfold backfillReigns
  rw [loop_order_irrelevant iter1 iter2 h1 h2 matchList 0 (initState players)
    (positiveUniqueTopRun_uniqueTopRun matchList _ hu)]

/-- C30, at a concrete input: one match after which player 1 alone holds
the maximum 1020, the map visited in order and in reverse order. -/
theorem C30_reigns_independent_of_iteration_order_witness :
    backfillReigns (fun _ m => m) [⟨1⟩, ⟨2⟩] [⟨1, 2, 1020, 980, 10⟩]
      = backfillReigns (fun _ m => m.reverse) [⟨1⟩, ⟨2⟩] [⟨1, 2, 1020, 980, 10⟩] :=
  C30_reigns_independent_of_iteration_order (fun _ m => m) (fun _ m => m.reverse)
    (fun _ m => List.Perm.refl m) (fun _ m => List.reverse_perm m) [⟨1⟩, ⟨2⟩]
    [⟨1, 2, 1020, 980, 10⟩]
    ⟨⟨(1, 1020), by decide, by decide, by decide, by decide⟩, trivial⟩

end Backfill

namespace Championship

open Backfill (ChampionshipReign)

open Binary64

/-! ## Incremental reign tracker: lemmas -/

theorem openCount_cons (r : ChampionshipReign) (s : List ChampionshipReign) :
    openCount (r :: s) = (if r.EndedAt = none then 1 else 0) + openCount s := by
  unfold openCount
  cases h : r.EndedAt with
  | none => simp [List.filter_cons, h]; omega
  | some e => simp [List.filter_cons, h]

theorem openCount_append_open (s : List ChampionshipReign) (pid : Nat) (now : Int) :
    openCount (s ++ [{ PlayerID := pid, StartedAt := now, EndedAt := none }])
      = openCount s + 1 := by
  unfold openCount
  simp [List.filter_append]

theorem openCount_eq_zero (s : List ChampionshipReign)
    (h : ∀ r ∈ s, r.EndedAt ≠ none) : openCount s = 0 := by
  unfold openCount
  rw [List.length_eq_zero, List.filter_eq_nil_iff]
  intro r hr
  have := h r hr
  cases hE : r.EndedAt with
  | none => exact absurd hE this
  | some e => simp

theorem closeFirstOpen_some (pid : Nat) (now : Int) :
    ∀ (s s' : List ChampionshipReign), closeFirstOpen pid now s = some s' →
      openCount s' + 1 = openCount s := by
  intro s
  induction s with
  | nil => intro s' h; simp [closeFirstOpen] at h
  | cons r rest ih =>
    intro s' h
    unfold closeFirstOpen at h
    by_cases hr : r.PlayerID = pid ∧ r.EndedAt = none
    · rw [if_pos hr] at h
      cases h
      rw [openCount_cons, openCount_cons]
      simp [hr.2]
      omega
    · rw [if_neg hr] at h
      cases hc : closeFirstOpen pid now rest with
      | none => rw [hc] at h; simp at h
      | some rest' =>
        rw [hc] at h
        simp only [Option.map_some', Option.some.injEq] at h
        subst h
        rw [openCount_cons, openCount_cons]
        have := ih rest' hc
        omega

theorem closeFirstOpen_none (pid : Nat) (now : Int) :
    ∀ (s : List ChampionshipReign), closeFirstOpen pid now s = none →
      ∀ r ∈ s, ¬ (r.PlayerID = pid ∧ r.EndedAt = none) := by
  intro s
  induction s with
  | nil => intro _ r hr; cases hr
  | cons x rest ih =>
    intro h r hr
    unfold closeFirstOpen at h
    by_cases hx : x.PlayerID = pid ∧ x.EndedAt = none
    · rw [if_pos hx] at h
      cases h
    · rw [if_neg hx] at h
      rcases List.mem_cons.mp hr with hr | hr
      · rw [hr]; exact hx
      · apply ih _ r hr
        cases hc : closeFirstOpen pid now rest with
        | none => rfl
        | some rest' => rw [hc] at h; simp at h

/-- When an open reign of `pid` exists, the first one is closed at `now` and
every other row is kept. -/
theorem closeFirstOpen_split (pid : Nat) (now : Int) :
    ∀ (s : List ChampionshipReign), (∃ r ∈ s, r.PlayerID = pid ∧ r.EndedAt = none) →
      ∃ pre r post, s = pre ++ r :: post ∧ r.PlayerID = pid ∧ r.EndedAt = none ∧
        (∀ x ∈ pre, ¬ (x.PlayerID = pid ∧ x.EndedAt = none)) ∧
        closeFirstOpen pid now s
          = some (pre ++ { PlayerID := r.PlayerID, StartedAt := r.StartedAt,
                           EndedAt := some now } :: post) := by
  intro s
  induction s with
  | nil => intro h; obtain ⟨r, hr, _⟩ := h; cases hr
  | cons x rest ih =>
    intro h
    by_cases hx : x.PlayerID = pid ∧ x.EndedAt = none
    · refine ⟨[], x, rest, rfl, hx.1, hx.2, (fun y hy => by cases hy), ?_⟩
      unfold closeFirstOpen
      rw [if_pos hx]
      rfl
    · have h' : ∃ r ∈ rest, r.PlayerID = pid ∧ r.EndedAt = none := by
        obtain ⟨r, hr, hp⟩ := h
        rcases List.mem_cons.mp hr with hr | hr
        · subst hr; exact absurd hp hx
        · exact ⟨r, hr, hp⟩
      obtain ⟨pre, r, post, hs, h1, h2, h3, h4⟩ := ih h'
      refine ⟨x :: pre, r, post, by rw [hs]; rfl, h1, h2, ?_, ?_⟩
      · intro y hy
        rcases List.mem_cons.mp hy with hy | hy
        · rw [hy]; exact hx
        · exact h3 y hy
      · unfold closeFirstOpen
        rw [if_neg hx, h4]
        rfl

theorem firstOpenByStartDesc_none :
    ∀ (s : List ChampionshipReign),
      firstOpenByStartDesc s = none ↔ ∀ r ∈ s, r.EndedAt ≠ none := by
  intro s
  induction s with
  | nil => simp [firstOpenByStartDesc]
  | cons x rest ih =>
    unfold firstOpenByStartDesc
    cases hb : firstOpenByStartDesc rest with
    | none =>
      have hrest := ih.mp hb
      by_cases hx : x.EndedAt = none
      · simp [hx]
      · simp only [hx, if_false, true_iff]
        intro r hr
        rcases List.mem_cons.mp hr with hr | hr
        · rw [hr]; exact hx
        · exact hrest r hr
    | some best =>
      have hne : ¬ ∀ r ∈ rest, r.EndedAt ≠ none := by
        intro hall
        have := ih.mpr hall
        rw [hb] at this
        cases this
      constructor
      · intro h
        dsimp only at h
        by_cases hc : x.EndedAt = none ∧ best.StartedAt ≤ x.StartedAt
        · rw [if_pos hc] at h; cases h
        · rw [if_neg hc] at h; cases h
      · intro hall
        exact absurd (fun r hr => hall r (List.mem_cons_of_mem _ hr)) hne

theorem firstOpenByStartDesc_some :
    ∀ (s : List ChampionshipReign) (b : ChampionshipReign), firstOpenByStartDesc s = some b →
      b ∈ s ∧ b.EndedAt = none ∧ ∀ r ∈ s, r.EndedAt = none → r.StartedAt ≤ b.StartedAt := by
  intro s
  induction s with
  | nil => intro b h; simp [firstOpenByStartDesc] at h
  | cons x rest ih =>
    intro b h
    unfold firstOpenByStartDesc at h
    cases hb : firstOpenByStartDesc rest with
    | none =>
      rw [hb] at h
      have hrest := (firstOpenByStartDesc_none rest).mp hb
      by_cases hx : x.EndedAt = none
      · simp only [hx, if_true, Option.some.injEq] at h
        subst h
        refine ⟨List.mem_cons_self _ _, hx, ?_⟩
        intro r hr hro
        rcases List.mem_cons.mp hr with hr | hr
        · rw [hr]
        · exact absurd hro (hrest r hr)
      · simp [hx] at h
    | some best =>
      rw [hb] at h
      obtain ⟨h1, h2, h3⟩ := ih best hb
      by_cases hx : x.EndedAt = none ∧ best.StartedAt ≤ x.StartedAt
      · simp only [hx, and_self, if_true, Option.some.injEq] at h
        subst h
        refine ⟨List.mem_cons_self _ _, hx.1, ?_⟩
        intro r hr hro
        rcases List.mem_cons.mp hr with hr | hr
        · rw [hr]
        · exact le_trans (h3 r hr hro) hx.2
      · simp only [hx, if_false, Option.some.injEq] at h
        subst h
        refine ⟨List.mem_cons_of_mem _ h1, h2, ?_⟩
        intro r hr hro
        rcases List.mem_cons.mp hr with hr | hr
        · subst hr
          have : ¬ best.StartedAt ≤ r.StartedAt := fun hle => hx ⟨hro, hle⟩
          exact le_of_lt (not_le.mp this)
        · exact h3 r hr hro

/-! ## Incremental reign tracker and current champion: the claims -/

/-- C14 (counterexample). The table holds one open reign, of player 5; the
call `TrackChampionshipChange(7, nil)` leaves two open reigns. -/
theorem C14_track_can_open_second_reign :
    openCount [⟨5, 0, none⟩] ≤ 1 ∧
    ¬ openCount (TrackChampionshipChange false false 10 [⟨5, 0, none⟩] 7 none).reigns ≤ 1 := by
  decide

/-- C14 (amended). For every reign store in which at most one reign has an
absent end timestamp, and for every call `TrackChampionshipChange(newChampionID,
oldChampionID)` in which `oldChampionID` equals `newChampionID`, or no reign
is open, or `oldChampionID` is present and every open reign belongs to it,
the store after the call still has at most one reign with an absent end
timestamp, whether or not the writes succeed. -/
theorem C14_track_keeps_at_most_one_open (saveFails createFails : Bool) (now : Int)
    (store : List ChampionshipReign) (newChampionID : Nat) (oldChampionID : Option Nat)
    (h1 : openCount store ≤ 1)
    (h2 : oldChampionID = some newChampionID ∨ openCount store = 0 ∨
      ∃ old, oldChampionID = some old ∧ ∀ r ∈ store, r.EndedAt = none → r.PlayerID = old) :
    openCount (TrackChampionshipChange saveFails createFails now store newChampionID
      oldChampionID).reigns ≤ 1 := by
  unfold TrackChampionshipChange
  by_cases hsame : oldChampionID = some newChampionID
  · rw [if_pos hsame]
    exact h1
  · rw [if_neg hsame]
    have key : ∀ s', endPreviousReign saveFails now store newChampionID oldChampionID = some s' →
        openCount s' = 0 := by
      intro s' hs'
      unfold endPreviousReign at hs'
      cases hold : oldChampionID with
      | none =>
        rw [hold] at hs' h2
        simp only [Option.some.injEq] at hs'
        subst hs'
        rcases h2 with h | h | ⟨o, h, _⟩
        · cases h
        · exact h
        · cases h
      | some old =>
        rw [hold] at hs' h2 hsame
        have hne : old ≠ newChampionID := fun h => hsame (by rw [h])
        simp only [hne, ne_eq, not_false_eq_true, if_true] at hs'
        cases hc : closeFirstOpen old now store with
        | none =>
          rw [hc] at hs'
          simp only [Option.some.injEq] at hs'
          subst hs'
          rcases h2 with h | h | ⟨o, h, hall⟩
          · exact absurd h hsame
          · exact h
          · simp only [Option.some.injEq] at h
            subst h
            apply openCount_eq_zero
            intro r hr hE
            exact closeFirstOpen_none old now store hc r hr ⟨hall r hr hE, hE⟩
        | some closed =>
          rw [hc] at hs'
          have hcount := closeFirstOpen_some old now store closed hc
          by_cases hsf : saveFails = true
          · simp [hsf] at hs'
          · simp only [hsf, Bool.false_eq_true, if_false, Option.some.injEq] at hs'
            subst hs'
            omega
    cases he : endPreviousReign saveFails now store newChampionID oldChampionID with
    | none => exact h1
    | some s' =>
      have hz : openCount s' = 0 := key s' he
      by_cases hcf : createFails = true
      · simp only [hcf, if_true]
        omega
      · simp only [hcf, Bool.false_eq_true, if_false]
        rw [openCount_append_open]
        omega

/-- C14 (amended), at a concrete input: the open reign of player 5 is
closed and player 7 opens the next one. -/
theorem C14_track_keeps_at_most_one_open_witness :
    openCount (TrackChampionshipChange false false 10 [⟨5, 0, none⟩] 7 (some 5)).reigns ≤ 1 :=
  C14_track_keeps_at_most_one_open false false 10 [⟨5, 0, none⟩] 7 (some 5) (by decide)
    (Or.inr (Or.inr ⟨5, rfl, by decide⟩))

/-- C15. When `oldChampionID` is present, differs from `newChampionID`, and
an open reign of `oldChampionID` exists, a successful call of
`TrackChampionshipChange` at time `t` sets the `EndedAt` of that reign (the
first such row) to `t` and adds one new reign with `PlayerID = newChampionID`,
`StartedAt = t` and absent `EndedAt`; every other reign is left unchanged. -/
theorem C15_track_closes_old_and_opens_new (saveFails createFails : Bool) (t : Int)
    (store : List ChampionshipReign) (newChampionID old : Nat)
    (hne : old ≠ newChampionID)
    (hopen : ∃ r ∈ store, r.PlayerID = old ∧ r.EndedAt = none)
    (hok : (TrackChampionshipChange saveFails createFails t store newChampionID
      (some old)).err = false) :
    ∃ pre r post, store = pre ++ r :: post ∧ r.PlayerID = old ∧ r.EndedAt = none ∧
      (∀ x ∈ pre, ¬ (x.PlayerID = old ∧ x.EndedAt = none)) ∧
      (TrackChampionshipChange saveFails createFails t store newChampionID (some old)).reigns
        = pre ++ { PlayerID := old, StartedAt := r.StartedAt, EndedAt := some t } :: post
            ++ [{ PlayerID := newChampionID, StartedAt := t, EndedAt := none }] := by
  obtain ⟨pre, r, post, hs, h1, h2, h3, h4⟩ := closeFirstOpen_split old t store hopen
  refine ⟨pre, r, post, hs, h1, h2, h3, ?_⟩
  have hsame : ¬ (some old = some newChampionID) := fun h => hne (Option.some.inj h)
  unfold TrackChampionshipChange at hok ⊢
  rw [if_neg hsame] at hok ⊢
  unfold endPreviousReign at hok ⊢
  simp only [hne, ne_eq, not_false_eq_true, if_true, h4] at hok ⊢
  by_cases hsf : saveFails = true
  · simp [hsf] at hok
  · simp only [hsf, Bool.false_eq_true, if_false] at hok ⊢
    by_cases hcf : createFails = true
    · simp [hcf] at hok
    · simp only [hcf, Bool.false_eq_true, if_false, h1, List.append_assoc, List.cons_append]

/-- C15, at a concrete input: player 5 holds the open reign and player 7
takes over at time 10. -/
theorem C15_track_closes_old_and_opens_new_witness :
    ∃ pre r post, [(⟨3, 0, some 4⟩ : ChampionshipReign), ⟨5, 4, none⟩] = pre ++ r :: post ∧
      r.PlayerID = 5 ∧ r.EndedAt = none ∧
      (∀ x ∈ pre, ¬ (x.PlayerID = 5 ∧ x.EndedAt = none)) ∧
      (TrackChampionshipChange false false 10 [⟨3, 0, some 4⟩, ⟨5, 4, none⟩] 7 (some 5)).reigns
        = pre ++ { PlayerID := 5, StartedAt := r.StartedAt, EndedAt := some 10 } :: post
            ++ [{ PlayerID := 7, StartedAt := 10, EndedAt := none }] :=
  C15_track_closes_old_and_opens_new false false 10 [⟨3, 0, some 4⟩, ⟨5, 4, none⟩] 7 5
    (by decide) ⟨⟨5, 4, none⟩, by decide, rfl, rfl⟩ (by decide)

/-- C16 (counterexample). With an absent previous leader and the current
leader 0 (the zero value that the code base reads as an identifier that is
not provided), the call is not a no-op: a reign of player 0 is created, or,
if the table refuses the row, an error is returned. -/
theorem C16_track_absent_leaders_not_noop :
    TrackChampionshipChange false false 10 [] 0 none
      = { err := false, reigns := [{ PlayerID := 0, StartedAt := 10, EndedAt := none }] } ∧
    TrackChampionshipChange false false 10 [] 0 none ≠ { err := false, reigns := [] } ∧
    TrackChampionshipChange false true 10 [] 0 none ≠ { err := false, reigns := [] } := by
  decide

/-- C16 (amended). Whenever the previous leader is present and equals the
current leader, `TrackChampionshipChange` returns without error and leaves
the set of reigns unchanged: no reign is closed and none is created.  When
the previous leader is absent the call is never a no-op: it creates an open
reign for `newChampionID`, or returns the error of the failed write. -/
theorem C16_track_same_leader_is_noop (saveFails createFails : Bool) (now : Int)
    (store : List ChampionshipReign) (newChampionID : Nat) :
    TrackChampionshipChange saveFails createFails now store newChampionID (some newChampionID)
      = { err := false, reigns := store } ∧
    TrackChampionshipChange saveFails false now store newChampionID none
      = { err := false,
          reigns := store ++ [{ PlayerID := newChampionID, StartedAt := now, EndedAt := none }] } ∧
    TrackChampionshipChange saveFails true now store newChampionID none
      = { err := true, reigns := store } := by
  refine ⟨?_, ?_, ?_⟩
  · simp [TrackChampionshipChange]
  · simp [TrackChampionshipChange, endPreviousReign]
  · simp [TrackChampionshipChange, endPreviousReign]

/-- C17. `GetCurrentChampion` fails, and the handler answers 404 Not Found,
if and only if no reign has an absent end timestamp; otherwise the handler
answers 200 with a reign of the table whose `EndedAt` is absent and whose
`StartedAt` is the latest among the open reigns, with `Days` set to
`CalculateDays` of that reign. -/
theorem C17_GetCurrentChampion_open_reign (now : Int) (store : List ChampionshipReign) :
    (GetCurrentChampion now store = none ↔ ∀ r ∈ store, r.EndedAt ≠ none) ∧
    ((GetCurrentChampionHandler now store).1 = 404 ↔ ∀ r ∈ store, r.EndedAt ≠ none) ∧
    (∀ reign days, GetCurrentChampion now store = some (reign, days) →
      reign ∈ store ∧ reign.EndedAt = none ∧
      (∀ r ∈ store, r.EndedAt = none → r.StartedAt ≤ reign.StartedAt) ∧
      days = CalculateDays now reign ∧
      GetCurrentChampionHandler now store = (200, some (reign, days))) := by
  have hnone : GetCurrentChampion now store = none ↔ ∀ r ∈ store, r.EndedAt ≠ none := by
    rw [← firstOpenByStartDesc_none]
    unfold GetCurrentChampion
    cases firstOpenByStartDesc store <;> simp
  refine ⟨hnone, ?_, ?_⟩
  · rw [← hnone]
    unfold GetCurrentChampionHandler
    cases GetCurrentChampion now store <;> simp
  · intro reign days h
    have hh : GetCurrentChampionHandler now store = (200, some (reign, days)) := by
      unfold GetCurrentChampionHandler
      rw [h]
    unfold GetCurrentChampion at h
    cases hb : firstOpenByStartDesc store with
    | none => rw [hb] at h; cases h
    | some best =>
      rw [hb] at h
      simp only [Option.some.injEq, Prod.mk.injEq] at h
      obtain ⟨h1, h2⟩ := h
      subst h1
      obtain ⟨a, b, c⟩ := firstOpenByStartDesc_some store best hb
      exact ⟨a, b, c, h2.symm, hh⟩

theorem timeSub_of_mem (t u : Int) (h1 : minDuration ≤ t - u) (h2 : t - u ≤ maxDuration) :
    timeSub t u = t - u := by
  unfold timeSub
  rw [min_eq_right h2, max_eq_right h1]

/-- The binary64 number of days of a duration: `Hours() / 24`. -/
theorem CalculateDays_eq (now : Int) (c : ChampionshipReign) :
    CalculateDays now c
      = floatToInt (fdiv (durationHours (timeSub (c.EndedAt.getD now) c.StartedAt)) 24) := by
  unfold CalculateDays
  cases c.EndedAt <;> rfl

/-- The hours and the remaining nanoseconds of a non-negative duration that
fits a `time.Duration`. -/
theorem hours_split (d : Int) (h0 : 0 ≤ d) (hle : d ≤ maxDuration) :
    0 ≤ Int.tdiv d 3600000000000 ∧ Int.tdiv d 3600000000000 < 2 ^ 22 ∧
    0 ≤ Int.tmod d 3600000000000 ∧ Int.tmod d 3600000000000 < 3600000000000 ∧
    3600000000000 * Int.tdiv d 3600000000000 + Int.tmod d 3600000000000 = d := by
  have hmax : maxDuration = 2 ^ 63 - 1 := rfl
  rw [Int.tdiv_eq_ediv h0 (by norm_num), Int.tmod_eq_emod h0 (by norm_num)]
  have h1 := Int.emod_nonneg d (by norm_num : (3600000000000 : Int) ≠ 0)
  have h2 := Int.emod_lt_of_pos d (by norm_num : (0 : Int) < 3600000000000)
  have h3 := Int.ediv_add_emod d 3600000000000
  refine ⟨by omega, by omega, h1, h2, h3⟩

/-- The binary64 hours of a non-negative duration: at least the whole hours,
at most the whole hours plus one, and at most the exact hours times
`(1 + 2^-53)^2`. -/
theorem durationHours_bounds (d : Int) (h0 : 0 ≤ d) (hle : d ≤ maxDuration) :
    ((Int.tdiv d 3600000000000 : Int) : ℚ) ≤ durationHours d ∧
    durationHours d ≤ ((Int.tdiv d 3600000000000 + 1 : Int) : ℚ) ∧
    durationHours d ≤ (d : ℚ) / 3600000000000 * ((1 + 1 / 2 ^ 53) * (1 + 1 / 2 ^ 53)) := by
  obtain ⟨a1, a2, a3, a4, a5⟩ := hours_split d h0 hle
  unfold durationHours
  simp only []
  generalize Int.tdiv d 3600000000000 = h at *
  generalize Int.tmod d 3600000000000 = n at *
  unfold fadd fdiv ofInt
  have eh : rne (h : ℚ) = (h : ℚ) := rne_intCast h (by rw [abs_of_nonneg a1]; omega)
  have en : rne (n : ℚ) = (n : ℚ) := rne_intCast n (by rw [abs_of_nonneg a3]; omega)
  have eh1 : rne ((h + 1 : Int) : ℚ) = ((h + 1 : Int) : ℚ) :=
    rne_intCast (h + 1) (by rw [abs_of_nonneg (by omega)]; omega)
  rw [eh, en]
  have hq : (0 : ℚ) ≤ (h : ℚ) := by exact_mod_cast a1
  have nq0 : (0 : ℚ) ≤ (n : ℚ) := by exact_mod_cast a3
  have nq1 : (n : ℚ) ≤ 3600000000000 := by exact_mod_cast (le_of_lt a4)
  have hx0 : (0 : ℚ) ≤ (n : ℚ) / 3600000000000 := div_nonneg nq0 (by norm_num)
  have hx1 : (n : ℚ) / 3600000000000 ≤ 1 := by
    rw [div_le_one (by norm_num)]
    exact nq1
  have hf0 : 0 ≤ rne ((n : ℚ) / 3600000000000) := rne_nonneg hx0
  have hf1 : rne ((n : ℚ) / 3600000000000) ≤ 1 := rne_le_of_le hx1 rne_one
  have hf2 := rne_le_mul hx0
  have hsum := rne_le_mul (by linarith : (0 : ℚ) ≤ (h : ℚ) + rne ((n : ℚ) / 3600000000000))
  have hd : (d : ℚ) / 3600000000000 = (h : ℚ) + (n : ℚ) / 3600000000000 := by
    rw [← a5]
    push_cast
    field_simp
    ring
  refine ⟨?_, ?_, ?_⟩
  · exact le_rne_of_le (by linarith) eh
  · apply rne_le_of_le _ eh1
    push_cast
    linarith
  · rw [hd]
    generalize rne ((h : ℚ) + rne ((n : ℚ) / 3600000000000)) = s at hsum ⊢
    generalize rne ((n : ℚ) / 3600000000000) = f at hf0 hf1 hf2 hsum
    generalize (n : ℚ) / 3600000000000 = x at hx0 hx1 hf2 ⊢
    norm_num at hf2 hsum ⊢
    linarith

/-- C18 (counterexample). A reign that starts one hour after `now` and has
no end: the duration is minus one hour, `CalculateDays` returns 0, and the
number of whole days rounded down is -1.  A reign that ended one nanosecond
before its 171st day was complete: `Duration.Hours` returns exactly 4104.0,
`CalculateDays` returns 171, and the number of whole days rounded down is
170. -/
theorem C18_CalculateDays_not_floor :
    CalculateDays 0 { PlayerID := 1, StartedAt := 3600000000000, EndedAt := none } = 0 ∧
    daysFloor (0 - 3600000000000) = -1 ∧
    CalculateDays 0 { PlayerID := 1, StartedAt := 0, EndedAt := some 14774399999999999 } = 171 ∧
    daysFloor (14774399999999999 - 0) = 170 := by
  refine ⟨?_, ?_, ?_, ?_⟩
  · have h : timeSub 0 3600000000000 = -3600000000000 := by decide
    have h1 : Int.tdiv (-3600000000000) 3600000000000 = -1 := by decide
    have h2 : Int.tmod (-3600000000000) 3600000000000 = 0 := by decide
    simp only [CalculateDays, h, durationHours, h1, h2]
    simp only [fadd, fdiv, ofInt, Int.cast_ofNat, Int.cast_one, Int.cast_zero, Int.cast_neg]
    have e1 : rne (-1 : ℚ) = -1 := by rw [rne_neg, rne_one]
    have e2 : rne ((0 : ℚ) / 3600000000000) = 0 := by rw [zero_div, rne_zero]
    have e3 : rne (-1 + 0 : ℚ) = -1 := by rw [add_zero, rne_neg, rne_one]
    have e4 : rne (-1 / 24 : ℚ) = -6004799503160661 / 144115188075855872 :=
      rne_eval_neg _ _ (-5) (6004799503160661) (by norm_num) (by norm_num) (by norm_num) (by norm_num) (by norm_num)
    rw [rne_zero, e1, e2, e3, e4]
    unfold floatToInt
    rw [if_neg (by norm_num), Int.ceil_eq_iff]
    norm_num
  · unfold daysFloor
    rw [Int.floor_eq_iff]
    norm_num
  · have h : timeSub 14774399999999999 0 = 14774399999999999 := by decide
    have h1 : Int.tdiv 14774399999999999 3600000000000 = 4103 := by decide
    have h2 : Int.tmod 14774399999999999 3600000000000 = 3599999999999 := by decide
    simp only [CalculateDays, h, durationHours, h1, h2]
    simp only [fadd, fdiv, ofInt, Int.cast_ofNat, Int.cast_one, Int.cast_zero, Int.cast_neg]
    have e1 : rne (4103 : ℚ) = 4103 := by
      have := rne_intCast 4103 (by norm_num)
      simpa using this
    have e2 : rne (3599999999999 : ℚ) = 3599999999999 := by
      have := rne_intCast 3599999999999 (by norm_num)
      simpa using this
    have e3 : rne (3599999999999 / 3600000000000 : ℚ) = 4503599627369245 / 4503599627370496 :=
      rne_eval _ _ (-1) (9007199254738490) (by norm_num) (by norm_num) (by norm_num) (by norm_num) (by norm_num)
    have e4 : rne (4103 + 4503599627369245 / 4503599627370496 : ℚ) = 4104 :=
      rne_eval _ _ (12) (4512395720392704) (by norm_num) (by norm_num) (by norm_num) (by norm_num) (by norm_num)
    have e5 : rne (4104 / 24 : ℚ) = 171 :=
      rne_exact _ _ (6016527627190272) (-45) (by norm_num) (by norm_num) (by norm_num)
    rw [e1, e2, e3, e4, e5]
    unfold floatToInt
    rw [if_pos (by norm_num)]
    exact Int.floor_eq_iff.mpr ⟨by norm_num, by norm_num⟩
  · unfold daysFloor
    rw [Int.floor_eq_iff]
    norm_num

/-- The binary64 day count of a non-negative duration that fits a
`time.Duration`: the whole days rounded down or one more, and the whole days
rounded down when the duration is not within 0.1 milliseconds below a whole
number of days. -/
theorem whole_days_of_nonneg (d : Int) (h0 : 0 ≤ d) (hle : d ≤ maxDuration) :
    daysFloor d ≤ floatToInt (fdiv (durationHours d) 24) ∧
    floatToInt (fdiv (durationHours d) 24) ≤ daysFloor d + 1 ∧
    (d % 86400000000000 + 100000 ≤ 86400000000000 →
      floatToInt (fdiv (durationHours d) 24) = daysFloor d) := by
  have hmaxv : maxDuration = 2 ^ 63 - 1 := rfl
  obtain ⟨a1, a2, a3, a4, a5⟩ := hours_split d h0 hle
  obtain ⟨b1, b2, b3⟩ := durationHours_bounds d h0 hle
  -- the whole days
  have hk : daysFloor d = d / 86400000000000 := by
    unfold daysFloor
    rw [Int.floor_eq_iff]
    have e1 := Int.emod_nonneg d (by norm_num : (86400000000000 : Int) ≠ 0)
    have e2 := Int.emod_lt_of_pos d (by norm_num : (0 : Int) < 86400000000000)
    have e3 := Int.ediv_add_emod d 86400000000000
    have hq : (d : ℚ) = 86400000000000 * ((d / 86400000000000 : Int) : ℚ)
        + ((d % 86400000000000 : Int) : ℚ) := by
      exact_mod_cast e3.symm
    have r0 : (0 : ℚ) ≤ ((d % 86400000000000 : Int) : ℚ) := by exact_mod_cast e1
    have r1 : ((d % 86400000000000 : Int) : ℚ) < 86400000000000 := by exact_mod_cast e2
    constructor
    · rw [le_div_iff₀ (by norm_num)]
      linarith
    · rw [div_lt_iff₀ (by norm_num)]
      linarith
  have e1 := Int.emod_nonneg d (by norm_num : (86400000000000 : Int) ≠ 0)
  have e2 := Int.emod_lt_of_pos d (by norm_num : (0 : Int) < 86400000000000)
  have e3 := Int.ediv_add_emod d 86400000000000
  rw [hk]
  generalize d / 86400000000000 = k at e3 ⊢
  generalize d % 86400000000000 = r at e1 e2 e3 ⊢
  generalize Int.tdiv d 3600000000000 = h at a1 a2 a5 b1 b2
  generalize Int.tmod d 3600000000000 = n at a3 a4 a5
  have hk0 : 0 ≤ k := by omega
  have hk1 : k < 2 ^ 17 := by omega
  -- 24 k <= h < 24 (k + 1)
  have c1 : 24 * k ≤ h := by omega
  have c2 : h + 1 ≤ 24 * (k + 1) := by omega
  have ek : rne ((k : Int) : ℚ) = ((k : Int) : ℚ) :=
    rne_intCast k (by rw [abs_of_nonneg hk0]; omega)
  have ek1 : rne ((k + 1 : Int) : ℚ) = ((k + 1 : Int) : ℚ) :=
    rne_intCast (k + 1) (by rw [abs_of_nonneg (by omega)]; omega)
  have q0 : ((k : Int) : ℚ) ≤ fdiv (durationHours d) 24 := by
    unfold fdiv
    apply le_rne_of_le _ ek
    rw [le_div_iff₀ (by norm_num)]
    have : ((24 * k : Int) : ℚ) ≤ (h : ℚ) := by exact_mod_cast c1
    push_cast at this
    linarith
  have q1 : fdiv (durationHours d) 24 ≤ ((k + 1 : Int) : ℚ) := by
    unfold fdiv
    apply rne_le_of_le _ ek1
    rw [div_le_iff₀ (by norm_num)]
    have : ((h + 1 : Int) : ℚ) ≤ ((24 * (k + 1) : Int) : ℚ) := by exact_mod_cast c2
    push_cast at this b2 ⊢
    linarith
  have hkq : (0 : ℚ) ≤ ((k : Int) : ℚ) := by exact_mod_cast hk0
  have hpos : (0 : ℚ) ≤ fdiv (durationHours d) 24 := le_trans hkq q0
  unfold floatToInt
  rw [if_pos hpos]
  refine ⟨Int.le_floor.mpr q0, ?_, ?_⟩
  · have := Int.floor_le (fdiv (durationHours d) 24)
    have h2 : ((⌊fdiv (durationHours d) 24⌋ : Int) : ℚ) ≤ ((k + 1 : Int) : ℚ) := le_trans this q1
    exact_mod_cast h2
  · intro hr
    rw [Int.floor_eq_iff]
    refine ⟨q0, ?_⟩
    -- the quotient stays below k + 1
    have hd0 : (0 : ℚ) ≤ (d : ℚ) := by exact_mod_cast h0
    have hdq : (d : ℚ) + 100000 ≤ 86400000000000 * ((k : Int) : ℚ) + 86400000000000 := by
      have : d + 100000 ≤ 86400000000000 * k + 86400000000000 := by omega
      exact_mod_cast this
    have hH0 : 0 ≤ durationHours d := le_trans (by exact_mod_cast a1) b1
    have hx : (0 : ℚ) ≤ durationHours d / 24 := div_nonneg hH0 (by norm_num)
    have hq := rne_le_mul hx
    unfold fdiv
    have hkb : ((k : Int) : ℚ) < 2 ^ 17 := by exact_mod_cast hk1
    generalize rne (durationHours d / 24) = q at hq ⊢
    generalize durationHours d = hs at hq b3
    have hD : (d : ℚ) / 3600000000000 * 3600000000000 = (d : ℚ) := by field_simp
    generalize (d : ℚ) / 3600000000000 = X at b3 hD
    norm_num at hq b3 hkb hdq ⊢
    linarith

/-- The binary64 hours of the opposite duration are the opposite hours. -/
theorem durationHours_neg (d : Int) : durationHours (-d) = -durationHours d := by
  unfold durationHours
  simp only []
  have h1 : Int.tdiv (-d) 3600000000000 = -Int.tdiv d 3600000000000 := Int.neg_tdiv d _
  have h2 : Int.tmod (-d) 3600000000000 = -Int.tmod d 3600000000000 := by
    have a := Int.tmod_add_tdiv (-d) 3600000000000
    have b := Int.tmod_add_tdiv d 3600000000000
    rw [h1] at a
    omega
  rw [h1, h2]
  unfold fadd fdiv ofInt
  push_cast
  rw [rne_neg, rne_neg, neg_div, rne_neg, ← neg_add, rne_neg]

theorem floatToInt_neg (x : ℚ) : floatToInt (-x) = -floatToInt x := by
  unfold floatToInt
  rcases lt_trichotomy x 0 with h | h | h
  · rw [if_pos (by linarith), if_neg (by linarith), Int.floor_neg]
  · subst h
    simp
  · rw [if_neg (by linarith), if_pos (by linarith), Int.ceil_neg]

/-- The day count of the opposite duration is the opposite day count. -/
theorem whole_days_neg (d : Int) :
    floatToInt (fdiv (durationHours (-d)) 24) = -floatToInt (fdiv (durationHours d) 24) := by
  rw [durationHours_neg]
  unfold fdiv
  rw [neg_div, rne_neg, floatToInt_neg]

/-- C18 (amended). For every reign and every current time `now` such that
the duration `(EndedAt if present, else now) - StartedAt` is non-negative and
fits a `time.Duration` (at most 2^63 - 1 nanoseconds, about 292 years),
`CalculateDays` returns the number of whole days rounded down, or that
number plus one; it returns the number of whole days rounded down whenever
the duration is not within 0.1 milliseconds below a whole number of days.
For a negative duration (not below -(2^63 - 1) nanoseconds) it returns the
opposite of what it returns for the opposite duration: the quotient is
rounded towards zero, not down. -/
theorem C18_CalculateDays_floor_up_to_rounding (now : Int) (c : ChampionshipReign) :
    (0 ≤ c.EndedAt.getD now - c.StartedAt → c.EndedAt.getD now - c.StartedAt ≤ maxDuration →
      daysFloor (c.EndedAt.getD now - c.StartedAt) ≤ CalculateDays now c ∧
      CalculateDays now c ≤ daysFloor (c.EndedAt.getD now - c.StartedAt) + 1 ∧
      ((c.EndedAt.getD now - c.StartedAt) % 86400000000000 + 100000 ≤ 86400000000000 →
        CalculateDays now c = daysFloor (c.EndedAt.getD now - c.StartedAt))) ∧
    (c.EndedAt.getD now - c.StartedAt < 0 → -maxDuration ≤ c.EndedAt.getD now - c.StartedAt →
      -daysFloor (-(c.EndedAt.getD now - c.StartedAt)) - 1 ≤ CalculateDays now c ∧
      CalculateDays now c ≤ -daysFloor (-(c.EndedAt.getD now - c.StartedAt)) ∧
      ((-(c.EndedAt.getD now - c.StartedAt)) % 86400000000000 + 100000 ≤ 86400000000000 →
        CalculateDays now c = -daysFloor (-(c.EndedAt.getD now - c.StartedAt)))) := by
  have hmin : minDuration < 0 := by decide
  have hmaxv : maxDuration = 2 ^ 63 - 1 := rfl
  have hminv : minDuration = -2 ^ 63 := rfl
  constructor
  · intro h0 hle
    rw [CalculateDays_eq, timeSub_of_mem _ _ (by omega) hle]
    exact whole_days_of_nonneg _ h0 hle
  · intro h0 hge
    rw [CalculateDays_eq, timeSub_of_mem _ _ (by omega) (by omega)]
    generalize c.EndedAt.getD now - c.StartedAt = d at h0 hge ⊢
    obtain ⟨p1, p2, p3⟩ := whole_days_of_nonneg (-d) (by omega) (by omega)
    rw [whole_days_neg] at p1 p2 p3
    refine ⟨by omega, by omega, fun h => ?_⟩
    have := p3 h
    omega

/-- C18 (amended), at a concrete input: a reign closed after 49 hours
lasted 2 whole days. -/
theorem C18_CalculateDays_floor_up_to_rounding_witness :
    (0 : Int) ≤ (some 176400000000000 : Option Int).getD 0 - 0 ∧
    (some 176400000000000 : Option Int).getD 0 - 0 ≤ maxDuration ∧
    ((some 176400000000000 : Option Int).getD 0 - 0) % 86400000000000 + 100000
      ≤ 86400000000000 ∧
    CalculateDays 0 { PlayerID := 1, StartedAt := 0, EndedAt := some 176400000000000 }
      = daysFloor ((some 176400000000000 : Option Int).getD 0 - 0) :=
  ⟨by decide, by decide, by decide,
    ((C18_CalculateDays_floor_up_to_rounding 0
      { PlayerID := 1, StartedAt := 0, EndedAt := some 176400000000000 }).1
      (by decide) (by decide)).2.2 (by decide)⟩

theorem openCount_zero_closed (s : List ChampionshipReign) (h : openCount s = 0) :
    ∀ r ∈ s, r.EndedAt ≠ none := by
  unfold openCount at h
  rw [List.length_eq_zero, List.filter_eq_nil_iff] at h
  intro r hr hE
  have := h r hr
  rw [hE] at this
  exact this rfl

/-- C29. If the reign store has at most one open reign and the caller's
`oldChampionID` describes it truthfully (`oldChampionID` absent and no reign
is open, or `oldChampionID` present, different from `newChampionID`, and
any open reign belongs to `oldChampionID`), then after a successful
`TrackChampionshipChange` there is exactly one open reign and it belongs to
`newChampionID`. -/
theorem C29_truthful_track_leaves_one_open_reign (saveFails createFails : Bool) (now : Int)
    (store : List ChampionshipReign) (newChampionID : Nat) (oldChampionID : Option Nat)
    (h1 : openCount store ≤ 1)
    (h2 : (oldChampionID = none ∧ openCount store = 0) ∨
      ∃ old, oldChampionID = some old ∧ old ≠ newChampionID ∧
        ∀ r ∈ store, r.EndedAt = none → r.PlayerID = old)
    (hok : (TrackChampionshipChange saveFails createFails now store newChampionID
      oldChampionID).err = false) :
    openCount (TrackChampionshipChange saveFails createFails now store newChampionID
      oldChampionID).reigns = 1 ∧
    ∀ r ∈ (TrackChampionshipChange saveFails createFails now store newChampionID
      oldChampionID).reigns, r.EndedAt = none → r.PlayerID = newChampionID := by
  have key : ∃ s, (∀ r ∈ s, r.EndedAt ≠ none) ∧
      (TrackChampionshipChange saveFails createFails now store newChampionID
        oldChampionID).reigns
        = s ++ [{ PlayerID := newChampionID, StartedAt := now, EndedAt := none }] := by
    have fin : ∀ s, endPreviousReign saveFails now store newChampionID oldChampionID = some s →
        oldChampionID ≠ some newChampionID →
        (TrackChampionshipChange saveFails createFails now store newChampionID
          oldChampionID).reigns
          = s ++ [{ PlayerID := newChampionID, StartedAt := now, EndedAt := none }] := by
      intro s hs hneq
      unfold TrackChampionshipChange at hok ⊢
      rw [if_neg hneq, hs] at hok ⊢
      by_cases hcf : createFails = true
      · simp [hcf] at hok
      · simp only [hcf, Bool.false_eq_true, if_false]
    rcases h2 with ⟨hnone, hzero⟩ | ⟨old, hold, hne, hall⟩
    · subst hnone
      refine ⟨store, openCount_zero_closed store hzero, fin store ?_ (by simp)⟩
      simp [endPreviousReign]
    · subst hold
      have hneq : some old ≠ some newChampionID := fun h => hne (Option.some.inj h)
      cases hc : closeFirstOpen old now store with
      | none =>
        refine ⟨store, ?_, fin store ?_ hneq⟩
        · intro r hr hE
          exact closeFirstOpen_none old now store hc r hr ⟨hall r hr hE, hE⟩
        · simp [endPreviousReign, hne, hc]
      | some closed =>
        have hcount := closeFirstOpen_some old now store closed hc
        have hsf : saveFails = false := by
          by_contra hsf
          have hsf' : saveFails = true := by simpa using hsf
          unfold TrackChampionshipChange at hok
          rw [if_neg hneq] at hok
          simp [endPreviousReign, hne, hc, hsf'] at hok
        refine ⟨closed, openCount_zero_closed closed (by omega), fin closed ?_ hneq⟩
        simp [endPreviousReign, hne, hc, hsf]
  obtain ⟨s, hs, hres⟩ := key
  rw [hres]
  constructor
  · rw [openCount_append_open, openCount_eq_zero s hs]
  · intro r hr hE
    rcases List.mem_append.mp hr with hr | hr
    · exact absurd hE (hs r hr)
    · rw [List.mem_singleton] at hr
      rw [hr]

/-- C29, at a concrete input: player 5 holds the open reign and is named as
the old champion when player 7 takes over. -/
theorem C29_truthful_track_leaves_one_open_reign_witness :
    openCount (TrackChampionshipChange false false 10 [⟨3, 0, some 4⟩, ⟨5, 4, none⟩] 7
      (some 5)).reigns = 1 ∧
    ∀ r ∈ (TrackChampionshipChange false false 10 [⟨3, 0, some 4⟩, ⟨5, 4, none⟩] 7
      (some 5)).reigns, r.EndedAt = none → r.PlayerID = 7 :=
  C29_truthful_track_leaves_one_open_reign false false 10 [⟨3, 0, some 4⟩, ⟨5, 4, none⟩] 7
    (some 5) (by decide) (Or.inr ⟨5, rfl, by decide, by decide⟩) (by decide)

end Championship

namespace Handlers

open Elo

/-! ## Match submission and reversal -/

theorem decr_incr (x : Int) (h : IsInt64 x) : decr (incr x) = x := by
  unfold IsInt64 at h
  unfold decr incr wrapInt64
  norm_num at h ⊢
  omega

section UpdateClaims

variable {α : Type} [LinearOrderedField α] [FloorRing α]

/-- C19. For any two distinct players (whose counters are values of the Go
type `int`) and any scores, in particular non-negative ones, applying the
player update of `SubmitMatch` and then the reversal of `DeleteMatch` to the
match record just written returns both players' `Elo`, `TotalMatches`,
`MatchesWon`, `MatchesLost` and `MatchesDrawn` to the values they had before
the submission.  The reversal takes the ratings from the record's stored
before-ratings, whatever the record, and has no access to the rating
formula. -/
theorem C19_reversal_undoes_submission (pow : α → α → α) (player1 player2 : Player α)
    (player1Score player2Score : Int) (hdistinct : player1.ID ≠ player2.ID)
    (h1 : IsInt64 player1.MatchesWon ∧ IsInt64 player1.MatchesLost ∧
      IsInt64 player1.MatchesDrawn ∧ IsInt64 player1.TotalMatches)
    (h2 : IsInt64 player2.MatchesWon ∧ IsInt64 player2.MatchesLost ∧
      IsInt64 player2.MatchesDrawn ∧ IsInt64 player2.TotalMatches) :
    reverseUpdate (submitUpdate pow player1 player2 player1Score player2Score).1
        (submitUpdate pow player1 player2 player1Score player2Score).2.1
        (submitUpdate pow player1 player2 player1Score player2Score).2.2
      = (player1, player2) ∧
    (∀ (q1 q2 : Player α) (record : Match α),
      (reverseUpdate q1 q2 record).1.Elo = record.Player1EloBefore ∧
      (reverseUpdate q1 q2 record).2.Elo = record.Player2EloBefore) := by
  obtain ⟨a1, a2, a3, a4⟩ := h1
  obtain ⟨b1, b2, b3, b4⟩ := h2
  constructor
  · cases player1 with
    | mk id1 n1 e1 w1 l1 d1 t1 =>
    cases player2 with
    | mk id2 n2 e2 w2 l2 d2 t2 =>
    simp only at hdistinct a1 a2 a3 a4 b1 b2 b3 b4
    have hd' : ¬ id2 = id1 := fun h => hdistinct h.symm
    rcases lt_trichotomy player1Score player2Score with h | h | h
    · have hn : ¬ player1Score > player2Score := not_lt.mpr h.le
      simp [submitUpdate, reverseUpdate, h, hn, hd', decr_incr, a1, a2, a3, a4, b1, b2, b3, b4]
    · subst h
      simp [submitUpdate, reverseUpdate, decr_incr, a1, a2, a3, a4, b1, b2, b3, b4]
    · have hn : ¬ player2Score > player1Score := not_lt.mpr h.le
      simp [submitUpdate, reverseUpdate, h, hn, decr_incr, a1, a2, a3, a4, b1, b2, b3, b4]
  · intro q1 q2 record
    unfold reverseUpdate
    cases record.WinnerID with
    | none => exact ⟨rfl, rfl⟩
    | some w =>
      simp only []
      split_ifs <;> exact ⟨rfl, rfl⟩

/-- C19, at a concrete input: two new players, the first wins 11 to 5. -/
theorem C19_reversal_undoes_submission_witness :
    reverseUpdate
        (submitUpdate (fun _ _ => (1 : ℚ)) ⟨1, "ann", 1000, 0, 0, 0, 0⟩
          ⟨2, "bob", 1000, 0, 0, 0, 0⟩ 11 5).1
        (submitUpdate (fun _ _ => (1 : ℚ)) ⟨1, "ann", 1000, 0, 0, 0, 0⟩
          ⟨2, "bob", 1000, 0, 0, 0, 0⟩ 11 5).2.1
        (submitUpdate (fun _ _ => (1 : ℚ)) ⟨1, "ann", 1000, 0, 0, 0, 0⟩
          ⟨2, "bob", 1000, 0, 0, 0, 0⟩ 11 5).2.2
      = (⟨1, "ann", 1000, 0, 0, 0, 0⟩, ⟨2, "bob", 1000, 0, 0, 0, 0⟩) :=
  (C19_reversal_undoes_submission (fun _ _ => (1 : ℚ)) ⟨1, "ann", 1000, 0, 0, 0, 0⟩
    ⟨2, "bob", 1000, 0, 0, 0, 0⟩ 11 5 (by decide)
    ⟨by decide, by decide, by decide, by decide⟩
    ⟨by decide, by decide, by decide, by decide⟩).1

theorem findByID_some {β : Type} (players : List (Player β)) (id : Nat) (p : Player β)
    (h : findByID players id = some p) : p.ID = id := by
  unfold findByID at h
  have := List.find?_some h
  simpa using this

theorem findByName_some {β : Type} (players : List (Player β)) (name : String) (p : Player β)
    (h : findByName players name = some p) : p.Name = name := by
  unfold findByName at h
  have := List.find?_some h
  simpa using this

theorem findOrCreate_some {β : Type} [LinearOrderedField β] (createFails : Bool) (players : List (Player β)) (name : String)
    (p : Player β) (t : List (Player β))
    (h : findOrCreate createFails players name = some (p, t)) : p.Name = name := by
  unfold findOrCreate at h
  cases hf : findByName players name with
  | some q =>
    rw [hf] at h
    simp only [Option.some.injEq, Prod.mk.injEq] at h
    rw [← h.1]
    exact findByName_some players name q hf
  | none =>
    rw [hf] at h
    by_cases hc : createFails = true
    · simp [hc] at h
    · simp only [hc, Bool.false_eq_true, if_false, Option.some.injEq, Prod.mk.injEq] at h
      rw [← h.1]

/-- The players that the server handler resolves differ, in identifier or
in name, and the request does not give the same identifier twice. -/
theorem resolvePlayers_ok {β : Type} [LinearOrderedField β] (faults : WriteFaults) (players : List (Player β))
    (req : MatchRequest) (p1 p2 : Player β) (t : List (Player β))
    (h : resolvePlayers faults players req = Except.ok (p1, p2, t)) :
    (p1.ID ≠ p2.ID ∨ p1.Name ≠ p2.Name) ∧
    ¬ (req.Player1ID = req.Player2ID ∧ req.Player1ID ≠ 0) := by
  unfold resolvePlayers at h
  by_cases hids : req.Player1ID ≠ 0 ∧ req.Player2ID ≠ 0
  · rw [if_pos hids] at h
    by_cases heq : req.Player1ID = req.Player2ID
    · rw [if_pos heq] at h
      cases h
    · rw [if_neg heq] at h
      cases h1 : findByID players req.Player1ID with
      | none => rw [h1] at h; cases h
      | some q1 =>
        rw [h1] at h
        cases h2 : findByID players req.Player2ID with
        | none => rw [h2] at h; cases h
        | some q2 =>
          rw [h2] at h
          simp only [Except.ok.injEq, Prod.mk.injEq] at h
          obtain ⟨e1, e2, _⟩ := h
          subst e1 e2
          refine ⟨Or.inl ?_, fun hc => heq hc.1⟩
          rw [findByID_some players _ _ h1, findByID_some players _ _ h2]
          exact heq
  · rw [if_neg hids] at h
    have hnot : ¬ (req.Player1ID = req.Player2ID ∧ req.Player1ID ≠ 0) := by
      intro hc
      apply hids
      exact ⟨hc.2, by rw [← hc.1]; exact hc.2⟩
    by_cases hnames : req.Player1Name ≠ "" ∧ req.Player2Name ≠ ""
    · rw [if_pos hnames] at h
      by_cases heq : req.Player1Name = req.Player2Name
      · rw [if_pos heq] at h
        cases h
      · rw [if_neg heq] at h
        cases h1 : findOrCreate faults.createPlayer1 players req.Player1Name with
        | none => rw [h1] at h; cases h
        | some r1 =>
          obtain ⟨q1, t1⟩ := r1
          rw [h1] at h
          simp only [] at h
          cases h2 : findOrCreate faults.createPlayer2 t1 req.Player2Name with
          | none => rw [h2] at h; cases h
          | some r2 =>
            obtain ⟨q2, t2⟩ := r2
            rw [h2] at h
            simp only [Except.ok.injEq, Prod.mk.injEq] at h
            obtain ⟨e1, e2, _⟩ := h
            subst e1 e2
            refine ⟨Or.inr ?_, hnot⟩
            rw [findOrCreate_some _ _ _ _ _ h1, findOrCreate_some _ _ _ _ _ h2]
            exact heq
    · rw [if_neg hnames] at h
      cases h

theorem resolvePlayers_error {β : Type} [LinearOrderedField β] (faults : WriteFaults) (players : List (Player β))
    (req : MatchRequest) (status : Nat) (t : List (Player β))
    (h : resolvePlayers faults players req = Except.error (status, t)) :
    status = 400 ∨ status = 404 ∨ status = 500 := by
  unfold resolvePlayers at h
  split_ifs at h
  · cases h; exact Or.inl rfl
  · split at h
    · cases h; exact Or.inr (Or.inl rfl)
    · split at h
      · cases h; exact Or.inr (Or.inl rfl)
      · cases h
  · cases h; exact Or.inl rfl
  · split at h
    · cases h; exact Or.inr (Or.inr rfl)
    · split at h
      · cases h; exact Or.inr (Or.inr rfl)
      · cases h
  · cases h; exact Or.inl rfl

theorem computeAndStore_eloCall (pow : α → α → α) (faults : WriteFaults)
    (players : List (Player α)) (p1 p2 : Player α) (s1 s2 : Int) :
    (computeAndStore pow faults players p1 p2 s1 s2).eloCall = some (p1, p2, s1, s2) := by
  unfold computeAndStore
  split_ifs <;> rfl

/-- C20 (counterexample). On the server handler, a request with a negative
score that names two different players by identifier, the first of which does
not exist, is answered 404 Not Found, not 400; and a request that leaves both
identifiers at 0 and names two players is accepted with status 201, although
its two identifiers are equal. -/
theorem C20_server_answers_404_before_score_check :
    (SubmitMatch (fun _ _ => (1 : ℚ)) ⟨false, false, false, false, false⟩ []
        ⟨1, 2, "", "", -1, 0⟩).status = 404 ∧
    (SubmitMatch (fun _ _ => (1 : ℚ)) ⟨false, false, false, false, false⟩ []
        ⟨0, 0, "ann", "bob", 1, 0⟩).status = 201 := by
  constructor
  · rfl
  · rfl

/-- C20 (amended). `SubmitMatch` rejects, without calling `CalculateElo` and
without creating a match record, every request in which a score is negative
or in which the two player identifiers are provided (non-zero) and equal.
The server handler answers 400 to such a request when the identifiers are
equal, and when a score is negative and both identifiers name existing
players; otherwise the answer is the 404 or 500 of a failed lookup or
creation of a player, or 400.  The earlier handler answers 400 to every
request with a negative score or two equal identifiers and leaves the table
unchanged.  Hence `CalculateElo` is only ever invoked with two non-negative
scores and two different players. -/
theorem C20_submit_rejects_invalid_requests (pow : α → α → α) (faults : WriteFaults)
    (players : List (Player α)) (req : MatchRequest) (lreq : LegacyMatchRequest) :
    ((req.Player1Score < 0 ∨ req.Player2Score < 0 ∨
        (req.Player1ID = req.Player2ID ∧ req.Player1ID ≠ 0)) →
      (SubmitMatch pow faults players req).eloCall = none ∧
      (SubmitMatch pow faults players req).created = none ∧
      ((SubmitMatch pow faults players req).status = 400 ∨
        (SubmitMatch pow faults players req).status = 404 ∨
        (SubmitMatch pow faults players req).status = 500)) ∧
    ((req.Player1ID = req.Player2ID ∧ req.Player1ID ≠ 0) →
      (SubmitMatch pow faults players req).status = 400 ∧
      (SubmitMatch pow faults players req).players = players) ∧
    ((req.Player1Score < 0 ∨ req.Player2Score < 0) →
      req.Player1ID ≠ 0 → req.Player2ID ≠ 0 →
      (findByID players req.Player1ID).isSome = true →
      (findByID players req.Player2ID).isSome = true →
      (SubmitMatch pow faults players req).status = 400 ∧
      (SubmitMatch pow faults players req).players = players) ∧
    (∀ p1 p2 s1 s2, (SubmitMatch pow faults players req).eloCall = some (p1, p2, s1, s2) →
      0 ≤ s1 ∧ 0 ≤ s2 ∧ (p1.ID ≠ p2.ID ∨ p1.Name ≠ p2.Name)) ∧
    ((lreq.Player1Score < 0 ∨ lreq.Player2Score < 0 ∨ lreq.Player1ID = lreq.Player2ID) →
      (LegacySubmitMatch pow faults players lreq).status = 400 ∧
      (LegacySubmitMatch pow faults players lreq).eloCall = none ∧
      (LegacySubmitMatch pow faults players lreq).created = none ∧
      (LegacySubmitMatch pow faults players lreq).players = players) ∧
    (∀ p1 p2 s1 s2,
      (LegacySubmitMatch pow faults players lreq).eloCall = some (p1, p2, s1, s2) →
      0 ≤ s1 ∧ 0 ≤ s2 ∧ p1.ID ≠ p2.ID) := by
  refine ⟨?_, ?_, ?_, ?_, ?_, ?_⟩
  · intro hbad
    unfold SubmitMatch
    cases hr : resolvePlayers faults players req with
    | error e =>
      obtain ⟨st, t⟩ := e
      exact ⟨rfl, rfl, resolvePlayers_error faults players req st t hr⟩
    | ok r =>
      obtain ⟨p1, p2, t⟩ := r
      have hok := resolvePlayers_ok faults players req p1 p2 t hr
      have hneg : req.Player1Score < 0 ∨ req.Player2Score < 0 := by
        rcases hbad with h | h | h
        · exact Or.inl h
        · exact Or.inr h
        · exact absurd h hok.2
      dsimp only
      rw [if_pos hneg]
      exact ⟨rfl, rfl, Or.inl rfl⟩
  · intro hsame
    have hids : req.Player1ID ≠ 0 ∧ req.Player2ID ≠ 0 :=
      ⟨hsame.2, by rw [← hsame.1]; exact hsame.2⟩
    have hr : resolvePlayers faults players req = Except.error (400, players) := by
      unfold resolvePlayers
      rw [if_pos hids, if_pos hsame.1]
    unfold SubmitMatch
    rw [hr]
    exact ⟨rfl, rfl⟩
  · intro hneg h1 h2 hf1 hf2
    obtain ⟨q1, hq1⟩ := Option.isSome_iff_exists.mp hf1
    obtain ⟨q2, hq2⟩ := Option.isSome_iff_exists.mp hf2
    unfold SubmitMatch
    by_cases heq : req.Player1ID = req.Player2ID
    · have hr : resolvePlayers faults players req = Except.error (400, players) := by
        unfold resolvePlayers
        rw [if_pos ⟨h1, h2⟩, if_pos heq]
      rw [hr]
      exact ⟨rfl, rfl⟩
    · have hr : resolvePlayers faults players req = Except.ok (q1, q2, players) := by
        unfold resolvePlayers
        rw [if_pos ⟨h1, h2⟩, if_neg heq, hq1, hq2]
      rw [hr]
      dsimp only
      rw [if_pos hneg]
      exact ⟨rfl, rfl⟩
  · intro p1 p2 s1 s2 h
    unfold SubmitMatch at h
    cases hr : resolvePlayers faults players req with
    | error e =>
      obtain ⟨st, t⟩ := e
      rw [hr] at h
      cases h
    | ok r =>
      obtain ⟨q1, q2, t⟩ := r
      rw [hr] at h
      have hok := resolvePlayers_ok faults players req q1 q2 t hr
      by_cases hneg : req.Player1Score < 0 ∨ req.Player2Score < 0
      · simp only [hneg, if_true] at h
        cases h
      · simp only [hneg, if_false, computeAndStore_eloCall, Option.some.injEq,
          Prod.mk.injEq] at h
        obtain ⟨e1, e2, e3, e4⟩ := h
        subst e1 e2 e3 e4
        rw [not_or] at hneg
        exact ⟨not_lt.mp hneg.1, not_lt.mp hneg.2, hok.1⟩
  · intro hbad
    unfold LegacySubmitMatch
    by_cases heq : lreq.Player1ID = lreq.Player2ID
    · rw [if_pos heq]
      exact ⟨rfl, rfl, rfl, rfl⟩
    · rw [if_neg heq]
      have hneg : lreq.Player1Score < 0 ∨ lreq.Player2Score < 0 := by
        rcases hbad with h | h | h
        · exact Or.inl h
        · exact Or.inr h
        · exact absurd h heq
      rw [if_pos hneg]
      exact ⟨rfl, rfl, rfl, rfl⟩
  · intro p1 p2 s1 s2 h
    unfold LegacySubmitMatch at h
    by_cases heq : lreq.Player1ID = lreq.Player2ID
    · rw [if_pos heq] at h
      cases h
    · rw [if_neg heq] at h
      by_cases hneg : lreq.Player1Score < 0 ∨ lreq.Player2Score < 0
      · rw [if_pos hneg] at h
        cases h
      · rw [if_neg hneg] at h
        cases h1 : findByID players lreq.Player1ID with
        | none => rw [h1] at h; cases h
        | some q1 =>
          rw [h1] at h
          cases h2 : findByID players lreq.Player2ID with
          | none => rw [h2] at h; cases h
          | some q2 =>
            rw [h2] at h
            simp only [computeAndStore_eloCall, Option.some.injEq, Prod.mk.injEq] at h
            obtain ⟨e1, e2, e3, e4⟩ := h
            subst e1 e2 e3 e4
            rw [not_or] at hneg
            refine ⟨not_lt.mp hneg.1, not_lt.mp hneg.2, ?_⟩
            rw [findByID_some players _ _ h1, findByID_some players _ _ h2]
            exact heq

/-- C20 (amended), at a concrete input: a request with a negative score for
two existing players is answered 400 by the server handler. -/
theorem C20_submit_rejects_invalid_requests_witness :
    (SubmitMatch (fun _ _ => (1 : ℚ)) ⟨false, false, false, false, false⟩
        [⟨1, "ann", 1000, 0, 0, 0, 0⟩, ⟨2, "bob", 1000, 0, 0, 0, 0⟩]
        ⟨1, 2, "", "", -1, 0⟩).eloCall = none ∧
    (SubmitMatch (fun _ _ => (1 : ℚ)) ⟨false, false, false, false, false⟩
        [⟨1, "ann", 1000, 0, 0, 0, 0⟩, ⟨2, "bob", 1000, 0, 0, 0, 0⟩]
        ⟨1, 2, "", "", -1, 0⟩).status = 400 :=
  ⟨((C20_submit_rejects_invalid_requests (fun _ _ => (1 : ℚ))
      ⟨false, false, false, false, false⟩
      [⟨1, "ann", 1000, 0, 0, 0, 0⟩, ⟨2, "bob", 1000, 0, 0, 0, 0⟩]
      ⟨1, 2, "", "", -1, 0⟩ ⟨1, 2, -1, 0⟩).1 (Or.inl (by decide))).1,
   ((C20_submit_rejects_invalid_requests (fun _ _ => (1 : ℚ))
      ⟨false, false, false, false, false⟩
      [⟨1, "ann", 1000, 0, 0, 0, 0⟩, ⟨2, "bob", 1000, 0, 0, 0, 0⟩]
      ⟨1, 2, "", "", -1, 0⟩ ⟨1, 2, -1, 0⟩).2.2.1 (Or.inl (by decide))
      (by decide) (by decide) rfl rfl).1⟩

theorem agree_incr_left (w l d t : Int)
    (h : t = wrapInt64 (wrapInt64 (w + l) + d)) :
    incr t = wrapInt64 (wrapInt64 (incr w + l) + d) ∧
    incr t = wrapInt64 (wrapInt64 (w + incr l) + d) ∧
    incr t = wrapInt64 (wrapInt64 (w + l) + incr d) := by
  unfold incr wrapInt64 at *
  norm_num at h ⊢
  omega

theorem agree_decr_left (w l d t : Int)
    (h : t = wrapInt64 (wrapInt64 (w + l) + d)) :
    decr t = wrapInt64 (wrapInt64 (decr w + l) + d) ∧
    decr t = wrapInt64 (wrapInt64 (w + decr l) + d) ∧
    decr t = wrapInt64 (wrapInt64 (w + l) + decr d) := by
  unfold decr wrapInt64 at *
  norm_num at h ⊢
  omega

theorem incr_of_lt (x : Int) (h0 : 0 ≤ x) (h1 : x < 2 ^ 63 - 1) : incr x = x + 1 := by
  unfold incr wrapInt64
  norm_num at h1 ⊢
  omega

theorem decr_of_nonneg (x : Int) (h0 : 0 ≤ x) (h1 : x < 2 ^ 63) : decr x = x - 1 := by
  unfold decr wrapInt64
  norm_num at h1 ⊢
  omega

/-- C28. If `TotalMatches = MatchesWon + MatchesLost + MatchesDrawn` holds
for both players before, it holds for both players after the update of
`SubmitMatch`, for every pair of scores, and after the reversal of a stored
match by `DeleteMatch`: in Go arithmetic for all values of the counters, and
over the mathematical integers as long as the counters are non-negative and
the total is below the largest `int`. -/
theorem C28_counters_stay_consistent (pow : α → α → α) (player1 player2 : Player α)
    (player1Score player2Score : Int) (record : Match α) :
    (CountersAgree player1 → CountersAgree player2 →
      CountersAgree (submitUpdate pow player1 player2 player1Score player2Score).1 ∧
      CountersAgree (submitUpdate pow player1 player2 player1Score player2Score).2.1 ∧
      CountersAgree (reverseUpdate player1 player2 record).1 ∧
      CountersAgree (reverseUpdate player1 player2 record).2) ∧
    (CountersSum player1 → CountersSum player2 →
      CountersInRange player1 → CountersInRange player2 →
      CountersSum (submitUpdate pow player1 player2 player1Score player2Score).1 ∧
      CountersSum (submitUpdate pow player1 player2 player1Score player2Score).2.1 ∧
      CountersSum (reverseUpdate player1 player2 record).1 ∧
      CountersSum (reverseUpdate player1 player2 record).2) := by
  cases player1 with
  | mk id1 n1 e1 w1 l1 d1 t1 =>
  cases player2 with
  | mk id2 n2 e2 w2 l2 d2 t2 =>
  constructor
  · intro h1 h2
    unfold CountersAgree at h1 h2
    simp only at h1 h2
    obtain ⟨a1, a2, a3⟩ := agree_incr_left w1 l1 d1 t1 h1
    obtain ⟨b1, b2, b3⟩ := agree_incr_left w2 l2 d2 t2 h2
    obtain ⟨c1, c2, c3⟩ := agree_decr_left w1 l1 d1 t1 h1
    obtain ⟨f1, f2, f3⟩ := agree_decr_left w2 l2 d2 t2 h2
    refine ⟨?_, ?_, ?_, ?_⟩
    · unfold submitUpdate CountersAgree
      simp only []
      split_ifs <;> assumption
    · unfold submitUpdate CountersAgree
      simp only []
      split_ifs <;> assumption
    · unfold reverseUpdate CountersAgree
      cases record.WinnerID with
      | none => exact c3
      | some w =>
        simp only []
        split_ifs <;> assumption
    · unfold reverseUpdate CountersAgree
      cases record.WinnerID with
      | none => exact f3
      | some w =>
        simp only []
        split_ifs <;> assumption
  · intro h1 h2 r1 r2
    unfold CountersSum at h1 h2
    unfold CountersInRange at r1 r2
    simp only at h1 h2 r1 r2
    obtain ⟨r11, r12, r13, r14⟩ := r1
    obtain ⟨r21, r22, r23, r24⟩ := r2
    have h63 : (2 : Int) ^ 63 = 9223372036854775808 := by norm_num
    have it1 := incr_of_lt t1 (by omega) r14
    have iw1 := incr_of_lt w1 r11 (by omega)
    have il1 := incr_of_lt l1 r12 (by omega)
    have id1 := incr_of_lt d1 r13 (by omega)
    have it2 := incr_of_lt t2 (by omega) r24
    have iw2 := incr_of_lt w2 r21 (by omega)
    have il2 := incr_of_lt l2 r22 (by omega)
    have id2 := incr_of_lt d2 r23 (by omega)
    have dt1 := decr_of_nonneg t1 (by omega) (by omega)
    have dw1 := decr_of_nonneg w1 r11 (by omega)
    have dl1 := decr_of_nonneg l1 r12 (by omega)
    have dd1 := decr_of_nonneg d1 r13 (by omega)
    have dt2 := decr_of_nonneg t2 (by omega) (by omega)
    have dw2 := decr_of_nonneg w2 r21 (by omega)
    have dl2 := decr_of_nonneg l2 r22 (by omega)
    have dd2 := decr_of_nonneg d2 r23 (by omega)
    refine ⟨?_, ?_, ?_, ?_⟩
    · unfold submitUpdate CountersSum
      simp only []
      split_ifs <;> simp only [it1, iw1, il1, id1] <;> omega
    · unfold submitUpdate CountersSum
      simp only []
      split_ifs <;> simp only [it2, iw2, il2, id2] <;> omega
    · unfold reverseUpdate CountersSum
      cases record.WinnerID with
      | none => simp only [dt1, dd1]; omega
      | some w =>
        simp only []
        split_ifs <;> simp only [dt1, dw1, dl1] <;> omega
    · unfold reverseUpdate CountersSum
      cases record.WinnerID with
      | none => simp only [dt2, dd2]; omega
      | some w =>
        simp only []
        split_ifs <;> simp only [dt2, dw2, dl2] <;> omega

/-- C28, at a concrete input: two players with one win each out of one
match, the first wins 11 to 5. -/
theorem C28_counters_stay_consistent_witness :
    CountersSum (submitUpdate (fun _ _ => (1 : ℚ)) ⟨1, "ann", 1000, 1, 0, 0, 1⟩
      ⟨2, "bob", 1000, 0, 1, 0, 1⟩ 11 5).1 ∧
    CountersSum (submitUpdate (fun _ _ => (1 : ℚ)) ⟨1, "ann", 1000, 1, 0, 0, 1⟩
      ⟨2, "bob", 1000, 0, 1, 0, 1⟩ 11 5).2.1 :=
  ⟨((C28_counters_stay_consistent (fun _ _ => (1 : ℚ)) ⟨1, "ann", 1000, 1, 0, 0, 1⟩
      ⟨2, "bob", 1000, 0, 1, 0, 1⟩ 11 5
      ⟨1, 2, 11, 5, some 1, 0, 0, 1000, 1000, 1000, 1000⟩).2
      (by decide) (by decide) (by decide) (by decide)).1,
   ((C28_counters_stay_consistent (fun _ _ => (1 : ℚ)) ⟨1, "ann", 1000, 1, 0, 0, 1⟩
      ⟨2, "bob", 1000, 0, 1, 0, 1⟩ 11 5
      ⟨1, 2, 11, 5, some 1, 0, 0, 1000, 1000, 1000, 1000⟩).2
      (by decide) (by decide) (by decide) (by decide)).2.1⟩

end UpdateClaims

end Handlers
